import Mathlib

/-!
TinyInfiniTensor: the graph core (`src/core/graph.cc`) and the MatMul shape rule
(`src/operators/matmul.cc`).

The C++ objects are reached through shared pointers.  The embedding keeps an
object store inside the graph value: an operator pointer is an `OpId`, a tensor
pointer is a `TensorId`, a null pointer is `none`, and every method that
mutates an object rewrites the store at that identifier.  Undefined behaviour
(null dereference, out-of-range `operator[]`) and a failing `IT_ASSERT` are
reported as a `Fault`.
-/

namespace infini

/-- Address of an `OperatorObj`. -/
abbrev OpId := Nat

/-- Address of a `TensorObj`. -/
abbrev TensorId := Nat

/-- Tensor shape, `vector<int>` of non-negative sizes. -/
abbrev Shape := List Nat

/-- Operator kinds used by the graph passes; every other kind is `Unknown`. -/
inductive OpType where
  | Transpose
  | MatMul
  | Unknown
  deriving DecidableEq, Repr

/-- Ways in which the C++ code stops without a result. -/
inductive Fault where
  | nullDeref
  | outOfBounds
  | assertion
  | outOfFuel
  deriving DecidableEq, Repr

/-- Fields of `TensorObj` read or written by the graph passes; the address of
the object stands for its guid, `data` is the address held by the bound blob,
absent until `dataMalloc` binds one, and `dtype` is the index of the data type. -/
structure TensorObj where
  fuid : Nat
  dims : Shape
  source : Option OpId
  targets : List OpId
  data : Option Nat := none
  dtype : Nat := 0

/-- Fields of `OperatorObj` (with the `TransposeObj` permutation and the
`MatmulObj` flags) read or written by the graph passes. -/
structure OperatorObj where
  opType : OpType
  inputs : List (Option TensorId)
  outputs : List (Option TensorId)
  predecessors : List OpId
  successors : List OpId
  permute : List Int
  transA : Bool
  transB : Bool

/-- The graph: its members `ops`, `tensors`, `sorted`, and the store of the
objects its pointers lead to. -/
structure GraphObj where
  ops : List OpId
  tensors : List TensorId
  sorted : Bool
  opObj : OpId → OperatorObj
  tensorObj : TensorId → TensorObj

/-- Store update at one address. -/
def setAt {α : Type} (f : Nat → α) (i : Nat) (v : α) : Nat → α :=
  fun j => if j = i then v else f j

/-- Rewrite the operator object at `i`. -/
def GraphObj.updOp (g : GraphObj) (i : OpId) (f : OperatorObj → OperatorObj) : GraphObj :=
  { g with opObj := setAt g.opObj i (f (g.opObj i)) }

/-- Rewrite the tensor object at `t`. -/
def GraphObj.updTensor (g : GraphObj) (t : TensorId) (f : TensorObj → TensorObj) : GraphObj :=
  { g with tensorObj := setAt g.tensorObj t (f (g.tensorObj t)) }

/-! ## `GraphObj::topo_sort` (graph.cc:64-101) -/

/-- The predicate handed to `std::all_of` (graph.cc:82-87), evaluated left to
right with early exit: an input passes when its source is null or flagged.
A null input is dereferenced by `input->getSource()`. -/
def sourcesFlagged (g : GraphObj) (flags : List OpId) :
    List (Option TensorId) → Except Fault Bool
  | [] => .ok true
  | none :: _ => .error .nullDeref
  | some t :: rest =>
    match (g.tensorObj t).source with
    | none => sourcesFlagged g flags rest
    | some p => if p ∈ flags then sourcesFlagged g flags rest else .ok false

/-- Locals of the sorting loop: `modified`, the vector `sorted`, the set `flags`. -/
structure SortState where
  modified : Bool
  sorted : List OpId
  flags : List OpId

/-- One run of the inner `for (auto const &op : ops)` loop (graph.cc:78-93). -/
def sortPass (g : GraphObj) : List OpId → SortState → Except Fault SortState
  | [], s => .ok s
  | op :: rest, s =>
    if op ∈ s.flags then sortPass g rest s
    else
      match sourcesFlagged g s.flags (g.opObj op).inputs with
      | .error e => .error e
      | .ok false => sortPass g rest s
      | .ok true =>
        sortPass g rest
          { modified := true, sorted := s.sorted ++ [op], flags := op :: s.flags }

/-- The `while (sorted.size() < ops.size())` loop (graph.cc:74-98), with a bound
on the number of passes. `some l` is normal exit with `sorted = l`, `none` is
the `return false` of a pass that placed nothing. -/
def sortLoop (g : GraphObj) : Nat → List OpId → List OpId → Except Fault (Option (List OpId))
  | 0, sorted, _ =>
    if sorted.length < g.ops.length then .error .outOfFuel else .ok (some sorted)
  | fuel + 1, sorted, flags =>
    if sorted.length < g.ops.length then
      match sortPass g g.ops { modified := false, sorted := sorted, flags := flags } with
      | .error e => .error e
      | .ok s => if s.modified then sortLoop g fuel s.sorted s.flags else .ok none
    else .ok (some sorted)

/-- Method `GraphObj::topo_sort`: the returned flag and the graph afterwards. -/
def GraphObj.topo_sort (g : GraphObj) : Except Fault (Bool × GraphObj) :=
  if g.sorted then .ok (true, g)
  else
    match sortLoop g (g.ops.length + 1) [] [] with
    | .error e => .error e
    | .ok none => .ok (false, g)
    | .ok (some l) => .ok (true, { g with ops := l, sorted := true })

/-! ## Object methods declared in headers outside the available sources -/

/-- Modelled from the spec: `TensorObj::addTarget` is declared in a header that
is not among the sources; targets are kept in insertion order (spec §3), so the
consumer is appended. -/
def GraphObj.addTarget (g : GraphObj) (t : TensorId) (op : OpId) : GraphObj :=
  g.updTensor t fun o => { o with targets := o.targets ++ [op] }

/-- Modelled from the spec: `TensorObj::removeTarget` is declared in a header
that is not among the sources; it detaches every reference to the consumer. -/
def GraphObj.removeTarget (g : GraphObj) (t : TensorId) (op : OpId) : GraphObj :=
  g.updTensor t fun o => { o with targets := o.targets.filter fun x => decide (x ≠ op) }

/-- Modelled from the spec: `TensorObj::setSource` is declared in a header that
is not among the sources; a tensor has at most one producer, which it replaces. -/
def GraphObj.setSource (g : GraphObj) (t : TensorId) (op : OpId) : GraphObj :=
  g.updTensor t fun o => { o with source := some op }

/-- Modelled from the spec: `OperatorObj::addPredecessors` is declared in a
header that is not among the sources; it appends to the predecessor list. -/
def GraphObj.addPredecessors (g : GraphObj) (op pred : OpId) : GraphObj :=
  g.updOp op fun o => { o with predecessors := o.predecessors ++ [pred] }

/-- Modelled from the spec: `OperatorObj::addSuccessors` is declared in a
header that is not among the sources; it appends to the successor list. -/
def GraphObj.addSuccessors (g : GraphObj) (op succ : OpId) : GraphObj :=
  g.updOp op fun o => { o with successors := o.successors ++ [succ] }

/-- Modelled from the spec: `OperatorObj::removePredecessors` is declared in a
header that is not among the sources; it detaches every reference to `pred`. -/
def GraphObj.removePredecessors (g : GraphObj) (op pred : OpId) : GraphObj :=
  g.updOp op fun o => { o with predecessors := o.predecessors.filter fun x => decide (x ≠ pred) }

/-- Modelled from the spec: `OperatorObj::replaceInput` is declared in a header
that is not among the sources; every input position holding `t1` is rewired to
`t2` (spec §4.4, "rewire every consumer"). -/
def GraphObj.replaceInput (g : GraphObj) (op : OpId) (t1 t2 : TensorId) : GraphObj :=
  g.updOp op fun o =>
    { o with inputs := o.inputs.map fun x => if x = some t1 then some t2 else x }

/-- Modelled from the spec: `OperatorObj::getOutput` is declared in a header
that is not among the sources; it is the operator's single output (spec §4.4),
and asking for it on an operator without exactly one output is an assertion. -/
def GraphObj.getOutput (g : GraphObj) (op : OpId) : Except Fault (Option TensorId) :=
  match (g.opObj op).outputs with
  | [o] => .ok o
  | _ => .error .assertion

/-- Modelled from the spec: `GraphObj::removeOperator` is declared in a header
that is not among the sources; it detaches the operator from the operator list
and leaves every edge to the caller (spec §4.1).  The store keeps the object of
a removed operator, so an edge that still names it keeps resolving. -/
def GraphObj.removeOperator (g : GraphObj) (op : OpId) : GraphObj :=
  { g with ops := g.ops.erase op }

/-- Modelled from the spec: `GraphObj::removeTensor` is declared in a header
that is not among the sources; it detaches the tensor from the tensor list and
leaves every edge to the caller (spec §4.1).  A null pointer is in no list. -/
def GraphObj.removeTensor (g : GraphObj) : Option TensorId → GraphObj
  | none => g
  | some t => { g with tensors := g.tensors.erase t }

/-- Checked `operator[]`: reading past the end is undefined behaviour. -/
def elemAt {α : Type} (l : List α) (i : Nat) : Except Fault α :=
  match l[i]? with
  | some a => .ok a
  | none => .error .outOfBounds

/-- Dereference of a possibly null pointer. -/
def deref {α : Type} (p : Option α) : Except Fault α :=
  match p with
  | some a => .ok a
  | none => .error .nullDeref

/-- A `for` loop over a snapshot of a vector whose body may fault. -/
def forEachM {σ α : Type} (step : σ → α → Except Fault σ) : List α → σ → Except Fault σ
  | [], s => .ok s
  | a :: rest, s =>
    match step s a with
    | .error e => .error e
    | .ok s1 => forEachM step rest s1

/-! ## `GraphObj::addOperatorAndConnect` (graph.cc:11-39) and `addTensor` -/

/-- Body of the loop over the inputs (graph.cc:15-26). -/
def connectInput (op : OpId) (g : GraphObj) : Option TensorId → GraphObj
  | none => g
  | some t =>
    match ((g.addTarget t op).tensorObj t).source with
    | none => g.addTarget t op
    | some pred => (((g.addTarget t op).addSuccessors pred op).addPredecessors op pred)

/-- Body of the inner loop over the targets of an output (graph.cc:32-36). -/
def connectSucc (op : OpId) (g : GraphObj) (succ : OpId) : GraphObj :=
  (g.addPredecessors succ op).addSuccessors op succ

/-- Body of the loop over the outputs (graph.cc:27-38). -/
def connectOutput (op : OpId) (g : GraphObj) : Option TensorId → GraphObj
  | none => g
  | some t => (((g.setSource t op).tensorObj t).targets).foldl (connectSucc op) (g.setSource t op)

/-- Method `GraphObj::addOperatorAndConnect` (graph.cc:11-39). -/
def GraphObj.addOperatorAndConnect (g : GraphObj) (op : OpId) : GraphObj :=
  let g0 : GraphObj := { g with sorted := false, ops := g.ops ++ [op] }
  let g1 := (g0.opObj op).inputs.foldl (connectInput op) g0
  (g1.opObj op).outputs.foldl (connectOutput op) g1

/-- Method `GraphObj::addTensor(Shape, DataType)` (graph.cc:267-270): `t` is the
address of the tensor object `make_ref` builds and `fuid` the identifier its
constructor draws; the new tensor has no producer and no consumer. -/
def GraphObj.addTensor (g : GraphObj) (t : TensorId) (fuid : Nat) (dim : Shape) : GraphObj :=
  { g with
    tensors := g.tensors ++ [t]
    tensorObj := setAt g.tensorObj t { fuid := fuid, dims := dim, source := none, targets := [] } }

/-! ## `GraphObj::checkValid` (graph.cc:293-336) -/

/-- The assertions of the first loop for one tensor (graph.cc:297-304). -/
def tensorOk (g : GraphObj) (t : TensorId) : Bool :=
  !((g.tensorObj t).targets.length == 0 && (g.tensorObj t).source.isNone)
  && (g.tensorObj t).targets.all (fun op => decide (op ∈ g.ops))
  && (match (g.tensorObj t).source with
      | none => true
      | some op => decide (op ∈ g.ops))

/-- Test `std::find(tensors.begin(), tensors.end(), tensor) != tensors.end()`; the
tensor list holds no null pointer. -/
def inTensors (g : GraphObj) : Option TensorId → Bool
  | none => false
  | some t => decide (t ∈ g.tensors)

/-- The assertions of the second loop for one operator (graph.cc:308-325). -/
def operatorOk (g : GraphObj) (op : OpId) : Bool :=
  (g.opObj op).inputs.all (inTensors g)
  && (g.opObj op).outputs.all (inTensors g)
  && (g.opObj op).predecessors.all (fun p => decide (p ∈ g.ops))
  && (g.opObj op).successors.all (fun p => decide (p ∈ g.ops))

/-- The scan with the set `s` of fuids seen so far (graph.cc:327-334). -/
def fuidScan (g : GraphObj) : List TensorId → List Nat → Bool
  | [], _ => true
  | t :: rest, s =>
    if (g.tensorObj t).fuid ∈ s then false
    else fuidScan g rest ((g.tensorObj t).fuid :: s)

/-- Method `GraphObj::checkValid`: `ok true` when every assertion holds, a fault when
one of them throws. -/
def GraphObj.checkValid (g : GraphObj) : Except Fault Bool :=
  if g.tensors.all (tensorOk g) && g.ops.all (operatorOk g) && fuidScan g g.tensors [] then
    .ok true
  else .error .assertion

/-! ## `GraphObj::optimize` (graph.cc:115-203) -/

/-- Locals of `optimize`: the graph being rewritten and `remove_vec`. -/
structure OptState where
  g : GraphObj
  remove_vec : List OpId

/-- Body of the loop over the consumers of `next_output` (graph.cc:141-146). -/
def rewireTarget (next_op : OpId) (next_output input : TensorId) (g : GraphObj)
    (target : OpId) : GraphObj :=
  ((g.addTarget input target).replaceInput target next_output input).removePredecessors
    target next_op

/-- Body of the first loop (graph.cc:126-153). -/
def pass1Step (s : OptState) (op : OpId) : Except Fault OptState :=
  if (s.g.opObj op).opType = OpType.Transpose then
    match elemAt (s.g.opObj op).inputs 0 with
    | .error e => .error e
    | .ok input =>
    match s.g.getOutput op with
    | .error e => .error e
    | .ok output =>
    match deref output with
    | .error e => .error e
    | .ok out =>
    match elemAt (s.g.tensorObj out).targets 0 with
    | .error e => .error e
    | .ok next_op =>
    if (s.g.opObj next_op).opType = OpType.Transpose then
      match s.g.getOutput next_op with
      | .error e => .error e
      | .ok next_output =>
      match deref next_output with
      | .error e => .error e
      | .ok nout =>
      match deref input with
      | .error e => .error e
      | .ok inp =>
      if (s.g.tensorObj nout).dims = (s.g.tensorObj inp).dims then
        .ok
          { g := ((((s.g.tensorObj nout).targets.foldl (rewireTarget next_op nout inp)
                s.g).removeTarget inp op).removeTensor output).removeTensor next_output
            remove_vec := s.remove_vec ++ [op, next_op] }
      else .ok s
    else .ok s
  else .ok s

/-- The test on the permutation (graph.cc:168 and 184). -/
def swapsLastTwo (permute : List Int) : Bool :=
  decide (2 ≤ permute.length)
  && decide (permute[permute.length - 2]? = some ((permute.length - 1 : Nat) : Int))
  && decide (permute[permute.length - 1]? = some ((permute.length - 2 : Nat) : Int))

/-- Call `setTransA(true)` when `second` is false, `setTransB(true)` otherwise. -/
def GraphObj.setTrans (g : GraphObj) (second : Bool) (op : OpId) : GraphObj :=
  g.updOp op fun o => if second then { o with transB := true } else { o with transA := true }

/-- The two `if` blocks of the second loop (graph.cc:164-179 for the first
input, 180-195 for the second), which differ only in the flag they set. -/
def fuseInput (second : Bool) (op : OpId) (s : OptState) (input : Option TensorId) :
    Except Fault OptState :=
  match deref input with
  | .error e => .error e
  | .ok inp =>
  match (s.g.tensorObj inp).source with
  | none => .ok s
  | some transpose_op =>
    if (s.g.opObj transpose_op).opType = OpType.Transpose then
      if swapsLastTwo (s.g.opObj transpose_op).permute then
        match elemAt ((s.g.setTrans second op).opObj transpose_op).inputs 0 with
        | .error e => .error e
        | .ok transpose_input =>
        match deref transpose_input with
        | .error e => .error e
        | .ok tin =>
        match (((((s.g.setTrans second op).removeTarget tin transpose_op).addTarget tin
            op).replaceInput op inp tin).removePredecessors op transpose_op).getOutput
            transpose_op with
        | .error e => .error e
        | .ok tout =>
          .ok
            { g := (((((s.g.setTrans second op).removeTarget tin transpose_op).addTarget tin
                op).replaceInput op inp tin).removePredecessors op transpose_op).removeTensor
                tout
              remove_vec := s.remove_vec ++ [transpose_op] }
      else .ok s
    else .ok s

/-- Body of the second loop (graph.cc:156-197). -/
def pass2Step (s : OptState) (op : OpId) : Except Fault OptState :=
  if (s.g.opObj op).opType = OpType.MatMul then
    match elemAt (s.g.opObj op).inputs 0 with
    | .error e => .error e
    | .ok input_a =>
    match elemAt (s.g.opObj op).inputs 1 with
    | .error e => .error e
    | .ok input_b =>
    match s.g.getOutput op with
    | .error e => .error e
    | .ok _ =>
    match fuseInput false op s input_a with
    | .error e => .error e
    | .ok s1 => fuseInput true op s1 input_b
  else .ok s

/-- Method `GraphObj::optimize`: both loops run over the member `ops`, which neither
of them changes; the marked operators are removed afterwards. -/
def GraphObj.optimize (g : GraphObj) : Except Fault GraphObj :=
  match forEachM pass1Step g.ops { g := g, remove_vec := [] } with
  | .error e => .error e
  | .ok s1 =>
    match forEachM pass2Step s1.g.ops s1 with
    | .error e => .error e
    | .ok s2 => .ok (s2.remove_vec.foldl GraphObj.removeOperator s2.g)

/-! ## `MatmulObj::inferShape` (matmul.cc:25-50) -/

/-- One axis of a broadcast: equal sizes, or one of them is 1. -/
def broadcastDim (a b : Nat) : Except Fault Nat :=
  if a = b then .ok a
  else if a = 1 then .ok b
  else if b = 1 then .ok a
  else .error .assertion

/-- Axis-wise broadcast of two shapes of the same rank. -/
def zipBroadcast : Shape → Shape → Except Fault Shape
  | a :: as, b :: bs =>
    match broadcastDim a b with
    | .error e => .error e
    | .ok d =>
      match zipBroadcast as bs with
      | .error e => .error e
      | .ok ds => .ok (d :: ds)
  | _, _ => .ok []

/-- Left padding with 1s up to rank `n`. -/
def padLeft (n : Nat) (s : Shape) : Shape :=
  List.replicate (n - s.length) 1 ++ s

/-- Modelled from the spec: `infer_broadcast` is defined in
`utils/operator_utils.cc`, which is not among the sources; spec §4.3: the
shorter shape is right-aligned and padded with 1s, and each axis is either
equal in both shapes or 1 in one of them. -/
def infer_broadcast (A B : Shape) : Except Fault Shape :=
  zipBroadcast (padLeft (max A.length B.length) A) (padLeft (max A.length B.length) B)

/-- The `std::swap` of the last two entries (matmul.cc:38 and 41), for rank >= 2. -/
def swapLastTwo (s : Shape) : Shape :=
  (s.set (s.length - 1) (s.getD (s.length - 2) 0)).set (s.length - 2) (s.getD (s.length - 1) 0)

/-- Method `MatmulObj::inferShape` on the dimensions of its input tensors.  The writes
`shape_A[rank_A - 1]` and `shape_B[rank_B - 2]` are out of range for an empty
`shape_A` or a `shape_B` of rank below 2. -/
def MatmulObj.inferShape (transA transB : Bool) (inputs : List Shape) :
    Except Fault (Option (List Shape)) :=
  match elemAt inputs 0 with
  | .error e => .error e
  | .ok shape_A =>
  match elemAt inputs 1 with
  | .error e => .error e
  | .ok shape_B =>
    if shape_A.length < 1 ∨ shape_B.length < 2 then .error .outOfBounds
    else
      match infer_broadcast
          ((if transA && decide (2 ≤ shape_A.length) then swapLastTwo shape_A
            else shape_A).set (shape_A.length - 1) 1)
          ((if transB && decide (2 ≤ shape_B.length) then swapLastTwo shape_B
            else shape_B).set (shape_B.length - 2) 1) with
      | .error e => .error e
      | .ok shape_output => .ok (some [shape_output])

/-! ## `isInverse` (graph.cc:104-113) -/

/-- The loop of `isInverse` from index `i` with `n` iterations left: `permB[i]`
and `permA[permB[i]]` are unchecked reads, and a negative index converts to an
out-of-range `size_t`. -/
def isInverseFrom (permA permB : List Int) : Nat → Nat → Except Fault Bool
  | 0, _ => .ok true
  | n + 1, i =>
    match elemAt permB i with
    | .error e => .error e
    | .ok j =>
      if j < 0 then .error .outOfBounds
      else
        match elemAt permA j.toNat with
        | .error e => .error e
        | .ok v => if v ≠ (i : Int) then .ok false else isInverseFrom permA permB n (i + 1)

/-- Function `isInverse(a, b)` on two Transpose operators. -/
def isInverse (a b : OperatorObj) : Except Fault Bool :=
  isInverseFrom a.permute b.permute a.permute.length 0

/-! ## Predicates used to state the properties -/

/-- Operator `p` produces an input of `q`: some input tensor of `q` has source `p`. -/
def Produces (g : GraphObj) (p q : OpId) : Prop :=
  ∃ t, some t ∈ (g.opObj q).inputs ∧ (g.tensorObj t).source = some p

/-- In the list `l`, every operator comes after the producer of each of its inputs. -/
def OrderedList (g : GraphObj) (l : List OpId) : Prop :=
  ∀ j q, l[j]? = some q → ∀ p, Produces g p q → ∃ i : Nat, i < j ∧ l[i]? = some p

/-- The operator list is in topological order. -/
def TopoOrdered (g : GraphObj) : Prop := OrderedList g g.ops

/-- No listed operator has a null input. -/
def InputsNonNull (g : GraphObj) : Prop := ∀ q ∈ g.ops, none ∉ (g.opObj q).inputs

/-- The producer of every input of a listed operator is itself listed. -/
def SourcesInOps (g : GraphObj) : Prop := ∀ q ∈ g.ops, ∀ p, Produces g p q → p ∈ g.ops

/-- No listed operator reaches itself through the producer relation. -/
def Acyclic (g : GraphObj) : Prop := ∀ p ∈ g.ops, ¬ Relation.TransGen (Produces g) p p

/-- Some listed operator reaches itself through the producer relation. -/
def HasCycle (g : GraphObj) : Prop := ∃ p ∈ g.ops, Relation.TransGen (Produces g) p p

/-- Facts about the locals that hold at every point of the sorting loop. -/
structure SortInv (g : GraphObj) (sorted flags : List OpId) : Prop where
  nodup : sorted.Nodup
  flags : ∀ x, x ∈ flags ↔ x ∈ sorted
  sub : ∀ x ∈ sorted, x ∈ g.ops

/-- What the assertions of `checkValid` say. -/
structure Valid (g : GraphObj) : Prop where
  live : ∀ t ∈ g.tensors, (g.tensorObj t).targets ≠ [] ∨ (g.tensorObj t).source ≠ none
  targets_in : ∀ t ∈ g.tensors, ∀ op ∈ (g.tensorObj t).targets, op ∈ g.ops
  source_in : ∀ t ∈ g.tensors, ∀ op, (g.tensorObj t).source = some op → op ∈ g.ops
  inputs_in : ∀ op ∈ g.ops, ∀ x ∈ (g.opObj op).inputs, ∃ t, x = some t ∧ t ∈ g.tensors
  outputs_in : ∀ op ∈ g.ops, ∀ x ∈ (g.opObj op).outputs, ∃ t, x = some t ∧ t ∈ g.tensors
  preds_in : ∀ op ∈ g.ops, ∀ p ∈ (g.opObj op).predecessors, p ∈ g.ops
  succs_in : ∀ op ∈ g.ops, ∀ p ∈ (g.opObj op).successors, p ∈ g.ops
  fuids : (g.tensors.map fun t => (g.tensorObj t).fuid).Nodup

/-- The graph `g'` differs from `g` only by added edges that lead into `g.ops`. -/
structure Grows (g g' : GraphObj) : Prop where
  ops : g'.ops = g.ops
  tensors : g'.tensors = g.tensors
  fuid : ∀ t, (g'.tensorObj t).fuid = (g.tensorObj t).fuid
  inputs : ∀ i, (g'.opObj i).inputs = (g.opObj i).inputs
  outputs : ∀ i, (g'.opObj i).outputs = (g.opObj i).outputs
  source : ∀ t o, (g'.tensorObj t).source = some o →
    (g.tensorObj t).source = some o ∨ o ∈ g.ops
  source_keep : ∀ t, (g.tensorObj t).source ≠ none → (g'.tensorObj t).source ≠ none
  targets : ∀ t, ∀ x ∈ (g'.tensorObj t).targets, x ∈ (g.tensorObj t).targets ∨ x ∈ g.ops
  targets_keep : ∀ t, (g.tensorObj t).targets ≠ [] → (g'.tensorObj t).targets ≠ []
  preds : ∀ i, ∀ x ∈ (g'.opObj i).predecessors, x ∈ (g.opObj i).predecessors ∨ x ∈ g.ops
  succs : ∀ i, ∀ x ∈ (g'.opObj i).successors, x ∈ (g.opObj i).successors ∨ x ∈ g.ops

/-- The tensor is not the output of a Transpose that swaps the last two axes,
so the second loop of `optimize` leaves a MatMul reading it alone. -/
def notFusable (g : GraphObj) (y : TensorId) : Bool :=
  match (g.tensorObj y).source with
  | none => true
  | some p => !(decide ((g.opObj p).opType = OpType.Transpose) && swapsLastTwo (g.opObj p).permute)

/-- The flag `optimize` sets for the first (`second = false`) or second input. -/
def OperatorObj.transFlag (o : OperatorObj) (second : Bool) : Bool :=
  if second then o.transB else o.transA

/-- Shape of a transposed tensor: output axis `i` has the size of input axis `perm[i]`. -/
def transposedDims (perm : List Int) (d : Shape) : Shape :=
  perm.map fun k => d.getD k.toNat 0

/-- What the second loop of `optimize` keeps fixed between two graph states. -/
structure Frame2 (g g' : GraphObj) : Prop where
  ops : g'.ops = g.ops
  sorted : g'.sorted = g.sorted
  opType : ∀ i, (g'.opObj i).opType = (g.opObj i).opType
  other : ∀ i, (g.opObj i).opType ≠ OpType.MatMul → g'.opObj i = g.opObj i
  outputs : ∀ i, (g'.opObj i).outputs = (g.opObj i).outputs
  source : ∀ t, (g'.tensorObj t).source = (g.tensorObj t).source
  dims : ∀ t, (g'.tensorObj t).dims = (g.tensorObj t).dims
  tensors : ∀ t, t ∈ g'.tensors → t ∈ g.tensors
  nodup : g.tensors.Nodup → g'.tensors.Nodup
  targets_new : ∀ t c, c ∈ (g'.tensorObj t).targets →
    c ∈ (g.tensorObj t).targets ∨ (g.opObj c).opType = OpType.MatMul
  targets_old : ∀ t c, c ∈ (g.tensorObj t).targets →
    c ∈ (g'.tensorObj t).targets ∨ (g.opObj c).opType = OpType.Transpose

/-- The graph after one of the two fusion blocks has fired: `op` is the MatMul,
`tr` the Transpose, `inp` its output as read by `op`, `tin` its input and
`tout` what `getOutput` returns for it. -/
def fusedGraph (second : Bool) (op tr : OpId) (inp tin : TensorId) (tout : Option TensorId)
    (g : GraphObj) : GraphObj :=
  (((((g.setTrans second op).removeTarget tin tr).addTarget tin op).replaceInput op inp
    tin).removePredecessors op tr).removeTensor tout

/-- An operator object after `rewireTarget` has visited it: `nout` replaced by
`inp` among the inputs, `next_op` dropped from the predecessors. -/
def rewired (next_op : OpId) (nout inp : TensorId) (o : OperatorObj) : OperatorObj :=
  { o with
    inputs := o.inputs.map fun x => if x = some nout then some inp else x
    predecessors := o.predecessors.filter fun x => decide (x ≠ next_op) }

/-- The graph after the first loop has fired at `op`, whose input is `inp`,
whose output is `output`, and whose first consumer `next_op` has the output
`nout`. -/
def splicedGraph (op next_op : OpId) (inp : TensorId) (output : Option TensorId)
    (nout : TensorId) (g : GraphObj) : GraphObj :=
  ((((g.tensorObj nout).targets.foldl (rewireTarget next_op nout inp) g).removeTarget inp
    op).removeTensor output).removeTensor (some nout)

/-! ## Example graphs -/

/-- An operator object of another kind with no tensors and no edges. -/
def OperatorObj.blank : OperatorObj :=
  { opType := .Unknown, inputs := [], outputs := [], predecessors := [], successors := [],
    permute := [], transA := false, transB := false }

/-- A tensor object with no producer and no consumer. -/
def TensorObj.blank : TensorObj := { fuid := 0, dims := [], source := none, targets := [] }

/-- An operator object as its constructor leaves it: kind, inputs, outputs and
permutation set, no edges and both flags false. -/
def OperatorObj.make (ty : OpType) (ins outs : List (Option TensorId)) (perm : List Int) :
    OperatorObj :=
  { opType := ty, inputs := ins, outputs := outs, predecessors := [], successors := [],
    permute := perm, transA := false, transB := false }

/-- The empty graph, with the operator objects `ops` constructed but not added. -/
def GraphObj.init (ops : OpId → OperatorObj) : GraphObj :=
  { ops := [], tensors := [], sorted := false, opObj := ops,
    tensorObj := fun _ => TensorObj.blank }

/-- Operator store of the two-operator chain: operator 0 writes tensor 0,
operator 1 reads it; operator 2 also reads it and is not yet connected. -/
def chainOps : OpId → OperatorObj
  | 0 => { OperatorObj.blank with outputs := [some 0], successors := [1] }
  | 1 => { OperatorObj.blank with inputs := [some 0], predecessors := [0] }
  | 2 => { OperatorObj.blank with inputs := [some 0] }
  | _ => OperatorObj.blank

/-- Tensor store of the two-operator chain. -/
def chainTensors : TensorId → TensorObj
  | 0 => { TensorObj.blank with source := some 0, targets := [1] }
  | _ => TensorObj.blank

/-- The chain with the consumer listed before its producer, not yet sorted. -/
def chainGraph : GraphObj :=
  { ops := [1, 0], tensors := [0], sorted := false, opObj := chainOps, tensorObj := chainTensors }

/-- The same list with the `sorted` flag already set. -/
def staleGraph : GraphObj := { chainGraph with sorted := true }

/-- Operator store of a self-loop: operator 0 reads its own output, tensor 0;
`nullFirst` puts a null pointer in front of that input. -/
def loopOps (nullFirst : Bool) : OpId → OperatorObj
  | 0 => { OperatorObj.blank with
            inputs := if nullFirst then [none, some 0] else [some 0], outputs := [some 0] }
  | _ => OperatorObj.blank

/-- Tensor store of the self-loop. -/
def loopTensors : TensorId → TensorObj
  | 0 => { TensorObj.blank with source := some 0, targets := [0] }
  | _ => TensorObj.blank

/-- An unsorted graph whose only operator consumes its own output. -/
def loopGraph (nullFirst : Bool) : GraphObj :=
  { ops := [0], tensors := [0], sorted := false, opObj := loopOps nullFirst,
    tensorObj := loopTensors }

/-- Operators of the fusion example: MatMul 0 writes tensor 2, Transpose 1
turns it into tensor 3, MatMul 2 reads tensors 3 and 4. -/
def fusionOps : OpId → OperatorObj
  | 0 => OperatorObj.make .MatMul [some 0, some 1] [some 2] []
  | 1 => OperatorObj.make .Transpose [some 2] [some 3] [1, 0]
  | 2 => OperatorObj.make .MatMul [some 3, some 4] [some 5] []
  | _ => OperatorObj.blank

/-- The fusion example, built through `addTensor` and `addOperatorAndConnect`. -/
def fusionGraph : GraphObj :=
  (((((((((GraphObj.init fusionOps).addTensor 0 0 [2, 3]).addTensor 1 1 [3, 4]).addTensor 2 2
    [2, 4]).addTensor 3 3 [4, 2]).addTensor 4 4 [2, 5]).addTensor 5 5
    [4, 5]).addOperatorAndConnect 0).addOperatorAndConnect 1).addOperatorAndConnect 2

/-- A lone Transpose whose output, tensor 1, has no consumer. -/
def danglingOps : OpId → OperatorObj
  | 0 => OperatorObj.make .Transpose [some 0] [some 1] [1, 0]
  | _ => OperatorObj.blank

/-- The graph holding only that Transpose. -/
def danglingGraph : GraphObj :=
  (((GraphObj.init danglingOps).addTensor 0 0 [2, 3]).addTensor 1 1
    [3, 2]).addOperatorAndConnect 0

/-- Operators of the shared-transpose example: Transpose 0 writes tensor 1,
which MatMul 1 and operator 2 of another kind both read. -/
def sharedOps : OpId → OperatorObj
  | 0 => OperatorObj.make .Transpose [some 0] [some 1] [1, 0]
  | 1 => OperatorObj.make .MatMul [some 1, some 2] [some 3] []
  | 2 => OperatorObj.make .Unknown [some 1] [some 4] []
  | _ => OperatorObj.blank

/-- The shared-transpose example, built from the empty graph. -/
def sharedGraph : GraphObj :=
  ((((((((GraphObj.init sharedOps).addTensor 0 0 [2, 3]).addTensor 1 1 [3, 2]).addTensor 2 2
    [2, 5]).addTensor 3 3 [3, 5]).addTensor 4 4
    [3, 2]).addOperatorAndConnect 0).addOperatorAndConnect 1).addOperatorAndConnect 2

/-- Operators of the inverse-pair example: Transpose 0 turns tensor 0 into
tensor 1, Transpose 1 turns it back into tensor 2, MatMul 2 reads tensors 2
and 3. -/
def pairOps : OpId → OperatorObj
  | 0 => OperatorObj.make .Transpose [some 0] [some 1] [1, 0]
  | 1 => OperatorObj.make .Transpose [some 1] [some 2] [1, 0]
  | 2 => OperatorObj.make .MatMul [some 2, some 3] [some 4] []
  | _ => OperatorObj.blank

/-- The inverse-pair example, built from the empty graph. -/
def pairGraph : GraphObj :=
  ((((((((GraphObj.init pairOps).addTensor 0 0 [2, 3]).addTensor 1 1 [3, 2]).addTensor 2 2
    [2, 3]).addTensor 3 3 [3, 4]).addTensor 4 4
    [2, 4]).addOperatorAndConnect 0).addOperatorAndConnect 1).addOperatorAndConnect 2

/-- Operators of the mirrored fusion example: Transpose 0 turns tensor 0 into
tensor 1, which MatMul 1 reads as its second input next to tensor 2. -/
def mirrorOps : OpId → OperatorObj
  | 0 => OperatorObj.make .Transpose [some 0] [some 1] [0, 2, 1]
  | 1 => OperatorObj.make .MatMul [some 2, some 1] [some 3] []
  | _ => OperatorObj.blank

/-- The mirrored fusion example, built from the empty graph. -/
def mirrorGraph : GraphObj :=
  ((((((GraphObj.init mirrorOps).addTensor 0 0 [5, 4, 3]).addTensor 1 1 [5, 3, 4]).addTensor 2 2
    [5, 2, 3]).addTensor 3 3 [5, 2, 4]).addOperatorAndConnect 0).addOperatorAndConnect 1

/-! ## `GraphObj::getTensor` and `GraphObj::shape_infer` (graph.cc:205-238) -/

/-- Method `GraphObj::getTensor`: the first tensor of the tensor list with the
given fuid, or the null pointer. -/
def GraphObj.getTensor (g : GraphObj) (fuid : Nat) : Option TensorId :=
  g.tensors.find? fun t => decide ((g.tensorObj t).fuid = fuid)

/-- Modelled from the spec: `TensorObj::setShape` is declared in a header that
is not among the sources; spec §4.3: the shape is updated in place and nothing
else of the tensor changes. -/
def GraphObj.setShape (g : GraphObj) (t : TensorId) (shape : Shape) : GraphObj :=
  g.updTensor t fun o => { o with dims := shape }

/-- The call `MatmulObj::inferShape(inputs)` on the shapes of the inputs (a
null input is `none`): `inputs[0]->getDims()` and `inputs[1]->getDims()` are
read in this order. -/
def matmulOnInputs (transA transB : Bool) (shapes : List (Option Shape)) :
    Except Fault (Option (List Shape)) :=
  match elemAt shapes 0 with
  | .error e => .error e
  | .ok a0 =>
  match deref a0 with
  | .error e => .error e
  | .ok shape_A =>
  match elemAt shapes 1 with
  | .error e => .error e
  | .ok b0 =>
  match deref b0 with
  | .error e => .error e
  | .ok shape_B => MatmulObj.inferShape transA transB [shape_A, shape_B]

/-- The shapes the inputs of an operator have at present. -/
def inputShapes (g : GraphObj) (op : OpId) : List (Option Shape) :=
  (g.opObj op).inputs.map fun x => x.map fun t => (g.tensorObj t).dims

/-- The virtual call `op->inferShape()`: the MatMul rule is the one of
matmul.cc; the rules of the other kinds are defined outside the available
sources and are the parameter `other`, a function of the operator and the
shapes of its inputs. -/
def inferShapeOf (other : OperatorObj → List (Option Shape) → Except Fault (Option (List Shape)))
    (g : GraphObj) (op : OpId) : Except Fault (Option (List Shape)) :=
  match (g.opObj op).opType with
  | .MatMul => matmulOnInputs (g.opObj op).transA (g.opObj op).transB (inputShapes g op)
  | _ => other (g.opObj op) (inputShapes g op)

/-- The loop over the outputs (graph.cc:226-236): `outs` is the copy
`oldOutputs`, `ans` the inferred shapes still to be written. -/
def shapeOutputs (g : GraphObj) : List (Option TensorId) → List Shape → Except Fault GraphObj
  | o :: outs, newShape :: ans =>
    match deref o with
    | .error e => .error e
    | .ok t =>
      if newShape ≠ (g.tensorObj t).dims then
        match deref (g.getTensor (g.tensorObj t).fuid) with
        | .error e => .error e
        | .ok u => shapeOutputs (g.setShape u newShape) outs ans
      else shapeOutputs g outs ans
  | _, _ => .ok g

/-- Body of the loop over the operators (graph.cc:219-237). -/
def shapeStep (other : OperatorObj → List (Option Shape) → Except Fault (Option (List Shape)))
    (g : GraphObj) (op : OpId) : Except Fault GraphObj :=
  match inferShapeOf other g op with
  | .error e => .error e
  | .ok none => .error .assertion
  | .ok (some ans) =>
    if ans.length = (g.opObj op).outputs.length then shapeOutputs g (g.opObj op).outputs ans
    else .error .assertion

/-- Method `GraphObj::shape_infer`. -/
def GraphObj.shape_infer
    (other : OperatorObj → List (Option Shape) → Except Fault (Option (List Shape)))
    (g : GraphObj) : Except Fault GraphObj :=
  forEachM (shapeStep other) g.ops g

/-! ## `GraphObj::dataMalloc` (graph.cc:240-265) -/

/-- Modelled from the spec: the `Allocator` class is defined outside the
available sources; spec §4.5: a bump arena with one cursor `used` into a
backing buffer at address `base`, and an alignment. -/
structure Allocator where
  used : Nat
  alignment : Nat
  base : Nat

/-- Modelled from the spec: the size rounded up to the alignment (spec §4.5);
an alignment of 0 rounds nothing. -/
def Allocator.alignedSize (a : Allocator) (size : Nat) : Nat :=
  size + (a.alignment - size % a.alignment) % a.alignment

/-- Modelled from the spec: `Allocator::alloc` returns the current cursor as
the offset and advances the cursor by the aligned size (spec §4.5). -/
def Allocator.alloc (a : Allocator) (size : Nat) : Nat × Allocator :=
  (a.used, { a with used := a.used + a.alignedSize size })

/-- Modelled from the spec: `Allocator::getPtr` returns the base address of the
backing buffer (spec §4.5). -/
def Allocator.getPtr (a : Allocator) : Nat := a.base

/-- Modelled from the spec: `TensorObj::setDataBlob` is declared in a header
that is not among the sources; it binds the tensor to the blob, here the
address the blob holds (spec §4.5). -/
def GraphObj.setDataBlob (g : GraphObj) (t : TensorId) (ptr : Nat) : GraphObj :=
  g.updTensor t fun o => { o with data := some ptr }

/-- The first loop (graph.cc:253-255): one `alloc` per tensor in list order;
`getBytes` stands for `TensorObj::getBytes`, declared outside the sources. -/
def allocAll (getBytes : TensorObj → Nat) (g : GraphObj) :
    List TensorId → Allocator → List Nat × Allocator
  | [], a => ([], a)
  | t :: rest, a =>
    ((a.alloc (getBytes (g.tensorObj t))).1 ::
        (allocAll getBytes g rest (a.alloc (getBytes (g.tensorObj t))).2).1,
      (allocAll getBytes g rest (a.alloc (getBytes (g.tensorObj t))).2).2)

/-- The second loop (graph.cc:258-262): tensor `i` gets the blob at
`base + offsets[i]`. -/
def bindAll (base : Nat) : GraphObj → List TensorId → List Nat → GraphObj
  | g, t :: rest, off :: offsets => bindAll base (g.setDataBlob t (base + off)) rest offsets
  | g, _, _ => g

/-- Method `GraphObj::dataMalloc` with its member `allocator` passed in and
out: the assertion on `topo_sort`, the offsets, the binding. -/
def GraphObj.dataMalloc (getBytes : TensorObj → Nat) (g : GraphObj) (a : Allocator) :
    Except Fault (GraphObj × Allocator) :=
  match g.topo_sort with
  | .error e => .error e
  | .ok (false, _) => .error .assertion
  | .ok (true, g1) =>
    .ok (bindAll (allocAll getBytes g1 g1.tensors a).2.getPtr g1 g1.tensors
          (allocAll getBytes g1 g1.tensors a).1,
        (allocAll getBytes g1 g1.tensors a).2)

/-! ## Predicates for shape inference -/

/-- The graphs agree on everything but the shapes of their tensors. -/
structure SameButDims (g g' : GraphObj) : Prop where
  ops : g'.ops = g.ops
  tensors : g'.tensors = g.tensors
  sorted : g'.sorted = g.sorted
  opObj : g'.opObj = g.opObj
  fuid : ∀ t, (g'.tensorObj t).fuid = (g.tensorObj t).fuid
  source : ∀ t, (g'.tensorObj t).source = (g.tensorObj t).source
  targets : ∀ t, (g'.tensorObj t).targets = (g.tensorObj t).targets
  data : ∀ t, (g'.tensorObj t).data = (g.tensorObj t).data
  dtype : ∀ t, (g'.tensorObj t).dtype = (g.tensorObj t).dtype

/-- The outputs of the operator hold the shapes its `inferShape` returns for
the shapes its inputs have: one shape per output, in order. -/
def ShapesAgree
    (other : OperatorObj → List (Option Shape) → Except Fault (Option (List Shape)))
    (g : GraphObj) (op : OpId) : Prop :=
  ∃ ans, inferShapeOf other g op = .ok (some ans) ∧
    List.Forall₂ (fun o s => ∃ t, o = some t ∧ (g.tensorObj t).dims = s)
      (g.opObj op).outputs ans

/-- Every output of a listed operator is a tensor whose source is that operator. -/
def OutputsOwned (g : GraphObj) : Prop :=
  ∀ op ∈ g.ops, ∀ x ∈ (g.opObj op).outputs,
    (x.map fun t => (g.tensorObj t).source) = some (some op)

/-- No listed operator names the same output twice. -/
def OutputsDistinct (g : GraphObj) : Prop := ∀ op ∈ g.ops, (g.opObj op).outputs.Nodup

/-- The producer of every input of `q` is among `seen`. -/
def producersListed (g : GraphObj) (seen : List OpId) (q : OpId) : Bool :=
  (g.opObj q).inputs.all fun x =>
    match x with
    | none => true
    | some t =>
      match (g.tensorObj t).source with
      | none => true
      | some p => decide (p ∈ seen)

/-- Checks, operator by operator, that the producers of its inputs come before it. -/
def orderedFrom (g : GraphObj) : List OpId → List OpId → Bool
  | _, [] => true
  | seen, q :: rest => producersListed g seen q && orderedFrom g (seen ++ [q]) rest

/-! ## Example graphs for shape inference -/

/-- Shape rule used in the examples for operators of other kinds: none is known. -/
def noRule : OperatorObj → List (Option Shape) → Except Fault (Option (List Shape)) :=
  fun _ _ => .error .assertion

/-- Operators of the product chain: MatMul 0 writes tensor 2 from tensors 0 and
1, MatMul 1 writes tensor 4 from tensors 2 and 3. -/
def productOps : OpId → OperatorObj
  | 0 => OperatorObj.make .MatMul [some 0, some 1] [some 2] []
  | 1 => OperatorObj.make .MatMul [some 2, some 3] [some 4] []
  | _ => OperatorObj.blank

/-- The product chain, built from the empty graph with the shapes of tensors 2
and 4 still unset. -/
def productGraph : GraphObj :=
  (((((((GraphObj.init productOps).addTensor 0 0 [2, 3]).addTensor 1 1 [3, 4]).addTensor 2 2
    []).addTensor 3 3 [4, 5]).addTensor 4 4 []).addOperatorAndConnect 0).addOperatorAndConnect 1

/-- Operators of the two-producer example: MatMul 0 and MatMul 1 both name
tensor 3 as their output. -/
def twinOps : OpId → OperatorObj
  | 0 => OperatorObj.make .MatMul [some 0, some 1] [some 3] []
  | 1 => OperatorObj.make .MatMul [some 2, some 1] [some 3] []
  | _ => OperatorObj.blank

/-- The two-producer example, built from the empty graph. -/
def twinGraph : GraphObj :=
  ((((((GraphObj.init twinOps).addTensor 0 0 [2, 3]).addTensor 1 1 [3, 4]).addTensor 2 2
    [5, 3]).addTensor 3 3 [2, 4]).addOperatorAndConnect 0).addOperatorAndConnect 1

/-- Operators of the shared-fuid example: MatMul 0 writes tensor 2 from
tensors 0 and 1. -/
def echoOps : OpId → OperatorObj
  | 0 => OperatorObj.make .MatMul [some 0, some 1] [some 2] []
  | _ => OperatorObj.blank

/-- The shared-fuid example: the output, tensor 2, carries the fuid of the
input tensor 0, which comes first in the tensor list. -/
def echoGraph : GraphObj :=
  ((((GraphObj.init echoOps).addTensor 0 7 [2, 3]).addTensor 1 1 [3, 4]).addTensor 2 7
    [0, 0]).addOperatorAndConnect 0

/-! ## Predicates for the permutations of Transpose operators -/

/-- The list is a bijection on the axes `0 .. n-1`: `n` distinct entries, all
of them axis numbers below `n`. -/
def IsPermutation (n : Nat) (p : List Int) : Prop :=
  p.length = n ∧ p.Nodup ∧ ∀ v ∈ p, 0 ≤ v ∧ v < (n : Int)

/-- For every axis `i < n`, `permA[permB[i]] = i`. -/
def ComposesToId (permA permB : List Int) (n : Nat) : Prop :=
  ∀ i, i < n → ∃ j : Nat, permB[i]? = some (j : Int) ∧ permA[j]? = some (i : Int)

/-! ## Predicates for the edges that `addOperatorAndConnect` keeps -/

/-- The edges mirror the tensors: a tensor's targets are the listed operators
that read it, its source is the listed operator that writes it, and the
successor and predecessor lists hold the pairs of listed operators joined by a
tensor. -/
structure EdgesReflect (g : GraphObj) : Prop where
  targets : ∀ t q, q ∈ (g.tensorObj t).targets ↔ q ∈ g.ops ∧ some t ∈ (g.opObj q).inputs
  source : ∀ t p, (g.tensorObj t).source = some p ↔ p ∈ g.ops ∧ some t ∈ (g.opObj p).outputs
  succs : ∀ p q, q ∈ (g.opObj p).successors ↔
    p ∈ g.ops ∧ q ∈ g.ops ∧ ∃ t, some t ∈ (g.opObj p).outputs ∧ some t ∈ (g.opObj q).inputs
  preds : ∀ p q, p ∈ (g.opObj q).predecessors ↔
    p ∈ g.ops ∧ q ∈ g.ops ∧ ∃ t, some t ∈ (g.opObj p).outputs ∧ some t ∈ (g.opObj q).inputs

/-- What the loop over the inputs `l` of `op` has changed between `g` and `g'`. -/
structure InputsLinked (op : OpId) (l : List (Option TensorId)) (g g' : GraphObj) : Prop where
  ops : g'.ops = g.ops
  inputs : ∀ i, (g'.opObj i).inputs = (g.opObj i).inputs
  outputs : ∀ i, (g'.opObj i).outputs = (g.opObj i).outputs
  source : ∀ t, (g'.tensorObj t).source = (g.tensorObj t).source
  targets : ∀ t q, q ∈ (g'.tensorObj t).targets ↔
    q ∈ (g.tensorObj t).targets ∨ (q = op ∧ some t ∈ l)
  succs : ∀ p q, q ∈ (g'.opObj p).successors ↔
    q ∈ (g.opObj p).successors ∨ (q = op ∧ ∃ t, some t ∈ l ∧ (g.tensorObj t).source = some p)
  preds : ∀ p q, p ∈ (g'.opObj q).predecessors ↔
    p ∈ (g.opObj q).predecessors ∨
      (q = op ∧ ∃ t, some t ∈ l ∧ (g.tensorObj t).source = some p)

/-- What the loop over the outputs `l` of `op` has changed between `g` and `g'`. -/
structure OutputsLinked (op : OpId) (l : List (Option TensorId)) (g g' : GraphObj) : Prop where
  ops : g'.ops = g.ops
  inputs : ∀ i, (g'.opObj i).inputs = (g.opObj i).inputs
  outputs : ∀ i, (g'.opObj i).outputs = (g.opObj i).outputs
  targets : ∀ t, (g'.tensorObj t).targets = (g.tensorObj t).targets
  source : ∀ t, (g'.tensorObj t).source =
    if some t ∈ l then some op else (g.tensorObj t).source
  succs : ∀ p q, q ∈ (g'.opObj p).successors ↔
    q ∈ (g.opObj p).successors ∨ (p = op ∧ ∃ t, some t ∈ l ∧ q ∈ (g.tensorObj t).targets)
  preds : ∀ p q, p ∈ (g'.opObj q).predecessors ↔
    p ∈ (g.opObj q).predecessors ∨ (p = op ∧ ∃ t, some t ∈ l ∧ q ∈ (g.tensorObj t).targets)

/-- Graphs built from the empty graph by `addTensor` and
`addOperatorAndConnect`: the operator objects start without edges, a tensor
added is a new object that no operator already added refers to, and no output
of an operator added is an output of another operator already added. -/
inductive Built : GraphObj → Prop
  | init (ops : OpId → OperatorObj)
      (h : ∀ i, (ops i).predecessors = [] ∧ (ops i).successors = []) :
      Built (GraphObj.init ops)
  | addTensor (g : GraphObj) (t : TensorId) (fuid : Nat) (dim : Shape) (hg : Built g)
      (h : ∀ q ∈ g.ops, some t ∉ (g.opObj q).inputs ∧ some t ∉ (g.opObj q).outputs) :
      Built (g.addTensor t fuid dim)
  | addOperator (g : GraphObj) (op : OpId) (hg : Built g)
      (h : ∀ x ∈ (g.opObj op).outputs, x ≠ none →
        ∀ p ∈ g.ops, p ≠ op → x ∉ (g.opObj p).outputs) :
      Built (g.addOperatorAndConnect op)

/-! ## Predicates for the runs of `optimize` -/

/-- What the first loop of `optimize` keeps fixed between two graph states. -/
structure Frame1 (g g' : GraphObj) : Prop where
  ops : g'.ops = g.ops
  sorted : g'.sorted = g.sorted
  opType : ∀ i, (g'.opObj i).opType = (g.opObj i).opType
  outputs : ∀ i, (g'.opObj i).outputs = (g.opObj i).outputs
  permute : ∀ i, (g'.opObj i).permute = (g.opObj i).permute
  transA : ∀ i, (g'.opObj i).transA = (g.opObj i).transA
  transB : ∀ i, (g'.opObj i).transB = (g.opObj i).transB
  source : ∀ t, (g'.tensorObj t).source = (g.tensorObj t).source
  dims : ∀ t, (g'.tensorObj t).dims = (g.tensorObj t).dims
  tensors : ∀ t, t ∈ g'.tensors → t ∈ g.tensors
  nodup : g.tensors.Nodup → g'.tensors.Nodup

/-- An allocator of eight-byte alignment with nothing handed out, whose buffer
starts at address 4096. -/
def wordAllocator : Allocator := { used := 0, alignment := 8, base := 4096 }

/-- Size in bytes of a tensor of four-byte elements. -/
def fourBytes (o : TensorObj) : Nat := 4 * o.dims.prod

/-- A graph without operators whose tensor list names tensor 0 twice. -/
def echoedTensorGraph : GraphObj :=
  { ops := [], tensors := [0, 0], sorted := false, opObj := fun _ => OperatorObj.blank,
    tensorObj := fun _ => { TensorObj.blank with dims := [4] } }

/-- Operator of the twice-added example: it reads tensor 0. -/
def readerOps : OpId → OperatorObj
  | 0 => OperatorObj.make .Unknown [some 0] [] []
  | _ => OperatorObj.blank

/-- A graph to which the same operator was added twice. -/
def twiceAddedGraph : GraphObj :=
  (((GraphObj.init readerOps).addTensor 0 0 [4]).addOperatorAndConnect 0).addOperatorAndConnect 0

/-- Operators of the cube example: Transpose 0 swaps the first two axes of
tensor 0 into tensor 1, Transpose 1 swaps the last two axes of tensor 1 into
tensor 2, which operator 2 of another kind reads. -/
def cubeOps : OpId → OperatorObj
  | 0 => OperatorObj.make .Transpose [some 0] [some 1] [1, 0, 2]
  | 1 => OperatorObj.make .Transpose [some 1] [some 2] [0, 2, 1]
  | 2 => OperatorObj.make .Unknown [some 2] [] []
  | _ => OperatorObj.blank

/-- The cube example, built from the empty graph: every tensor has shape 2x2x2. -/
def cubeGraph : GraphObj :=
  ((((((GraphObj.init cubeOps).addTensor 0 0 [2, 2, 2]).addTensor 1 1 [2, 2, 2]).addTensor 2 2
    [2, 2, 2]).addOperatorAndConnect 0).addOperatorAndConnect 1).addOperatorAndConnect 2

/-- Operators of the skew example: the permutation of Transpose 0 swaps the
last two of four axes and also the first two. -/
def skewOps : OpId → OperatorObj
  | 0 => OperatorObj.make .Transpose [some 0] [some 1] [1, 0, 3, 2]
  | 1 => OperatorObj.make .MatMul [some 1, some 2] [some 3] []
  | _ => OperatorObj.blank

/-- The skew example, built from the empty graph. -/
def skewGraph : GraphObj :=
  ((((((GraphObj.init skewOps).addTensor 0 0 [1, 3, 4, 5]).addTensor 1 1 [3, 1, 5, 4]).addTensor
    2 2 [1, 1, 4, 6]).addTensor 3 3 [3, 1, 5, 6]).addOperatorAndConnect 0).addOperatorAndConnect 1

/-- The product chain with the consumer, MatMul 1, added before its producer,
MatMul 0. -/
def lateProducerGraph : GraphObj :=
  (((((((GraphObj.init productOps).addTensor 0 0 [2, 3]).addTensor 1 1 [3, 4]).addTensor 2 2
    [2, 4]).addTensor 3 3 [4, 5]).addTensor 4 4 [2, 5]).addOperatorAndConnect
    1).addOperatorAndConnect 0

/-- Operators of the preset-flag example: Transpose 0 swaps the two axes of
tensor 0 into tensor 1, which MatMul 1, constructed with `transA` set, reads
with tensor 2. -/
def presetOps : OpId → OperatorObj
  | 0 => OperatorObj.make .Transpose [some 0] [some 1] [1, 0]
  | 1 => { OperatorObj.make .MatMul [some 1, some 2] [some 3] [] with transA := true }
  | _ => OperatorObj.blank

/-- The preset-flag example, built from the empty graph. -/
def presetGraph : GraphObj :=
  ((((((GraphObj.init presetOps).addTensor 0 0 [2, 3]).addTensor 1 1 [3, 2]).addTensor 2 2
    [3, 5]).addTensor 3 3 [2, 5]).addOperatorAndConnect 0).addOperatorAndConnect 1

/-- Operators of the late-producer example: Transpose 4 turns tensor 0, written
by operator 3, into tensor 1, Transpose 0 turns it back into tensor 2, which
operator 1 also names as its output and operator 2 reads. -/
def reorderOps : OpId → OperatorObj
  | 0 => OperatorObj.make .Transpose [some 1] [some 2] [1, 0]
  | 1 => OperatorObj.make .Unknown [] [some 2] []
  | 2 => OperatorObj.make .Unknown [some 2] [] []
  | 3 => OperatorObj.make .Unknown [] [some 0] []
  | 4 => OperatorObj.make .Transpose [some 0] [some 1] [1, 0]
  | _ => OperatorObj.blank

/-- The late-producer example, built from the empty graph with the operators
added in the order 0, 1, 2, 3, 4. -/
def reorderGraph : GraphObj :=
  ((((((((GraphObj.init reorderOps).addTensor 0 0 [2, 3]).addTensor 1 1 [3, 2]).addTensor 2 2
    [2, 3]).addOperatorAndConnect 0).addOperatorAndConnect 1).addOperatorAndConnect
    2).addOperatorAndConnect 3).addOperatorAndConnect 4

/-- Operators of the mixed example: two separate inverse pairs, Transposes 0, 1
with reader 2 and Transposes 3, 4 with reader 5, and Transpose 6 whose output
MatMul 7 reads as its first input. -/
def mixedOps : OpId → OperatorObj
  | 0 => OperatorObj.make .Transpose [some 0] [some 1] [1, 0]
  | 1 => OperatorObj.make .Transpose [some 1] [some 2] [1, 0]
  | 2 => OperatorObj.make .Unknown [some 2] [] []
  | 3 => OperatorObj.make .Transpose [some 3] [some 4] [1, 0]
  | 4 => OperatorObj.make .Transpose [some 4] [some 5] [1, 0]
  | 5 => OperatorObj.make .Unknown [some 5] [] []
  | 6 => OperatorObj.make .Transpose [some 6] [some 7] [1, 0]
  | 7 => OperatorObj.make .MatMul [some 7, some 8] [some 9] []
  | _ => OperatorObj.blank

/-- The tensors of the mixed example, added to the empty graph. -/
def mixedTensors : GraphObj :=
  ((((((((((GraphObj.init mixedOps).addTensor 0 0 [2, 3]).addTensor 1 1 [3, 2]).addTensor 2 2
    [2, 3]).addTensor 3 3 [4, 5]).addTensor 4 4 [5, 4]).addTensor 5 5 [4, 5]).addTensor 6 6
    [2, 7]).addTensor 7 7 [7, 2]).addTensor 8 8 [2, 5]).addTensor 9 9 [7, 5]

/-- The mixed example, with the operators added in the order 0 to 7. -/
def mixedGraph : GraphObj :=
  (((((((mixedTensors.addOperatorAndConnect 0).addOperatorAndConnect 1).addOperatorAndConnect
    2).addOperatorAndConnect 3).addOperatorAndConnect 4).addOperatorAndConnect
    5).addOperatorAndConnect 6).addOperatorAndConnect 7

/-- Operators of the prelude example: Transposes 0 and 1 swap the first two
axes of tensor 0 into tensor 1 and back into tensor 2; Transpose 2 swaps the
last two axes of tensor 2 into tensor 3, which MatMul 3 reads with tensor 4. -/
def preludeOps : OpId → OperatorObj
  | 0 => OperatorObj.make .Transpose [some 0] [some 1] [1, 0, 2]
  | 1 => OperatorObj.make .Transpose [some 1] [some 2] [1, 0, 2]
  | 2 => OperatorObj.make .Transpose [some 2] [some 3] [0, 2, 1]
  | 3 => OperatorObj.make .MatMul [some 3, some 4] [some 5] []
  | _ => OperatorObj.blank

/-- The prelude example, built from the empty graph. -/
def preludeGraph : GraphObj :=
  ((((((((((GraphObj.init preludeOps).addTensor 0 0 [2, 3, 5]).addTensor 1 1
    [3, 2, 5]).addTensor 2 2 [2, 3, 5]).addTensor 3 3 [2, 5, 3]).addTensor 4 4
    [2, 3, 7]).addTensor 5 5 [2, 5, 7]).addOperatorAndConnect 0).addOperatorAndConnect
    1).addOperatorAndConnect 2).addOperatorAndConnect 3

/-! ## Proofs -/

theorem sourcesFlagged_ok (g : GraphObj) (flags : List OpId) :
    ∀ inputs : List (Option TensorId), none ∉ inputs →
      ∃ b, sourcesFlagged g flags inputs = .ok b ∧
        (b = true ↔ ∀ t p, some t ∈ inputs → (g.tensorObj t).source = some p → p ∈ flags)
  | [], _ => ⟨true, rfl, by simp⟩
  | none :: rest, h => by simp at h
  | some t :: rest, h => by
    have hr : none ∉ rest := fun hm => h (List.mem_cons_of_mem _ hm)
    obtain ⟨b, hb, hiff⟩ := sourcesFlagged_ok g flags rest hr
    cases hsrc : (g.tensorObj t).source with
    | none =>
      refine ⟨b, by simp [sourcesFlagged, hsrc, hb], ?_⟩
      rw [hiff]
      constructor
      · intro h1 t' p hm hp
        rcases List.mem_cons.1 hm with heq | hm
        · cases heq; rw [hsrc] at hp; cases hp
        · exact h1 t' p hm hp
      · intro h1 t' p hm hp
        exact h1 t' p (List.mem_cons_of_mem _ hm) hp
    | some p0 =>
      by_cases hp0 : p0 ∈ flags
      · refine ⟨b, by simp [sourcesFlagged, hsrc, hb, hp0], ?_⟩
        rw [hiff]
        constructor
        · intro h1 t' p hm hp
          rcases List.mem_cons.1 hm with heq | hm
          · cases heq; rw [hsrc] at hp; cases hp; exact hp0
          · exact h1 t' p hm hp
        · intro h1 t' p hm hp
          exact h1 t' p (List.mem_cons_of_mem _ hm) hp
      · refine ⟨false, by simp [sourcesFlagged, hsrc, hp0], ?_⟩
        constructor
        · intro h1; cases h1
        · intro h1
          exact absurd (h1 t p0 (List.mem_cons_self _ _) hsrc) hp0

theorem sortPass_mono (g : GraphObj) :
    ∀ (l : List OpId) (s s' : SortState), s.modified = true → sortPass g l s = .ok s' →
      s'.modified = true
  | [], s, s', hm, h => by
    simp only [sortPass, Except.ok.injEq] at h
    subst h; exact hm
  | op :: rest, s, s', hm, h => by
    simp only [sortPass] at h
    split at h
    · exact sortPass_mono g rest s s' hm h
    · split at h
      · cases h
      · exact sortPass_mono g rest s s' hm h
      · exact sortPass_mono g rest _ s' rfl h

theorem sortPass_invariant (g : GraphObj) (l0 : List OpId) (P : SortState → Prop)
    (hstep : ∀ s op, P s → op ∈ l0 → op ∉ s.flags →
      (∀ p, Produces g p op → p ∈ s.flags) →
      P { modified := true, sorted := s.sorted ++ [op], flags := op :: s.flags }) :
    ∀ (l : List OpId) (s : SortState), (∀ q ∈ l, q ∈ l0 ∧ none ∉ (g.opObj q).inputs) → P s →
      ∃ s', sortPass g l s = .ok s' ∧ P s'
  | [], s, _, hP => ⟨s, rfl, hP⟩
  | op :: rest, s, hl, hP => by
    have hrest : ∀ q ∈ rest, q ∈ l0 ∧ none ∉ (g.opObj q).inputs :=
      fun q hq => hl q (List.mem_cons_of_mem _ hq)
    obtain ⟨hop, hnn⟩ := hl op (List.mem_cons_self _ _)
    by_cases hf : op ∈ s.flags
    · simp only [sortPass, hf, if_true]
      exact sortPass_invariant g l0 P hstep rest s hrest hP
    · obtain ⟨b, hb, hiff⟩ := sourcesFlagged_ok g s.flags _ hnn
      cases b with
      | false =>
        simp only [sortPass, hf, if_false, hb]
        exact sortPass_invariant g l0 P hstep rest s hrest hP
      | true =>
        simp only [sortPass, hf, if_false, hb]
        refine sortPass_invariant g l0 P hstep rest _ hrest (hstep s op hP hop hf ?_)
        rintro p ⟨t, ht, hsrc⟩
        exact hiff.1 rfl t p ht hsrc

theorem sortPass_progress (g : GraphObj) (q : OpId) :
    ∀ (l : List OpId) (s s' : SortState), (∀ x ∈ l, none ∉ (g.opObj x).inputs) →
      q ∈ l → q ∉ s.flags → (∀ p, Produces g p q → p ∈ s.flags) →
      sortPass g l s = .ok s' → s'.modified = true
  | [], _, _, _, hq, _, _, _ => by simp at hq
  | op :: rest, s, s', hl, hq, hqf, hready, h => by
    have hrest : ∀ x ∈ rest, none ∉ (g.opObj x).inputs :=
      fun x hx => hl x (List.mem_cons_of_mem _ hx)
    have hnn := hl op (List.mem_cons_self _ _)
    by_cases hf : op ∈ s.flags
    · simp only [sortPass, hf, if_true] at h
      have hne : q ≠ op := fun e => hqf (e ▸ hf)
      have hq' : q ∈ rest := by
        rcases List.mem_cons.1 hq with e | e
        · exact absurd e hne
        · exact e
      exact sortPass_progress g q rest s s' hrest hq' hqf hready h
    · obtain ⟨b, hb, hiff⟩ := sourcesFlagged_ok g s.flags _ hnn
      cases b with
      | false =>
        simp only [sortPass, hf, if_false, hb] at h
        have hne : q ≠ op := by
          intro e
          subst e
          have : false = true := hiff.2 (fun t p ht hp => hready p ⟨t, ht, hp⟩)
          cases this
        have hq' : q ∈ rest := by
          rcases List.mem_cons.1 hq with e | e
          · exact absurd e hne
          · exact e
        exact sortPass_progress g q rest s s' hrest hq' hqf hready h
      | true =>
        simp only [sortPass, hf, if_false, hb] at h
        exact sortPass_mono g rest _ s' rfl h

theorem SortInv.step {g : GraphObj} {sorted flags : List OpId} (h : SortInv g sorted flags)
    {op : OpId} (hop : op ∈ g.ops) (hf : op ∉ flags) :
    SortInv g (sorted ++ [op]) (op :: flags) where
  nodup := by
    have : op ∉ sorted := fun hm => hf ((h.flags op).2 hm)
    simpa [List.nodup_append, h.nodup] using this
  flags := by
    intro x
    simp only [List.mem_cons, List.mem_append, List.mem_singleton, h.flags x]
    tauto
  sub := by
    intro x hx
    rcases List.mem_append.1 hx with hx | hx
    · exact h.sub x hx
    · rw [List.mem_singleton.1 hx]; exact hop

theorem SortInv.length_le {g : GraphObj} {sorted flags : List OpId}
    (h : SortInv g sorted flags) : sorted.length ≤ g.ops.length :=
  (List.subperm_of_subset h.nodup (fun x hx => h.sub x hx)).length_le

theorem SortInv.length_lt {g : GraphObj} {sorted flags : List OpId}
    (h : SortInv g sorted flags) {c : OpId}
    (hc : c ∈ g.ops) (hcs : c ∉ sorted) : sorted.length < g.ops.length := by
  have hnd : (c :: sorted).Nodup := List.nodup_cons.2 ⟨hcs, h.nodup⟩
  have hsub : (c :: sorted) ⊆ g.ops := by
    intro x hx
    rcases List.mem_cons.1 hx with e | e
    · rw [e]; exact hc
    · exact h.sub x e
  have := (List.subperm_of_subset hnd hsub).length_le
  simpa using this

theorem sortLoop_spec (g : GraphObj) (Q : List OpId → Prop) (hnn : InputsNonNull g)
    (hstep : ∀ sorted flags op, SortInv g sorted flags → Q sorted → op ∈ g.ops →
      op ∉ sorted → (∀ p, Produces g p op → p ∈ sorted) → Q (sorted ++ [op])) :
    ∀ (fuel : Nat) (sorted flags : List OpId), SortInv g sorted flags → Q sorted →
      g.ops.length + 1 ≤ fuel + sorted.length →
      ∃ r, sortLoop g fuel sorted flags = .ok r ∧
        (∀ l, r = some l →
          l.Nodup ∧ (∀ x ∈ l, x ∈ g.ops) ∧ Q l ∧ g.ops.length ≤ l.length) ∧
        (r = none → ∃ sorted1 flags1, SortInv g sorted1 flags1 ∧ Q sorted1 ∧
          sorted1.length < g.ops.length ∧ ∀ q ∈ g.ops, q ∉ sorted1 → ¬ ∀ p, Produces g p q → p ∈ sorted1)
  | 0, sorted, flags, hinv, _, hfuel => by
    have := hinv.length_le
    omega
  | fuel + 1, sorted, flags, hinv, hQ, hfuel => by
    by_cases hlt : sorted.length < g.ops.length
    · simp only [sortLoop, hlt, if_true]
      obtain ⟨s', hs', hI, hQ', hle, hmod⟩ := sortPass_invariant g g.ops
        (fun s => SortInv g s.sorted s.flags ∧ Q s.sorted ∧
          sorted.length ≤ s.sorted.length ∧
          (s.modified = true → sorted.length < s.sorted.length))
        (by
          rintro s op ⟨h1, h2, h3, _⟩ hop hf hready
          refine ⟨h1.step hop hf, ?_, ?_, ?_⟩
          · exact hstep s.sorted s.flags op h1 h2 hop (fun hm => hf ((h1.flags op).2 hm))
              (fun p hp => (h1.flags p).1 (hready p hp))
          · simp only [List.length_append, List.length_singleton]
            omega
          · intro _
            simp only [List.length_append, List.length_singleton]
            omega)
        g.ops { modified := false, sorted := sorted, flags := flags }
        (fun q hq => ⟨hq, hnn q hq⟩) ⟨hinv, hQ, le_refl _, by simp⟩
      rw [hs']
      by_cases hm : s'.modified = true
      · simp only [hm, if_true]
        have := hmod hm
        exact sortLoop_spec g Q hnn hstep fuel s'.sorted s'.flags hI hQ' (by omega)
      · simp only [hm]
        refine ⟨none, rfl, by simp, fun _ => ⟨sorted, flags, hinv, hQ, hlt, ?_⟩⟩
        intro q hq hqs hready
        exact hm (sortPass_progress g q g.ops _ s' hnn hq
          (fun hf => hqs ((hinv.flags q).1 hf))
          (fun p hp => (hinv.flags p).2 (hready p hp)) hs')
    · simp only [sortLoop, hlt, if_false]
      refine ⟨some sorted, rfl, ?_, by simp⟩
      intro l hl
      cases hl
      exact ⟨hinv.nodup, hinv.sub, hQ, by omega⟩

theorem exists_ready (g : GraphObj) (hsrc : SourcesInOps g) (hac : Acyclic g)
    (sorted : List OpId) (q0 : OpId) (hq0 : q0 ∈ g.ops) (hq0s : q0 ∉ sorted) :
    ∃ q ∈ g.ops, q ∉ sorted ∧ ∀ p, Produces g p q → p ∈ sorted := by
  let r : {x // x ∈ g.ops} → {x // x ∈ g.ops} → Prop :=
    fun a b => Relation.TransGen (Produces g) a.1 b.1
  haveI : IsTrans {x // x ∈ g.ops} r := ⟨fun _ _ _ h1 h2 => Relation.TransGen.trans h1 h2⟩
  haveI : IsIrrefl {x // x ∈ g.ops} r := ⟨fun a h => hac a.1 a.2 h⟩
  have hwf : WellFounded r := Finite.wellFounded_of_trans_of_irrefl r
  obtain ⟨m, hm, hmin⟩ := hwf.has_min {a | a.1 ∉ sorted} ⟨⟨q0, hq0⟩, hq0s⟩
  refine ⟨m.1, m.2, hm, ?_⟩
  intro p hp
  by_contra hps
  exact hmin ⟨p, hsrc m.1 m.2 p hp⟩ hps (Relation.TransGen.single hp)

theorem exists_unplaced (g : GraphObj) (hd : g.ops.Nodup) (sorted : List OpId)
    (hlt : sorted.length < g.ops.length) : ∃ q ∈ g.ops, q ∉ sorted := by
  by_contra hcon
  push_neg at hcon
  have := (List.subperm_of_subset hd (fun x hx => hcon x hx)).length_le
  omega

theorem orderedList_append (g : GraphObj) (sorted : List OpId) (op : OpId)
    (h : OrderedList g sorted) (hready : ∀ p, Produces g p op → p ∈ sorted) :
    OrderedList g (sorted ++ [op]) := by
  intro j q hj p hp
  by_cases hlt : j < sorted.length
  · rw [List.getElem?_append_left hlt] at hj
    obtain ⟨i, hi, hip⟩ := h j q hj p hp
    exact ⟨i, hi, by rw [List.getElem?_append_left (by omega)]; exact hip⟩
  · have hjlen : j < (sorted ++ [op]).length := by
      by_contra hcon
      rw [List.getElem?_eq_none (by omega)] at hj
      cases hj
    simp only [List.length_append, List.length_singleton] at hjlen
    have hje : j = sorted.length := by omega
    subst hje
    simp at hj
    subst hj
    obtain ⟨i, hi, hip⟩ := List.getElem_of_mem (hready p hp)
    exact ⟨i, hi, by rw [List.getElem?_append_left hi, List.getElem?_eq_getElem hi, hip]⟩

theorem sortInv_nil (g : GraphObj) : SortInv g [] [] :=
  ⟨List.nodup_nil, fun _ => Iff.rfl, fun _ h => by simp at h⟩

theorem acyclic_of_rank (g : GraphObj) (f : OpId → Nat)
    (h : ∀ p q, Produces g p q → f p < f q) : Acyclic g := by
  have key : ∀ p q, Relation.TransGen (Produces g) p q → f p < f q := by
    intro p q hpq
    induction hpq with
    | single h1 => exact h _ _ h1
    | tail _ h2 ih => exact lt_trans ih (h _ _ h2)
  intro p _ hp
  exact lt_irrefl _ (key p p hp)

/-- No placed operator lies on a cycle of the producer relation. -/
theorem offCycle_append (g : GraphObj) (sorted : List OpId) (op : OpId)
    (h : ∀ x ∈ sorted, ¬ Relation.TransGen (Produces g) x x)
    (hready : ∀ p, Produces g p op → p ∈ sorted) :
    ∀ x ∈ sorted ++ [op], ¬ Relation.TransGen (Produces g) x x := by
  intro x hx
  rcases List.mem_append.1 hx with hx | hx
  · exact h x hx
  · rw [List.mem_singleton.1 hx]
    intro hcyc
    obtain ⟨b, hqb, hbq⟩ := Relation.TransGen.tail'_iff.1 hcyc
    exact h b (hready b hbq) (Relation.TransGen.head' hbq hqb)

/-- The sort proper: on an unsorted graph with distinct operators, non-null
inputs, listed producers and an acyclic producer relation the loop places
every operator after the producers of its inputs. -/
theorem topo_sort_unsorted_acyclic (g : GraphObj) (hs : g.sorted = false) (hd : g.ops.Nodup)
    (hnn : InputsNonNull g) (hsrc : SourcesInOps g) (hac : Acyclic g) :
    ∃ g', g.topo_sort = .ok (true, g') ∧ TopoOrdered g' := by
  obtain ⟨r, hr, hsome, hnone⟩ := sortLoop_spec g (OrderedList g) hnn
    (fun sorted _ op _ hQ _ _ hready => orderedList_append g sorted op hQ hready)
    (g.ops.length + 1) [] [] (sortInv_nil g)
    (by intro j q hj; simp at hj) (by simp)
  cases r with
  | none =>
    obtain ⟨sorted1, flags1, _, _, hlt, hstuck⟩ := hnone rfl
    obtain ⟨q0, hq0, hq0s⟩ := exists_unplaced g hd sorted1 hlt
    obtain ⟨q, hq, hqs, hready⟩ := exists_ready g hsrc hac sorted1 q0 hq0 hq0s
    exact absurd hready (hstuck q hq hqs)
  | some l =>
    obtain ⟨_, _, hord, _⟩ := hsome l rfl
    refine ⟨{ g with ops := l, sorted := true }, ?_, hord⟩
    simp only [GraphObj.topo_sort, hs, hr]
    rfl

/-- C1 (amended): on every graph whose `sorted` flag is false or whose operator
list is already in topological order, whose operators are distinct, whose
operator inputs are non-null, whose input producers are all listed and whose
producer relation is acyclic, `topo_sort` returns true and in the resulting
operator list the producer of every input of every operator stands at a
strictly smaller index than the operator. -/
theorem topo_sort_orders_acyclic (g : GraphObj)
    (hs : g.sorted = true → TopoOrdered g) (hd : g.ops.Nodup)
    (hnn : InputsNonNull g) (hsrc : SourcesInOps g) (hac : Acyclic g) :
    ∃ g', g.topo_sort = .ok (true, g') ∧ TopoOrdered g' := by
  cases hflag : g.sorted with
  | true =>
    refine ⟨g, ?_, hs hflag⟩
    simp [GraphObj.topo_sort, hflag]
  | false => exact topo_sort_unsorted_acyclic g hflag hd hnn hsrc hac

/-- C2 (amended): on every unsorted graph whose operator inputs are non-null and
whose producer relation has a cycle through a listed operator, `topo_sort`
returns false and the graph (operator list, `sorted` flag and all objects) is
the one it was called on. -/
theorem topo_sort_cycle_fails (g : GraphObj) (hs : g.sorted = false)
    (hnn : InputsNonNull g) (hc : HasCycle g) : g.topo_sort = .ok (false, g) := by
  obtain ⟨c, hc, hcyc⟩ := hc
  obtain ⟨r, hr, hsome, _⟩ := sortLoop_spec g
    (fun l => ∀ x ∈ l, ¬ Relation.TransGen (Produces g) x x) hnn
    (fun sorted _ op _ hQ _ _ hready => offCycle_append g sorted op hQ hready)
    (g.ops.length + 1) [] [] (sortInv_nil g)
    (by intro x hx; simp at hx) (by simp)
  cases r with
  | none =>
    simp only [GraphObj.topo_sort, hs, hr]
    rfl
  | some l =>
    obtain ⟨hnd, hsub, hoff, hlen⟩ := hsome l rfl
    have hcl : c ∉ l := fun hm => hoff c hm hcyc
    have hI : SortInv g l l := ⟨hnd, fun _ => Iff.rfl, hsub⟩
    have := hI.length_lt hc hcl
    omega

/-- C3: when `topo_sort` returns true and leaves the graph `g1`, calling it again
on `g1` returns true and leaves `g1`, operator list included, as it is. -/
theorem topo_sort_idempotent (g g1 : GraphObj) (h : g.topo_sort = .ok (true, g1)) :
    g1.topo_sort = .ok (true, g1) := by
  have hs1 : g1.sorted = true := by
    unfold GraphObj.topo_sort at h
    split at h
    · next hs =>
      simp only [Except.ok.injEq, Prod.mk.injEq, true_and] at h
      rw [← h]; exact hs
    · split at h
      · cases h
      · simp at h
      · simp only [Except.ok.injEq, Prod.mk.injEq, true_and] at h
        rw [← h]
  simp [GraphObj.topo_sort, hs1]

theorem fuidScan_iff (g : GraphObj) :
    ∀ (l : List TensorId) (s : List Nat), fuidScan g l s = true ↔
      (l.map fun t => (g.tensorObj t).fuid).Nodup ∧ ∀ t ∈ l, (g.tensorObj t).fuid ∉ s
  | [], s => by simp [fuidScan]
  | t :: rest, s => by
    by_cases h : (g.tensorObj t).fuid ∈ s
    · simp only [fuidScan, h, if_true]
      constructor
      · intro hf; cases hf
      · rintro ⟨_, h2⟩
        exact absurd h (h2 t (List.mem_cons_self _ _))
    · simp only [fuidScan, h, if_false, fuidScan_iff g rest, List.map_cons, List.nodup_cons,
        List.mem_map, List.mem_cons, not_exists, not_and]
      constructor
      · rintro ⟨h1, h2⟩
        refine ⟨⟨fun x hx e => h2 x hx (Or.inl e), h1⟩, ?_⟩
        rintro x (rfl | hx)
        · exact h
        · exact fun hm => h2 x hx (Or.inr hm)
      · rintro ⟨⟨h1, h2⟩, h3⟩
        refine ⟨h2, fun x hx hor => ?_⟩
        rcases hor with e | hm
        · exact h1 x hx e
        · exact h3 x (Or.inr hx) hm

theorem inTensors_iff (g : GraphObj) (x : Option TensorId) :
    inTensors g x = true ↔ ∃ t, x = some t ∧ t ∈ g.tensors := by
  cases x <;> simp [inTensors]

theorem tensorOk_iff (g : GraphObj) (t : TensorId) :
    tensorOk g t = true ↔
      ((g.tensorObj t).targets ≠ [] ∨ (g.tensorObj t).source ≠ none) ∧
      (∀ op ∈ (g.tensorObj t).targets, op ∈ g.ops) ∧
      (∀ op, (g.tensorObj t).source = some op → op ∈ g.ops) := by
  unfold tensorOk
  cases hs : (g.tensorObj t).source <;> cases ht : (g.tensorObj t).targets <;> simp

theorem operatorOk_iff (g : GraphObj) (op : OpId) :
    operatorOk g op = true ↔
      (∀ x ∈ (g.opObj op).inputs, ∃ t, x = some t ∧ t ∈ g.tensors) ∧
      (∀ x ∈ (g.opObj op).outputs, ∃ t, x = some t ∧ t ∈ g.tensors) ∧
      (∀ p ∈ (g.opObj op).predecessors, p ∈ g.ops) ∧
      (∀ p ∈ (g.opObj op).successors, p ∈ g.ops) := by
  simp only [operatorOk, Bool.and_eq_true, List.all_eq_true, inTensors_iff, decide_eq_true_eq,
    and_assoc]

theorem checkValid_iff (g : GraphObj) : g.checkValid = .ok true ↔ Valid g := by
  unfold GraphObj.checkValid
  constructor
  · intro h
    split at h
    · next hc =>
      simp only [Bool.and_eq_true, List.all_eq_true, tensorOk_iff, operatorOk_iff,
        fuidScan_iff] at hc
      obtain ⟨⟨h1, h2⟩, h3, _⟩ := hc
      exact ⟨fun t ht => (h1 t ht).1, fun t ht => (h1 t ht).2.1, fun t ht => (h1 t ht).2.2,
        fun o ho => (h2 o ho).1, fun o ho => (h2 o ho).2.1, fun o ho => (h2 o ho).2.2.1,
        fun o ho => (h2 o ho).2.2.2, h3⟩
    · cases h
  · intro hv
    have hc : (g.tensors.all (tensorOk g) && g.ops.all (operatorOk g)
        && fuidScan g g.tensors []) = true := by
      simp only [Bool.and_eq_true, List.all_eq_true, tensorOk_iff, operatorOk_iff,
        fuidScan_iff]
      exact ⟨⟨fun t ht => ⟨hv.live t ht, hv.targets_in t ht, hv.source_in t ht⟩,
        fun o ho => ⟨hv.inputs_in o ho, hv.outputs_in o ho, hv.preds_in o ho,
          hv.succs_in o ho⟩⟩, hv.fuids, fun _ _ => by simp⟩
    rw [if_pos hc]

theorem Grows.refl (g : GraphObj) : Grows g g :=
  ⟨rfl, rfl, fun _ => rfl, fun _ => rfl, fun _ => rfl, fun _ _ h => Or.inl h, fun _ h => h,
    fun _ _ h => Or.inl h, fun _ h => h, fun _ _ h => Or.inl h, fun _ _ h => Or.inl h⟩

theorem Grows.trans {a b c : GraphObj} (h1 : Grows a b) (h2 : Grows b c) : Grows a c where
  ops := h2.ops.trans h1.ops
  tensors := h2.tensors.trans h1.tensors
  fuid t := (h2.fuid t).trans (h1.fuid t)
  inputs i := (h2.inputs i).trans (h1.inputs i)
  outputs i := (h2.outputs i).trans (h1.outputs i)
  source t o h := by
    rcases h2.source t o h with h | h
    · exact h1.source t o h
    · exact Or.inr (h1.ops ▸ h)
  source_keep t h := h2.source_keep t (h1.source_keep t h)
  targets t x h := by
    rcases h2.targets t x h with h | h
    · exact h1.targets t x h
    · exact Or.inr (h1.ops ▸ h)
  targets_keep t h := h2.targets_keep t (h1.targets_keep t h)
  preds i x h := by
    rcases h2.preds i x h with h | h
    · exact h1.preds i x h
    · exact Or.inr (h1.ops ▸ h)
  succs i x h := by
    rcases h2.succs i x h with h | h
    · exact h1.succs i x h
    · exact Or.inr (h1.ops ▸ h)

theorem Grows.valid {g g' : GraphObj} (hv : Valid g) (h : Grows g g') : Valid g' where
  live t ht := by
    rw [h.tensors] at ht
    rcases hv.live t ht with h1 | h1
    · exact Or.inl (h.targets_keep t h1)
    · exact Or.inr (h.source_keep t h1)
  targets_in t ht x hx := by
    rw [h.tensors] at ht
    rw [h.ops]
    rcases h.targets t x hx with h1 | h1
    · exact hv.targets_in t ht x h1
    · exact h1
  source_in t ht o ho := by
    rw [h.tensors] at ht
    rw [h.ops]
    rcases h.source t o ho with h1 | h1
    · exact hv.source_in t ht o h1
    · exact h1
  inputs_in o ho x hx := by
    rw [h.ops] at ho
    rw [h.inputs] at hx
    rw [h.tensors]
    exact hv.inputs_in o ho x hx
  outputs_in o ho x hx := by
    rw [h.ops] at ho
    rw [h.outputs] at hx
    rw [h.tensors]
    exact hv.outputs_in o ho x hx
  preds_in o ho x hx := by
    rw [h.ops] at ho ⊢
    rcases h.preds o x hx with h1 | h1
    · exact hv.preds_in o ho x h1
    · exact h1
  succs_in o ho x hx := by
    rw [h.ops] at ho ⊢
    rcases h.succs o x hx with h1 | h1
    · exact hv.succs_in o ho x h1
    · exact h1
  fuids := by
    rw [h.tensors]
    have : (fun t => (g'.tensorObj t).fuid) = fun t => (g.tensorObj t).fuid :=
      funext h.fuid
    rw [this]
    exact hv.fuids

@[simp] theorem setAt_same {α : Type} (f : Nat → α) (i : Nat) (v : α) : setAt f i v i = v := by
  simp [setAt]

theorem setAt_apply {α : Type} (f : Nat → α) (i j : Nat) (v : α) :
    setAt f i v j = if j = i then v else f j := rfl

theorem grows_addTarget (g : GraphObj) (t : TensorId) (o : OpId) (ho : o ∈ g.ops) :
    Grows g (g.addTarget t o) := by
  refine ⟨rfl, rfl, ?_, fun _ => rfl, fun _ => rfl, ?_, ?_, ?_, ?_, fun _ _ h => Or.inl h,
    fun _ _ h => Or.inl h⟩
  all_goals intro t'
  all_goals by_cases e : t' = t
  all_goals simp [GraphObj.addTarget, GraphObj.updTensor, setAt_apply, e]
  all_goals first | done | exact Or.inr ho | (intro x hx; aesop)

theorem grows_setSource (g : GraphObj) (t : TensorId) (o : OpId) (ho : o ∈ g.ops) :
    Grows g (g.setSource t o) := by
  refine ⟨rfl, rfl, ?_, fun _ => rfl, fun _ => rfl, ?_, ?_, ?_, ?_, fun _ _ h => Or.inl h,
    fun _ _ h => Or.inl h⟩
  all_goals intro t'
  all_goals by_cases e : t' = t
  all_goals simp [GraphObj.setSource, GraphObj.updTensor, setAt_apply, e]
  all_goals first | done | exact Or.inr ho | (intro x hx; aesop)

theorem grows_addPredecessors (g : GraphObj) (i p : OpId) (hp : p ∈ g.ops) :
    Grows g (g.addPredecessors i p) := by
  refine ⟨rfl, rfl, fun _ => rfl, ?_, ?_, fun _ _ h => Or.inl h, fun _ h => h,
    fun _ _ h => Or.inl h, fun _ h => h, ?_, ?_⟩
  all_goals intro j
  all_goals by_cases e : j = i
  all_goals simp [GraphObj.addPredecessors, GraphObj.updOp, setAt_apply, e]
  all_goals first | done | exact Or.inr ho | (intro x hx; aesop)

theorem grows_addSuccessors (g : GraphObj) (i p : OpId) (hp : p ∈ g.ops) :
    Grows g (g.addSuccessors i p) := by
  refine ⟨rfl, rfl, fun _ => rfl, ?_, ?_, fun _ _ h => Or.inl h, fun _ h => h,
    fun _ _ h => Or.inl h, fun _ h => h, ?_, ?_⟩
  all_goals intro j
  all_goals by_cases e : j = i
  all_goals simp [GraphObj.addSuccessors, GraphObj.updOp, setAt_apply, e]
  all_goals first | done | exact Or.inr ho | (intro x hx; aesop)

theorem foldl_grows {α : Type} (f : GraphObj → α → GraphObj) :
    ∀ (l : List α) (g : GraphObj), Valid g →
      (∀ a ∈ l, ∀ h, Valid h → Grows g h → Grows h (f h a)) → Grows g (l.foldl f g)
  | [], g, _, _ => Grows.refl g
  | a :: rest, g, hv, hstep => by
    have h1 : Grows g (f g a) := hstep a (List.mem_cons_self _ _) g hv (Grows.refl g)
    have h2 : Grows (f g a) (rest.foldl f (f g a)) :=
      foldl_grows f rest (f g a) (h1.valid hv)
        (fun b hb h hvh hgh => hstep b (List.mem_cons_of_mem _ hb) h hvh (h1.trans hgh))
    exact h1.trans h2

theorem grows_connectInput (g : GraphObj) (op : OpId) (x : Option TensorId) (hv : Valid g)
    (hop : op ∈ g.ops) (hx : ∃ t, x = some t ∧ t ∈ g.tensors) :
    Grows g (connectInput op g x) := by
  obtain ⟨t, rfl, ht⟩ := hx
  have h1 := grows_addTarget g t op hop
  have hv1 := h1.valid hv
  cases hs : ((g.addTarget t op).tensorObj t).source with
  | none =>
    simp only [connectInput, hs]
    exact h1
  | some pred =>
    simp only [connectInput, hs]
    have hpred : pred ∈ (g.addTarget t op).ops := hv1.source_in t ht pred hs
    have h2 := grows_addSuccessors (g.addTarget t op) pred op hop
    have h3 := grows_addPredecessors ((g.addTarget t op).addSuccessors pred op) op pred hpred
    exact h1.trans (h2.trans h3)

theorem grows_connectSucc (g : GraphObj) (op succ : OpId) (hop : op ∈ g.ops)
    (hs : succ ∈ g.ops) : Grows g (connectSucc op g succ) :=
  (grows_addPredecessors g succ op hop).trans (grows_addSuccessors _ op succ hs)

theorem grows_connectOutput (g : GraphObj) (op : OpId) (x : Option TensorId) (hv : Valid g)
    (hop : op ∈ g.ops) (hx : ∃ t, x = some t ∧ t ∈ g.tensors) :
    Grows g (connectOutput op g x) := by
  obtain ⟨t, rfl, ht⟩ := hx
  have h1 := grows_setSource g t op hop
  have hv1 := h1.valid hv
  unfold connectOutput
  refine h1.trans (foldl_grows _ _ _ hv1 ?_)
  intro succ hsucc h _ hgh
  have hs1 : succ ∈ (g.setSource t op).ops := hv1.targets_in t ht succ hsucc
  exact grows_connectSucc h op succ (hgh.ops ▸ hop) (hgh.ops ▸ hs1)

theorem valid_push (g : GraphObj) (op : OpId) (hv : Valid g)
    (hpred : (g.opObj op).predecessors = []) (hsucc : (g.opObj op).successors = [])
    (hin : ∀ x ∈ (g.opObj op).inputs, ∃ t, x = some t ∧ t ∈ g.tensors)
    (hout : ∀ x ∈ (g.opObj op).outputs, ∃ t, x = some t ∧ t ∈ g.tensors) :
    Valid { g with sorted := false, ops := g.ops ++ [op] } where
  live := hv.live
  targets_in t ht x hx := List.mem_append_left _ (hv.targets_in t ht x hx)
  source_in t ht o ho := List.mem_append_left _ (hv.source_in t ht o ho)
  inputs_in o ho x hx := by
    rcases List.mem_append.1 ho with h | h
    · exact hv.inputs_in o h x hx
    · rw [List.mem_singleton.1 h] at hx
      exact hin x hx
  outputs_in o ho x hx := by
    rcases List.mem_append.1 ho with h | h
    · exact hv.outputs_in o h x hx
    · rw [List.mem_singleton.1 h] at hx
      exact hout x hx
  preds_in o ho x hx := by
    rcases List.mem_append.1 ho with h | h
    · exact List.mem_append_left _ (hv.preds_in o h x hx)
    · rw [List.mem_singleton.1 h] at hx
      simp only at hx
      rw [hpred] at hx
      cases hx
  succs_in o ho x hx := by
    rcases List.mem_append.1 ho with h | h
    · exact List.mem_append_left _ (hv.succs_in o h x hx)
    · rw [List.mem_singleton.1 h] at hx
      simp only at hx
      rw [hsucc] at hx
      cases hx
  fuids := hv.fuids

/-- C4: if `checkValid` passes on `g` and `op` has no predecessors and no
successors yet and all its inputs and outputs are tensors of the tensor list,
then `checkValid` passes on the graph after `addOperatorAndConnect(op)`. -/
theorem addOperatorAndConnect_keeps_checkValid (g : GraphObj) (op : OpId)
    (hv : g.checkValid = .ok true)
    (hpred : (g.opObj op).predecessors = []) (hsucc : (g.opObj op).successors = [])
    (hin : ∀ x ∈ (g.opObj op).inputs, ∃ t, x = some t ∧ t ∈ g.tensors)
    (hout : ∀ x ∈ (g.opObj op).outputs, ∃ t, x = some t ∧ t ∈ g.tensors) :
    (g.addOperatorAndConnect op).checkValid = .ok true := by
  rw [checkValid_iff] at hv ⊢
  have hv0 := valid_push g op hv hpred hsucc hin hout
  have hop : op ∈ ({ g with sorted := false, ops := g.ops ++ [op] } : GraphObj).ops :=
    List.mem_append_right _ (List.mem_singleton.2 rfl)
  unfold GraphObj.addOperatorAndConnect
  have h1 : Grows { g with sorted := false, ops := g.ops ++ [op] }
      ((g.opObj op).inputs.foldl (connectInput op)
        { g with sorted := false, ops := g.ops ++ [op] }) :=
    foldl_grows _ _ _ hv0 (fun x hx h hvh hgh =>
      grows_connectInput h op x hvh (hgh.ops ▸ hop) (by rw [hgh.tensors]; exact hin x hx))
  have hv1 := h1.valid hv0
  refine (Grows.valid hv1 (foldl_grows _ _ _ hv1 ?_))
  intro x hx h hvh hgh
  refine grows_connectOutput h op x hvh (hgh.ops ▸ h1.ops ▸ hop) ?_
  rw [hgh.tensors, h1.tensors]
  rw [h1.outputs] at hx
  exact hout x hx

theorem getD_append_two (l : Shape) (x y : Nat) :
    (l ++ [x, y]).getD l.length 0 = x ∧ (l ++ [x, y]).getD (l.length + 1) 0 = y := by
  induction l with
  | nil => exact ⟨rfl, rfl⟩
  | cons a l ih => simpa using ih

theorem swapLastTwo_append (l : Shape) (x y : Nat) :
    swapLastTwo (l ++ [x, y]) = l ++ [y, x] := by
  unfold swapLastTwo
  have h1 : (l ++ [x, y]).length - 1 = l.length + 1 := by simp
  have h2 : (l ++ [x, y]).length - 2 = l.length := by simp
  rw [h1, h2, (getD_append_two l x y).1, (getD_append_two l x y).2]
  simp [List.set_append]

theorem broadcastDim_one_right (r : Nat) : broadcastDim r 1 = .ok r := by
  unfold broadcastDim
  split_ifs <;> simp_all

theorem broadcastDim_one_left (c : Nat) : broadcastDim 1 c = .ok c := by
  unfold broadcastDim
  split_ifs <;> simp_all

theorem zipBroadcast_append (r c : Nat) :
    ∀ (X Y : Shape), X.length = Y.length → ∀ L, zipBroadcast X Y = .ok L →
      zipBroadcast (X ++ [r, 1]) (Y ++ [1, c]) = .ok (L ++ [r, c])
  | [], [], _, L, h => by
    simp only [zipBroadcast, Except.ok.injEq] at h
    subst h
    simp [zipBroadcast, broadcastDim_one_right, broadcastDim_one_left]
  | [], _ :: _, h, _, _ => by simp at h
  | _ :: _, [], h, _, _ => by simp at h
  | a :: X, b :: Y, hlen, L, h => by
    simp only [zipBroadcast] at h
    cases hd : broadcastDim a b with
    | error e => rw [hd] at h; cases h
    | ok d =>
      rw [hd] at h
      cases hz : zipBroadcast X Y with
      | error e => rw [hz] at h; cases h
      | ok ds =>
        rw [hz] at h
        simp only [Except.ok.injEq] at h
        subst h
        have ih := zipBroadcast_append r c X Y (by simpa using hlen) ds hz
        simp [zipBroadcast, hd, ih]

theorem padLeft_length (n : Nat) (s : Shape) (h : s.length ≤ n) : (padLeft n s).length = n := by
  simp [padLeft]; omega

theorem padLeft_append (LA : Shape) (m : Nat) (T : Shape) :
    padLeft (m + T.length) (LA ++ T) = padLeft m LA ++ T := by
  simp only [padLeft, List.length_append, List.append_assoc]
  congr 2
  omega

theorem infer_broadcast_append (LA LB L : Shape) (r c : Nat)
    (h : infer_broadcast LA LB = .ok L) :
    infer_broadcast (LA ++ [r, 1]) (LB ++ [1, c]) = .ok (L ++ [r, c]) := by
  unfold infer_broadcast at h ⊢
  have e : max (LA ++ [r, 1]).length (LB ++ [1, c]).length
      = max LA.length LB.length + 2 := by
    simp only [List.length_append, List.length_cons, List.length_nil]
    omega
  rw [e]
  have e1 := padLeft_append LA (max LA.length LB.length) [r, 1]
  have e2 := padLeft_append LB (max LA.length LB.length) [1, c]
  simp only [List.length_cons, List.length_nil] at e1 e2
  rw [e1, e2]
  exact zipBroadcast_append r c _ _
    (by rw [padLeft_length _ _ (le_max_left _ _), padLeft_length _ _ (le_max_right _ _)]) L h

theorem inferShape_split (transA transB : Bool) (LA LB L : Shape) (a1 a2 b1 b2 : Nat)
    (h : infer_broadcast LA LB = .ok L) :
    MatmulObj.inferShape transA transB [LA ++ [a1, a2], LB ++ [b1, b2]] =
      .ok (some [L ++ [if transA then a2 else a1, if transB then b1 else b2]]) := by
  have hA : ∀ x y : Nat, (LA ++ [x, y]).set ((LA ++ [a1, a2]).length - 1) 1 = LA ++ [x, 1] := by
    intro x y
    have : (LA ++ [a1, a2]).length - 1 = LA.length + 1 := by simp
    rw [this]; simp [List.set_append]
  have hB : ∀ x y : Nat, (LB ++ [x, y]).set ((LB ++ [b1, b2]).length - 2) 1 = LB ++ [1, y] := by
    intro x y
    have : (LB ++ [b1, b2]).length - 2 = LB.length := by simp
    rw [this]; simp [List.set_append]
  have lA : ¬ ((LA ++ [a1, a2]).length < 1 ∨ (LB ++ [b1, b2]).length < 2) := by
    simp
  have l2A : 2 ≤ (LA ++ [a1, a2]).length := by simp
  have l2B : 2 ≤ (LB ++ [b1, b2]).length := by simp
  simp only [MatmulObj.inferShape, elemAt, List.getElem?_cons_zero, List.getElem?_cons_succ,
    lA, if_false, l2A, l2B, decide_True, Bool.and_true, swapLastTwo_append]
  cases transA <;> cases transB <;>
    simp only [Bool.false_eq_true, if_false, if_true, hA, hB,
      infer_broadcast_append LA LB L _ _ h]

@[simp] theorem updOp_ops (g : GraphObj) (i : OpId) (f : OperatorObj → OperatorObj) :
    (g.updOp i f).ops = g.ops := rfl

@[simp] theorem updOp_tensors (g : GraphObj) (i : OpId) (f : OperatorObj → OperatorObj) :
    (g.updOp i f).tensors = g.tensors := rfl

@[simp] theorem updOp_sorted (g : GraphObj) (i : OpId) (f : OperatorObj → OperatorObj) :
    (g.updOp i f).sorted = g.sorted := rfl

@[simp] theorem updOp_tensorObj (g : GraphObj) (i : OpId) (f : OperatorObj → OperatorObj) :
    (g.updOp i f).tensorObj = g.tensorObj := rfl

theorem updOp_opObj (g : GraphObj) (i j : OpId) (f : OperatorObj → OperatorObj) :
    (g.updOp i f).opObj j = if j = i then f (g.opObj i) else g.opObj j := rfl

@[simp] theorem updOp_opObj_same (g : GraphObj) (i : OpId) (f : OperatorObj → OperatorObj) :
    (g.updOp i f).opObj i = f (g.opObj i) := by simp [updOp_opObj]

theorem updOp_opObj_ne (g : GraphObj) {i j : OpId} (f : OperatorObj → OperatorObj)
    (h : j ≠ i) : (g.updOp i f).opObj j = g.opObj j := by simp [updOp_opObj, h]

@[simp] theorem updTensor_ops (g : GraphObj) (t : TensorId) (f : TensorObj → TensorObj) :
    (g.updTensor t f).ops = g.ops := rfl

@[simp] theorem updTensor_tensors (g : GraphObj) (t : TensorId) (f : TensorObj → TensorObj) :
    (g.updTensor t f).tensors = g.tensors := rfl

@[simp] theorem updTensor_sorted (g : GraphObj) (t : TensorId) (f : TensorObj → TensorObj) :
    (g.updTensor t f).sorted = g.sorted := rfl

@[simp] theorem updTensor_opObj (g : GraphObj) (t : TensorId) (f : TensorObj → TensorObj) :
    (g.updTensor t f).opObj = g.opObj := rfl

theorem updTensor_tensorObj (g : GraphObj) (t u : TensorId) (f : TensorObj → TensorObj) :
    (g.updTensor t f).tensorObj u = if u = t then f (g.tensorObj t) else g.tensorObj u := rfl

@[simp] theorem updTensor_tensorObj_same (g : GraphObj) (t : TensorId)
    (f : TensorObj → TensorObj) : (g.updTensor t f).tensorObj t = f (g.tensorObj t) := by
  simp [updTensor_tensorObj]

theorem updTensor_tensorObj_ne (g : GraphObj) {t u : TensorId} (f : TensorObj → TensorObj)
    (h : u ≠ t) : (g.updTensor t f).tensorObj u = g.tensorObj u := by
  simp [updTensor_tensorObj, h]

@[simp] theorem removeTensor_ops (g : GraphObj) (t : Option TensorId) :
    (g.removeTensor t).ops = g.ops := by cases t <;> rfl

@[simp] theorem removeTensor_sorted (g : GraphObj) (t : Option TensorId) :
    (g.removeTensor t).sorted = g.sorted := by cases t <;> rfl

@[simp] theorem removeTensor_opObj (g : GraphObj) (t : Option TensorId) :
    (g.removeTensor t).opObj = g.opObj := by cases t <;> rfl

@[simp] theorem removeTensor_tensorObj (g : GraphObj) (t : Option TensorId) :
    (g.removeTensor t).tensorObj = g.tensorObj := by cases t <;> rfl

theorem removeTensor_tensors_sub (g : GraphObj) (t : Option TensorId) (u : TensorId)
    (h : u ∈ (g.removeTensor t).tensors) : u ∈ g.tensors := by
  cases t with
  | none => exact h
  | some t => exact List.mem_of_mem_erase h

theorem removeTensor_some_tensors (g : GraphObj) (t : TensorId) :
    (g.removeTensor (some t)).tensors = g.tensors.erase t := rfl

/-- The operator list after the removal loop (graph.cc:199-202). -/
theorem removeOperator_fold (rv : List OpId) :
    ∀ g : GraphObj, (rv.foldl GraphObj.removeOperator g).ops = rv.foldl List.erase g.ops ∧
      (rv.foldl GraphObj.removeOperator g).tensors = g.tensors ∧
      (rv.foldl GraphObj.removeOperator g).sorted = g.sorted ∧
      (rv.foldl GraphObj.removeOperator g).opObj = g.opObj ∧
      (rv.foldl GraphObj.removeOperator g).tensorObj = g.tensorObj := by
  induction rv with
  | nil => intro g; exact ⟨rfl, rfl, rfl, rfl, rfl⟩
  | cons r rv ih =>
    intro g
    simp only [List.foldl_cons]
    exact ih (g.removeOperator r)

theorem not_mem_foldl_erase (x : OpId) :
    ∀ (rv l : List OpId), l.Nodup → (x ∈ rv ∨ x ∉ l) → x ∉ rv.foldl List.erase l
  | [], l, _, h => by
    rcases h with h | h
    · simp at h
    · exact h
  | r :: rv, l, hnd, h => by
    simp only [List.foldl_cons]
    refine not_mem_foldl_erase x rv (l.erase r) (hnd.erase r) ?_
    by_cases e : x = r
    · right
      rw [e]
      exact hnd.not_mem_erase
    · rcases h with h | h
      · rcases List.mem_cons.1 h with h | h
        · exact absurd h e
        · exact Or.inl h
      · exact Or.inr (fun hm => h (List.mem_of_mem_erase hm))

theorem Frame2.same (g : GraphObj) : Frame2 g g :=
  ⟨rfl, rfl, fun _ => rfl, fun _ _ => rfl, fun _ => rfl, fun _ => rfl, fun _ => rfl,
    fun _ h => h, fun h => h, fun _ _ h => Or.inl h, fun _ _ h => Or.inl h⟩

theorem Frame2.andThen {a b c : GraphObj} (h1 : Frame2 a b) (h2 : Frame2 b c) : Frame2 a c where
  ops := h2.ops.trans h1.ops
  sorted := h2.sorted.trans h1.sorted
  opType i := (h2.opType i).trans (h1.opType i)
  other i h := by
    rw [h2.other i (by rw [h1.opType i]; exact h), h1.other i h]
  outputs i := (h2.outputs i).trans (h1.outputs i)
  source t := (h2.source t).trans (h1.source t)
  dims t := (h2.dims t).trans (h1.dims t)
  tensors t h := h1.tensors t (h2.tensors t h)
  nodup h := h2.nodup (h1.nodup h)
  targets_new t c h := by
    rcases h2.targets_new t c h with h | h
    · exact h1.targets_new t c h
    · exact Or.inr ((h1.opType c).symm.trans h)
  targets_old t c h := by
    rcases h1.targets_old t c h with h | h
    · rcases h2.targets_old t c h with h | h
      · exact Or.inl h
      · exact Or.inr ((h1.opType c).symm.trans h)
    · exact Or.inr h

theorem fusedGraph_opObj_ne (second : Bool) (op tr : OpId) (inp tin : TensorId)
    (tout : Option TensorId) (g : GraphObj) (i : OpId) (h : i ≠ op) :
    (fusedGraph second op tr inp tin tout g).opObj i = g.opObj i := by
  simp [fusedGraph, GraphObj.setTrans, GraphObj.removeTarget, GraphObj.addTarget,
    GraphObj.replaceInput, GraphObj.removePredecessors, updOp_opObj, h]

theorem fusedGraph_opObj_same (second : Bool) (op tr : OpId) (inp tin : TensorId)
    (tout : Option TensorId) (g : GraphObj) :
    (fusedGraph second op tr inp tin tout g).opObj op =
      { (g.opObj op) with
        inputs := (g.opObj op).inputs.map fun x => if x = some inp then some tin else x
        predecessors := (g.opObj op).predecessors.filter fun x => decide (x ≠ tr)
        transA := if second then (g.opObj op).transA else true
        transB := if second then true else (g.opObj op).transB } := by
  cases second <;>
  simp [fusedGraph, GraphObj.setTrans, GraphObj.removeTarget, GraphObj.addTarget,
    GraphObj.replaceInput, GraphObj.removePredecessors]

theorem fusedGraph_tensorObj_ne (second : Bool) (op tr : OpId) (inp tin : TensorId)
    (tout : Option TensorId) (g : GraphObj) (u : TensorId) (h : u ≠ tin) :
    (fusedGraph second op tr inp tin tout g).tensorObj u = g.tensorObj u := by
  simp [fusedGraph, GraphObj.setTrans, GraphObj.removeTarget, GraphObj.addTarget,
    GraphObj.replaceInput, GraphObj.removePredecessors, updTensor_tensorObj, h]

theorem fusedGraph_tensorObj_same (second : Bool) (op tr : OpId) (inp tin : TensorId)
    (tout : Option TensorId) (g : GraphObj) :
    (fusedGraph second op tr inp tin tout g).tensorObj tin =
      { (g.tensorObj tin) with
        targets := ((g.tensorObj tin).targets.filter fun x => decide (x ≠ tr)) ++ [op] } := by
  simp [fusedGraph, GraphObj.setTrans, GraphObj.removeTarget, GraphObj.addTarget,
    GraphObj.replaceInput, GraphObj.removePredecessors]

theorem fusedGraph_ops (second : Bool) (op tr : OpId) (inp tin : TensorId)
    (tout : Option TensorId) (g : GraphObj) :
    (fusedGraph second op tr inp tin tout g).ops = g.ops ∧
      (fusedGraph second op tr inp tin tout g).sorted = g.sorted := by
  simp [fusedGraph, GraphObj.setTrans, GraphObj.removeTarget, GraphObj.addTarget,
    GraphObj.replaceInput, GraphObj.removePredecessors]

theorem fusedGraph_tensors (second : Bool) (op tr : OpId) (inp tin : TensorId)
    (tout : Option TensorId) (g : GraphObj) :
    (fusedGraph second op tr inp tin tout g).tensors = (g.removeTensor tout).tensors := by
  cases tout <;>
  simp [fusedGraph, GraphObj.setTrans, GraphObj.removeTarget, GraphObj.addTarget,
    GraphObj.replaceInput, GraphObj.removePredecessors, GraphObj.removeTensor]

theorem fusedGraph_frame (second : Bool) (op tr : OpId) (inp tin : TensorId)
    (tout : Option TensorId) (g : GraphObj) (hop : (g.opObj op).opType = OpType.MatMul)
    (htr : (g.opObj tr).opType = OpType.Transpose) :
    Frame2 g (fusedGraph second op tr inp tin tout g) where
  ops := (fusedGraph_ops second op tr inp tin tout g).1
  sorted := (fusedGraph_ops second op tr inp tin tout g).2
  opType i := by
    by_cases h : i = op
    · subst h; rw [fusedGraph_opObj_same]
    · rw [fusedGraph_opObj_ne _ _ _ _ _ _ _ _ h]
  other i hi := by
    have h : i ≠ op := fun e => hi (e ▸ hop)
    rw [fusedGraph_opObj_ne _ _ _ _ _ _ _ _ h]
  outputs i := by
    by_cases h : i = op
    · subst h; rw [fusedGraph_opObj_same]
    · rw [fusedGraph_opObj_ne _ _ _ _ _ _ _ _ h]
  source u := by
    by_cases h : u = tin
    · subst h; rw [fusedGraph_tensorObj_same]
    · rw [fusedGraph_tensorObj_ne _ _ _ _ _ _ _ _ h]
  dims u := by
    by_cases h : u = tin
    · subst h; rw [fusedGraph_tensorObj_same]
    · rw [fusedGraph_tensorObj_ne _ _ _ _ _ _ _ _ h]
  tensors u hu := by
    rw [fusedGraph_tensors] at hu
    exact removeTensor_tensors_sub g tout u hu
  nodup h := by
    rw [fusedGraph_tensors]
    cases tout with
    | none => exact h
    | some t => exact h.erase t
  targets_new u c hc := by
    by_cases h : u = tin
    · subst h
      rw [fusedGraph_tensorObj_same] at hc
      simp only [List.mem_append, List.mem_filter, List.mem_singleton] at hc
      rcases hc with hc | hc
      · exact Or.inl hc.1
      · exact Or.inr (hc ▸ hop)
    · rw [fusedGraph_tensorObj_ne _ _ _ _ _ _ _ _ h] at hc
      exact Or.inl hc
  targets_old u c hc := by
    by_cases h : u = tin
    · subst h
      rw [fusedGraph_tensorObj_same]
      by_cases e : c = tr
      · exact Or.inr (e ▸ htr)
      · left
        simp only [List.mem_append, List.mem_filter, List.mem_singleton]
        exact Or.inl ⟨hc, by simpa using e⟩
    · rw [fusedGraph_tensorObj_ne _ _ _ _ _ _ _ _ h]
      exact Or.inl hc

/-- Either fusion block leaves the state alone or fires on a swapping Transpose. -/
theorem fuseInput_cases (second : Bool) (op : OpId) (s s' : OptState)
    (input : Option TensorId) (h : fuseInput second op s input = .ok s') :
    s' = s ∨ ∃ inp tr tin tout, input = some inp ∧ (s.g.tensorObj inp).source = some tr ∧
      (s.g.opObj tr).opType = OpType.Transpose ∧
      s' = { g := fusedGraph second op tr inp tin tout s.g,
             remove_vec := s.remove_vec ++ [tr] } := by
  unfold fuseInput at h
  cases input with
  | none => simp [deref] at h
  | some inp =>
    simp only [deref] at h
    cases hsrc : (s.g.tensorObj inp).source with
    | none =>
      rw [hsrc] at h
      simp only [Except.ok.injEq] at h
      exact Or.inl h.symm
    | some tr =>
      rw [hsrc] at h
      simp only at h
      by_cases hty : (s.g.opObj tr).opType = OpType.Transpose
      · rw [if_pos hty] at h
        by_cases hsw : swapsLastTwo (s.g.opObj tr).permute = true
        · rw [if_pos hsw] at h
          split at h
          · cases h
          · next transpose_input _ =>
            split at h
            · cases h
            · next tin _ =>
              split at h
              · cases h
              · next tout _ =>
                simp only [Except.ok.injEq] at h
                exact Or.inr ⟨inp, tr, tin, tout, rfl, hsrc, hty, h.symm⟩
        · rw [if_neg hsw] at h
          simp only [Except.ok.injEq] at h
          exact Or.inl h.symm
      · rw [if_neg hty] at h
        simp only [Except.ok.injEq] at h
        exact Or.inl h.symm

theorem fuseInput_frame (second : Bool) (op : OpId) (s s' : OptState)
    (input : Option TensorId) (hop : (s.g.opObj op).opType = OpType.MatMul)
    (h : fuseInput second op s input = .ok s') :
    Frame2 s.g s'.g ∧ (∀ i, i ≠ op → s'.g.opObj i = s.g.opObj i) ∧
      (∀ r ∈ s.remove_vec, r ∈ s'.remove_vec) := by
  rcases fuseInput_cases second op s s' input h with e | ⟨inp, tr, tin, tout, _, _, htr, e⟩
  · subst e
    exact ⟨Frame2.same _, fun _ _ => rfl, fun _ hr => hr⟩
  · subst e
    exact ⟨fusedGraph_frame second op tr inp tin tout s.g hop htr,
      fun i hi => fusedGraph_opObj_ne _ _ _ _ _ _ _ _ hi,
      fun r hr => List.mem_append_left _ hr⟩

theorem pass2Step_frame (s s' : OptState) (op : OpId) (h : pass2Step s op = .ok s') :
    Frame2 s.g s'.g ∧ (∀ i, i ≠ op → s'.g.opObj i = s.g.opObj i) ∧
      (∀ r ∈ s.remove_vec, r ∈ s'.remove_vec) := by
  unfold pass2Step at h
  by_cases hop : (s.g.opObj op).opType = OpType.MatMul
  · rw [if_pos hop] at h
    split at h
    · cases h
    · split at h
      · cases h
      · split at h
        · cases h
        · split at h
          · cases h
          · next s1 hs1 =>
            obtain ⟨f1, o1, r1⟩ := fuseInput_frame false op s s1 _ hop hs1
            obtain ⟨f2, o2, r2⟩ := fuseInput_frame true op s1 s' _
              ((f1.opType op).trans hop) h
            exact ⟨f1.andThen f2, fun i hi => (o2 i hi).trans (o1 i hi),
              fun r hr => r2 r (r1 r hr)⟩
  · rw [if_neg hop] at h
    simp only [Except.ok.injEq] at h
    subst h
    exact ⟨Frame2.same _, fun _ _ => rfl, fun _ hr => hr⟩

theorem pass2_loop_frame :
    ∀ (l : List OpId) (s s' : OptState), forEachM pass2Step l s = .ok s' →
      Frame2 s.g s'.g ∧ (∀ i, i ∉ l → s'.g.opObj i = s.g.opObj i) ∧
        (∀ r ∈ s.remove_vec, r ∈ s'.remove_vec)
  | [], s, s', h => by
    simp only [forEachM, Except.ok.injEq] at h
    subst h
    exact ⟨Frame2.same _, fun _ _ => rfl, fun _ hr => hr⟩
  | op :: rest, s, s', h => by
    simp only [forEachM] at h
    cases hs : pass2Step s op with
    | error e => rw [hs] at h; cases h
    | ok s1 =>
      rw [hs] at h
      obtain ⟨f1, o1, r1⟩ := pass2Step_frame s s1 op hs
      obtain ⟨f2, o2, r2⟩ := pass2_loop_frame rest s1 s' h
      refine ⟨f1.andThen f2, fun i hi => ?_, fun r hr => r2 r (r1 r hr)⟩
      rw [o2 i (fun hm => hi (List.mem_cons_of_mem _ hm)),
        o1 i (fun e => hi (e ▸ List.mem_cons_self _ _))]

theorem fuseInput_skip (second : Bool) (op : OpId) (s : OptState) (y : TensorId)
    (h : notFusable s.g y = true) : fuseInput second op s (some y) = .ok s := by
  unfold notFusable at h
  unfold fuseInput
  simp only [deref]
  cases hsrc : (s.g.tensorObj y).source with
  | none => rfl
  | some p =>
    rw [hsrc] at h
    simp only [Bool.not_eq_true', Bool.and_eq_false_imp, decide_eq_true_eq] at h
    by_cases hty : (s.g.opObj p).opType = OpType.Transpose
    · simp [hty, h hty]
    · simp [hty]

theorem fuseInput_fire (second : Bool) (op : OpId) (s : OptState) (t x : TensorId)
    (tr : OpId) (rest : List (Option TensorId)) (tout : Option TensorId)
    (hop : (s.g.opObj op).opType = OpType.MatMul)
    (hsrc : (s.g.tensorObj t).source = some tr)
    (hty : (s.g.opObj tr).opType = OpType.Transpose)
    (hsw : swapsLastTwo (s.g.opObj tr).permute = true)
    (hin : (s.g.opObj tr).inputs = some x :: rest)
    (hout : (s.g.opObj tr).outputs = [tout]) :
    fuseInput second op s (some t) =
      .ok { g := fusedGraph second op tr t x tout s.g, remove_vec := s.remove_vec ++ [tr] } := by
  have hne : tr ≠ op := by
    intro e
    rw [e, hop] at hty
    cases hty
  have h1 : ((s.g.setTrans second op).opObj tr).inputs = some x :: rest := by
    simp [GraphObj.setTrans, updOp_opObj, hne, hin]
  have h2 : (((((s.g.setTrans second op).removeTarget x tr).addTarget x op).replaceInput op t
      x).removePredecessors op tr).getOutput tr = .ok tout := by
    simp [GraphObj.getOutput, GraphObj.setTrans, GraphObj.removeTarget, GraphObj.addTarget,
      GraphObj.replaceInput, GraphObj.removePredecessors, updOp_opObj, hne, hout]
  unfold fuseInput
  simp only [deref, hsrc, hty, hsw, if_true, h1, elemAt, List.getElem?_cons_zero, h2]
  rfl

theorem valid_tensors_nodup (g : GraphObj) (hv : Valid g) : g.tensors.Nodup :=
  List.Nodup.of_map _ hv.fuids

theorem rewired_idem (next_op : OpId) (nout inp : TensorId) (o : OperatorObj) :
    rewired next_op nout inp (rewired next_op nout inp o) = rewired next_op nout inp o := by
  unfold rewired
  simp only [List.map_map, List.filter_filter, Bool.and_self]
  congr 1
  apply List.map_congr_left
  intro x _
  by_cases h : x = some nout
  · by_cases h2 : inp = nout
    · simp [h, h2]
    · simp [h, h2]
  · simp [h]

theorem rewireTarget_opObj (next_op : OpId) (nout inp : TensorId) (g : GraphObj) (c i : OpId) :
    (rewireTarget next_op nout inp g c).opObj i =
      if i = c then rewired next_op nout inp (g.opObj c) else g.opObj i := by
  by_cases h : i = c
  · subst h
    simp [rewireTarget, GraphObj.addTarget, GraphObj.replaceInput, GraphObj.removePredecessors,
      rewired]
  · simp [rewireTarget, GraphObj.addTarget, GraphObj.replaceInput, GraphObj.removePredecessors,
      updOp_opObj, h]

theorem rewireTarget_tensorObj (next_op : OpId) (nout inp : TensorId) (g : GraphObj) (c : OpId)
    (u : TensorId) :
    (rewireTarget next_op nout inp g c).tensorObj u =
      if u = inp then { (g.tensorObj inp) with targets := (g.tensorObj inp).targets ++ [c] }
      else g.tensorObj u := by
  by_cases h : u = inp
  · subst h
    simp [rewireTarget, GraphObj.addTarget, GraphObj.replaceInput, GraphObj.removePredecessors]
  · simp [rewireTarget, GraphObj.addTarget, GraphObj.replaceInput, GraphObj.removePredecessors,
      updTensor_tensorObj, h]

theorem rewireTarget_lists (next_op : OpId) (nout inp : TensorId) (g : GraphObj) (c : OpId) :
    (rewireTarget next_op nout inp g c).ops = g.ops ∧
      (rewireTarget next_op nout inp g c).tensors = g.tensors ∧
      (rewireTarget next_op nout inp g c).sorted = g.sorted := by
  simp [rewireTarget, GraphObj.addTarget, GraphObj.replaceInput, GraphObj.removePredecessors]

/-- The loop over the consumers of `next_output` (graph.cc:141-146). -/
theorem rewire_fold (next_op : OpId) (nout inp : TensorId) :
    ∀ (L : List OpId) (h : GraphObj),
      (L.foldl (rewireTarget next_op nout inp) h).ops = h.ops ∧
      (L.foldl (rewireTarget next_op nout inp) h).tensors = h.tensors ∧
      (L.foldl (rewireTarget next_op nout inp) h).sorted = h.sorted ∧
      (∀ i, (L.foldl (rewireTarget next_op nout inp) h).opObj i =
        if i ∈ L then rewired next_op nout inp (h.opObj i) else h.opObj i) ∧
      (∀ u, (L.foldl (rewireTarget next_op nout inp) h).tensorObj u =
        if u = inp then { (h.tensorObj inp) with targets := (h.tensorObj inp).targets ++ L }
        else h.tensorObj u)
  | [], h => by
    refine ⟨rfl, rfl, rfl, fun i => by simp, fun u => ?_⟩
    by_cases e : u = inp
    · subst e; simp
    · simp [e]
  | c :: L, h => by
    obtain ⟨h1, h2, h3, h4, h5⟩ := rewire_fold next_op nout inp L (rewireTarget next_op nout inp h c)
    obtain ⟨e1, e2, e3⟩ := rewireTarget_lists next_op nout inp h c
    simp only [List.foldl_cons]
    refine ⟨h1.trans e1, h2.trans e2, h3.trans e3, fun i => ?_, fun u => ?_⟩
    · rw [h4 i, rewireTarget_opObj]
      by_cases hi : i ∈ L
      · by_cases hc : i = c
        · subst hc
          simp [hi, rewired_idem]
        · simp [hi, hc]
      · by_cases hc : i = c
        · subst hc
          simp [hi]
        · simp [hi, hc]
    · rw [h5 u, rewireTarget_tensorObj, rewireTarget_tensorObj]
      by_cases e : u = inp
      · subst e; simp
      · simp [e]

theorem splicedGraph_facts (op next_op : OpId) (inp : TensorId) (output : Option TensorId)
    (nout : TensorId) (g : GraphObj) :
    (splicedGraph op next_op inp output nout g).ops = g.ops ∧
    (splicedGraph op next_op inp output nout g).sorted = g.sorted ∧
    (splicedGraph op next_op inp output nout g).tensors =
      ((g.removeTensor output).removeTensor (some nout)).tensors ∧
    (∀ i, (splicedGraph op next_op inp output nout g).opObj i =
      if i ∈ (g.tensorObj nout).targets then rewired next_op nout inp (g.opObj i)
      else g.opObj i) ∧
    (∀ u, (splicedGraph op next_op inp output nout g).tensorObj u =
      if u = inp then
        { (g.tensorObj inp) with
          targets := ((g.tensorObj inp).targets ++ (g.tensorObj nout).targets).filter
            fun x => decide (x ≠ op) }
      else g.tensorObj u) := by
  obtain ⟨h1, h2, h3, h4, h5⟩ := rewire_fold next_op nout inp (g.tensorObj nout).targets g
  unfold splicedGraph
  refine ⟨?_, ?_, ?_, ?_, ?_⟩
  · simp [GraphObj.removeTarget, h1]
  · simp [GraphObj.removeTarget, h3]
  · cases output <;> simp [GraphObj.removeTensor, GraphObj.removeTarget, h2]
  · intro i
    simp [GraphObj.removeTarget, h4 i]
  · intro u
    by_cases e : u = inp
    · subst e
      simp [GraphObj.removeTarget, h5 u]
    · simp [GraphObj.removeTarget, updTensor_tensorObj, e, h5 u]

/-- The iteration of the second loop at the MatMul of the pattern. -/
theorem pass2Step_pattern (s : OptState) (second : Bool) (M T : OpId) (t y x : TensorId)
    (rest : List (Option TensorId)) (out : Option TensorId)
    (hMty : (s.g.opObj M).opType = OpType.MatMul)
    (hMin : (s.g.opObj M).inputs = if second then [some y, some t] else [some t, some y])
    (hMout : (s.g.opObj M).outputs = [out])
    (hsrc : (s.g.tensorObj t).source = some T)
    (hTty : (s.g.opObj T).opType = OpType.Transpose)
    (hsw : swapsLastTwo (s.g.opObj T).permute = true)
    (hTin : (s.g.opObj T).inputs = some x :: rest)
    (hTout : (s.g.opObj T).outputs = [some t])
    (hy : notFusable s.g y = true) :
    pass2Step s M =
      .ok { g := fusedGraph second M T t x (some t) s.g, remove_vec := s.remove_vec ++ [T] } := by
  have hfire := fuseInput_fire second M s t x T rest (some t) hMty hsrc hTty hsw hTin hTout
  unfold pass2Step
  rw [if_pos hMty]
  cases second with
  | false =>
    simp only [Bool.false_eq_true, if_false] at hMin
    have hy2 : notFusable (fusedGraph false M T t x (some t) s.g) y = true := by
      have hf := fusedGraph_frame false M T t x (some t) s.g hMty hTty
      unfold notFusable at hy ⊢
      rw [hf.source y]
      cases hs : (s.g.tensorObj y).source with
      | none => rfl
      | some p =>
        rw [hs] at hy
        simp only at hy ⊢
        by_cases hp : (s.g.opObj p).opType = OpType.MatMul
        · simp [hf.opType p, hp]
        · rw [hf.other p hp]; exact hy
    simp only [elemAt, hMin, List.getElem?_cons_zero, List.getElem?_cons_succ,
      GraphObj.getOutput, hMout, hfire]
    exact fuseInput_skip true M _ y hy2
  | true =>
    simp only [if_true] at hMin
    simp only [elemAt, hMin, List.getElem?_cons_zero, List.getElem?_cons_succ,
      GraphObj.getOutput, hMout, fuseInput_skip false M s y hy, hfire]

theorem frame1_self (g : GraphObj) : Frame1 g g :=
  ⟨rfl, rfl, fun _ => rfl, fun _ => rfl, fun _ => rfl, fun _ => rfl, fun _ => rfl,
    fun _ => rfl, fun _ => rfl, fun _ h => h, fun h => h⟩

theorem frame1_then {a b c : GraphObj} (h1 : Frame1 a b) (h2 : Frame1 b c) : Frame1 a c where
  ops := h2.ops.trans h1.ops
  sorted := h2.sorted.trans h1.sorted
  opType i := (h2.opType i).trans (h1.opType i)
  outputs i := (h2.outputs i).trans (h1.outputs i)
  permute i := (h2.permute i).trans (h1.permute i)
  transA i := (h2.transA i).trans (h1.transA i)
  transB i := (h2.transB i).trans (h1.transB i)
  source t := (h2.source t).trans (h1.source t)
  dims t := (h2.dims t).trans (h1.dims t)
  tensors t ht := h1.tensors t (h2.tensors t ht)
  nodup h := h2.nodup (h1.nodup h)

theorem splicedGraph_frame1 (op next_op : OpId) (inp : TensorId) (output : Option TensorId)
    (nout : TensorId) (g : GraphObj) :
    Frame1 g (splicedGraph op next_op inp output nout g) := by
  obtain ⟨f1, f2, f3, f4, f5⟩ := splicedGraph_facts op next_op inp output nout g
  have hop : ∀ i, (splicedGraph op next_op inp output nout g).opObj i = g.opObj i ∨
      (splicedGraph op next_op inp output nout g).opObj i =
        rewired next_op nout inp (g.opObj i) := by
    intro i
    rw [f4 i]
    by_cases h : i ∈ (g.tensorObj nout).targets
    · exact Or.inr (by rw [if_pos h])
    · exact Or.inl (by rw [if_neg h])
  have hten : ∀ u, ((splicedGraph op next_op inp output nout g).tensorObj u).source =
        (g.tensorObj u).source ∧
      ((splicedGraph op next_op inp output nout g).tensorObj u).dims = (g.tensorObj u).dims := by
    intro u
    rw [f5 u]
    by_cases h : u = inp
    · subst h
      rw [if_pos rfl]
      exact ⟨rfl, rfl⟩
    · rw [if_neg h]
      exact ⟨rfl, rfl⟩
  refine ⟨f1, f2, ?_, ?_, ?_, ?_, ?_, fun u => (hten u).1, fun u => (hten u).2, ?_, ?_⟩
  · intro i
    rcases hop i with h | h
    · rw [h]
    · rw [h]
      rfl
  · intro i
    rcases hop i with h | h
    · rw [h]
    · rw [h]
      rfl
  · intro i
    rcases hop i with h | h
    · rw [h]
    · rw [h]
      rfl
  · intro i
    rcases hop i with h | h
    · rw [h]
    · rw [h]
      rfl
  · intro i
    rcases hop i with h | h
    · rw [h]
    · rw [h]
      rfl
  · intro t ht
    rw [f3] at ht
    exact removeTensor_tensors_sub g output t
      (removeTensor_tensors_sub (g.removeTensor output) (some nout) t ht)
  · intro hn
    rw [f3]
    have h1 : (g.removeTensor output).tensors.Nodup := by
      cases output with
      | none => exact hn
      | some o => exact hn.erase o
    exact h1.erase nout

/-- An iteration of the first loop that completes either leaves the state alone
or splices out the visited Transpose and the Transpose that first consumes its
output. -/
theorem pass1Step_cases (s s' : OptState) (op : OpId) (h : pass1Step s op = .ok s') :
    s' = s ∨ ∃ next_op inp out nout,
      (s.g.opObj op).opType = OpType.Transpose ∧
      (s.g.opObj op).inputs[0]? = some (some inp) ∧
      (s.g.opObj op).outputs = [some out] ∧
      (s.g.tensorObj out).targets[0]? = some next_op ∧
      (s.g.opObj next_op).opType = OpType.Transpose ∧
      (s.g.opObj next_op).outputs = [some nout] ∧
      (s.g.tensorObj nout).dims = (s.g.tensorObj inp).dims ∧
      s' = { g := splicedGraph op next_op inp (some out) nout s.g,
             remove_vec := s.remove_vec ++ [op, next_op] } := by
  unfold pass1Step at h
  by_cases hty : (s.g.opObj op).opType = OpType.Transpose
  · rw [if_pos hty] at h
    cases hin : (s.g.opObj op).inputs[0]? with
    | none => simp [elemAt, hin] at h
    | some input =>
      simp only [elemAt, hin] at h
      cases hout : (s.g.opObj op).outputs with
      | nil => simp [GraphObj.getOutput, hout] at h
      | cons output rest =>
        cases rest with
        | cons _ _ => simp [GraphObj.getOutput, hout] at h
        | nil =>
          simp only [GraphObj.getOutput, hout] at h
          cases output with
          | none => simp [deref] at h
          | some out =>
            simp only [deref] at h
            cases htg : (s.g.tensorObj out).targets[0]? with
            | none => simp [htg] at h
            | some next_op =>
              simp only [htg] at h
              by_cases hty2 : (s.g.opObj next_op).opType = OpType.Transpose
              · rw [if_pos hty2] at h
                cases hout2 : (s.g.opObj next_op).outputs with
                | nil => simp [hout2] at h
                | cons o2 rest2 =>
                  cases rest2 with
                  | cons _ _ => simp [hout2] at h
                  | nil =>
                    simp only [hout2] at h
                    cases o2 with
                    | none => simp at h
                    | some nout =>
                      simp only at h
                      cases input with
                      | none => simp at h
                      | some inp =>
                        simp only at h
                        by_cases hd : (s.g.tensorObj nout).dims = (s.g.tensorObj inp).dims
                        · rw [if_pos hd] at h
                          simp only [Except.ok.injEq] at h
                          exact Or.inr ⟨next_op, inp, out, nout, hty, rfl, rfl, htg, hty2,
                            hout2, hd, h.symm⟩
                        · rw [if_neg hd] at h
                          simp only [Except.ok.injEq] at h
                          exact Or.inl h.symm
              · rw [if_neg hty2] at h
                simp only [Except.ok.injEq] at h
                exact Or.inl h.symm
  · rw [if_neg hty] at h
    simp only [Except.ok.injEq] at h
    exact Or.inl h.symm

theorem pass1Step_frame (s s' : OptState) (op : OpId) (h : pass1Step s op = .ok s') :
    Frame1 s.g s'.g ∧ ∀ r ∈ s.remove_vec, r ∈ s'.remove_vec := by
  rcases pass1Step_cases s s' op h with e | ⟨next_op, inp, out, nout, _, _, _, _, _, _, _, e⟩
  · subst e
    exact ⟨frame1_self _, fun _ hr => hr⟩
  · subst e
    exact ⟨splicedGraph_frame1 op next_op inp (some out) nout s.g,
      fun r hr => List.mem_append_left _ hr⟩

theorem pass1_loop_frame :
    ∀ (l : List OpId) (s s' : OptState), forEachM pass1Step l s = .ok s' →
      Frame1 s.g s'.g ∧ ∀ r ∈ s.remove_vec, r ∈ s'.remove_vec
  | [], s, s', h => by
    simp only [forEachM, Except.ok.injEq] at h
    subst h
    exact ⟨frame1_self _, fun _ hr => hr⟩
  | op :: rest, s, s', h => by
    simp only [forEachM] at h
    cases hs : pass1Step s op with
    | error e => rw [hs] at h; cases h
    | ok s1 =>
      rw [hs] at h
      obtain ⟨f1, r1⟩ := pass1Step_frame s s1 op hs
      obtain ⟨f2, r2⟩ := pass1_loop_frame rest s1 s' h
      exact ⟨frame1_then f1 f2, fun r hr => r2 r (r1 r hr)⟩

/-- A loop that completes on `l1 ++ l2` completes on `l1`, and on `l2` from
the state reached there. -/
theorem forEachM_split {σ α : Type} (step : σ → α → Except Fault σ) :
    ∀ (l1 l2 : List α) (s s' : σ), forEachM step (l1 ++ l2) s = .ok s' →
      ∃ m, forEachM step l1 s = .ok m ∧ forEachM step l2 m = .ok s'
  | [], _, s, _, h => ⟨s, rfl, h⟩
  | a :: rest, l2, s, s', h => by
    simp only [forEachM, List.cons_append] at h ⊢
    cases hs : step s a with
    | error e => rw [hs] at h; cases h
    | ok s1 =>
      rw [hs] at h
      exact forEachM_split step rest l2 s1 s' h

theorem optimize_run (g g' : GraphObj) (h : g.optimize = .ok g') :
    ∃ s1 s2, forEachM pass1Step g.ops { g := g, remove_vec := [] } = .ok s1 ∧
      forEachM pass2Step s1.g.ops s1 = .ok s2 ∧
      g' = s2.remove_vec.foldl GraphObj.removeOperator s2.g := by
  unfold GraphObj.optimize at h
  cases h1 : forEachM pass1Step g.ops { g := g, remove_vec := [] } with
  | error e => rw [h1] at h; cases h
  | ok s1 =>
    rw [h1] at h
    simp only at h
    cases h2 : forEachM pass2Step s1.g.ops s1 with
    | error e => rw [h2] at h; cases h
    | ok s2 =>
      rw [h2] at h
      simp only [Except.ok.injEq] at h
      exact ⟨s1, s2, rfl, h2, h.symm⟩

theorem pass2Step_single_output (s s' : OptState) (op : OpId)
    (hty : (s.g.opObj op).opType = OpType.MatMul) (h : pass2Step s op = .ok s') :
    ∃ out, (s.g.opObj op).outputs = [out] := by
  unfold pass2Step at h
  rw [if_pos hty] at h
  cases hout : (s.g.opObj op).outputs with
  | nil =>
    simp only [GraphObj.getOutput, hout] at h
    split at h
    · cases h
    · split at h <;> cases h
  | cons o rest =>
    cases rest with
    | nil => exact ⟨o, rfl⟩
    | cons _ _ =>
      simp only [GraphObj.getOutput, hout] at h
      split at h
      · cases h
      · split at h <;> cases h

/-- The fusion pattern of the second loop on a run of `optimize` whose first
loop leaves the inputs of the MatMul and the first input of the Transpose as
they were. -/
theorem optimize_fuses_core (g g' : GraphObj) (s1 : OptState) (second : Bool) (M T : OpId)
    (t y x : TensorId) (rest : List (Option TensorId))
    (hv : g.checkValid = .ok true) (hd : g.ops.Nodup)
    (hM : M ∈ g.ops) (hMty : (g.opObj M).opType = OpType.MatMul)
    (hMin : (g.opObj M).inputs = if second then [some y, some t] else [some t, some y])
    (hsrc : (g.tensorObj t).source = some T)
    (hTty : (g.opObj T).opType = OpType.Transpose)
    (hsw : swapsLastTwo (g.opObj T).permute = true)
    (hTin : (g.opObj T).inputs = some x :: rest)
    (hTout : (g.opObj T).outputs = [some t])
    (hy : ∀ p, (g.tensorObj y).source = some p → (g.opObj p).opType ≠ OpType.Transpose)
    (hp1 : forEachM pass1Step g.ops { g := g, remove_vec := [] } = .ok s1)
    (hkM : (s1.g.opObj M).inputs = (g.opObj M).inputs)
    (hkT : (s1.g.opObj T).inputs[0]? = (g.opObj T).inputs[0]?)
    (hrun : g.optimize = .ok g') :
    (g'.opObj M).transFlag second = true ∧
      (g'.opObj M).transFlag (!second) = (g.opObj M).transFlag (!second) ∧
      (g'.opObj M).inputs = (if second then [some y, some x] else [some x, some y]) ∧
      M ∈ (g'.tensorObj x).targets ∧ T ∉ (g'.tensorObj x).targets ∧
      T ∉ g'.ops ∧ t ∉ g'.tensors ∧
      (g'.opObj M).opType = OpType.MatMul ∧
      ∀ u, (g'.tensorObj u).dims = (g.tensorObj u).dims := by
  have hV : Valid g := (checkValid_iff g).1 hv
  obtain ⟨rest1, hTin1⟩ : ∃ rest1, (s1.g.opObj T).inputs = some x :: rest1 := by
    rw [hTin, List.getElem?_cons_zero] at hkT
    cases hl : (s1.g.opObj T).inputs with
    | nil => rw [hl] at hkT; cases hkT
    | cons i r =>
      rw [hl, List.getElem?_cons_zero] at hkT
      cases hkT
      exact ⟨r, rfl⟩
  obtain ⟨s1', s2, hp1', hp2, hg'⟩ := optimize_run g g' hrun
  rw [hp1] at hp1'
  cases hp1'
  obtain ⟨F, _⟩ := pass1_loop_frame g.ops _ s1 hp1
  have F : Frame1 g s1.g := F
  obtain ⟨pre, post, hsplit⟩ := List.append_of_mem hM
  have hnd : (pre ++ M :: post).Nodup := hsplit ▸ hd
  have hndMpost : (M :: post).Nodup := (List.nodup_append.1 hnd).2.1
  have hMpre : M ∉ pre := fun hm' =>
    (List.nodup_append.1 hnd).2.2 hm' (List.mem_cons_self _ _)
  have hMpost : M ∉ post := (List.nodup_cons.1 hndMpost).1
  rw [F.ops, hsplit] at hp2
  obtain ⟨sa, hsa, hrest⟩ := forEachM_split pass2Step pre (M :: post) s1 s2 hp2
  simp only [forEachM] at hrest
  cases hstep : pass2Step sa M with
  | error e => rw [hstep] at hrest; cases hrest
  | ok sb =>
    rw [hstep] at hrest
    -- the iterations before `M`
    obtain ⟨f1, o1, _⟩ := pass2_loop_frame pre s1 sa hsa
    have hM1 : sa.g.opObj M = s1.g.opObj M := o1 M hMpre
    have hTty1 : (s1.g.opObj T).opType = OpType.Transpose := (F.opType T).trans hTty
    have hMty1 : (s1.g.opObj M).opType = OpType.MatMul := (F.opType M).trans hMty
    have hT1 : sa.g.opObj T = s1.g.opObj T := f1.other T (by rw [hTty1]; decide)
    have hMtya : (sa.g.opObj M).opType = OpType.MatMul := by rw [hM1]; exact hMty1
    obtain ⟨out, hMout⟩ := pass2Step_single_output sa sb M hMtya hstep
    have hy1 : notFusable sa.g y = true := by
      unfold notFusable
      rw [f1.source y, F.source y]
      cases hs : (g.tensorObj y).source with
      | none => rfl
      | some p => simp [f1.opType p, F.opType p, hy p hs]
    -- the iteration at `M`
    have hs2 := pass2Step_pattern sa second M T t y x rest1 out hMtya
      (by rw [hM1, hkM]; exact hMin) hMout (by rw [f1.source, F.source]; exact hsrc)
      (by rw [hT1]; exact hTty1) (by rw [hT1, F.permute]; exact hsw)
      (by rw [hT1]; exact hTin1) (by rw [hT1, F.outputs]; exact hTout) hy1
    rw [hs2] at hstep
    cases hstep
    have f2 : Frame2 sa.g (fusedGraph second M T t x (some t) sa.g) :=
      fusedGraph_frame second M T t x (some t) sa.g hMtya (by rw [hT1]; exact hTty1)
    -- the iterations after `M`
    obtain ⟨f3, o3, r3⟩ := pass2_loop_frame post _ s2 hrest
    have f3 : Frame2 (fusedGraph second M T t x (some t) sa.g) s2.g := f3
    obtain ⟨eops, etens, _, eop, eten⟩ := removeOperator_fold s2.remove_vec s2.g
    have hyt : y ≠ t := fun e => hy T (e ▸ hsrc) hTty
    subst hg'
    refine ⟨?_, ?_, ?_, ?_, ?_, ?_, ?_, ?_, ?_⟩
    · rw [eop, o3 M hMpost, fusedGraph_opObj_same]
      cases second <;> simp [OperatorObj.transFlag]
    · rw [eop, o3 M hMpost, fusedGraph_opObj_same, hM1]
      cases second
      · simp only [OperatorObj.transFlag, Bool.not_false, if_true, Bool.false_eq_true, if_false]
        exact F.transB M
      · simp only [OperatorObj.transFlag, Bool.not_true, Bool.false_eq_true, if_false, if_true]
        exact F.transA M
    · rw [eop, o3 M hMpost, fusedGraph_opObj_same, hM1, hkM, hMin]
      cases second <;> simp [hyt]
    · rw [eten]
      have hmem : M ∈ ((fusedGraph second M T t x (some t) sa.g).tensorObj x).targets := by
        rw [fusedGraph_tensorObj_same]
        simp
      rcases f3.targets_old x M hmem with h | h
      · exact h
      · rw [f2.opType M, hMtya] at h
        cases h
    · rw [eten]
      intro hmem
      rcases f3.targets_new x T hmem with h | h
      · rw [fusedGraph_tensorObj_same] at h
        simp only [List.mem_append, List.mem_filter, List.mem_singleton, decide_eq_true_eq] at h
        rcases h with h | h
        · exact h.2 rfl
        · rw [h, hMty] at hTty
          cases hTty
      · rw [f2.opType T, hT1, hTty1] at h
        cases h
    · rw [eops]
      refine not_mem_foldl_erase T _ _ ?_ (Or.inl (r3 T ?_))
      · rw [f3.ops, f2.ops, f1.ops, F.ops]
        exact hd
      · exact List.mem_append_right _ (List.mem_singleton.2 rfl)
    · rw [etens]
      intro hmem
      have h2 := f3.tensors t hmem
      rw [fusedGraph_tensors, removeTensor_some_tensors] at h2
      exact (f1.nodup (F.nodup (valid_tensors_nodup g hV))).not_mem_erase h2
    · rw [eop, f3.opType, f2.opType, hM1, hMty1]
    · intro u
      rw [eten, f3.dims, f2.dims, f1.dims, F.dims]

/-- C7 (amended): in a valid graph with distinct operators let MatMul `M` read
at one position (first when `second` is false, second otherwise) the output
`t` of a Transpose `T` with first input `x` whose permutation swaps the last
two axes, and at the other position a tensor `y` that no Transpose produces.
Whenever `optimize` completes and its first loop leaves the inputs of `M` and
the first input of `T` as they were, the flag of that position (`transA` or `transB`) is true,
the other flag keeps its value, `M` reads `x` at that position, `x` has target
`M` and not `T`, `T` is no longer an operator and `t` no longer a tensor of the
graph. -/
theorem optimize_fuses_transpose (g g' : GraphObj) (s1 : OptState) (second : Bool)
    (M T : OpId) (t y x : TensorId) (rest : List (Option TensorId))
    (hv : g.checkValid = .ok true) (hd : g.ops.Nodup)
    (hM : M ∈ g.ops) (hMty : (g.opObj M).opType = OpType.MatMul)
    (hMin : (g.opObj M).inputs = if second then [some y, some t] else [some t, some y])
    (hsrc : (g.tensorObj t).source = some T)
    (hTty : (g.opObj T).opType = OpType.Transpose)
    (hsw : swapsLastTwo (g.opObj T).permute = true)
    (hTin : (g.opObj T).inputs = some x :: rest)
    (hTout : (g.opObj T).outputs = [some t])
    (hy : ∀ p, (g.tensorObj y).source = some p → (g.opObj p).opType ≠ OpType.Transpose)
    (hp1 : forEachM pass1Step g.ops { g := g, remove_vec := [] } = .ok s1)
    (hkM : (s1.g.opObj M).inputs = (g.opObj M).inputs)
    (hkT : (s1.g.opObj T).inputs[0]? = (g.opObj T).inputs[0]?)
    (hrun : g.optimize = .ok g') :
    (g'.opObj M).transFlag second = true ∧
      (g'.opObj M).transFlag (!second) = (g.opObj M).transFlag (!second) ∧
      (g'.opObj M).inputs[if second then 1 else 0]? = some (some x) ∧
      M ∈ (g'.tensorObj x).targets ∧ T ∉ (g'.tensorObj x).targets ∧
      T ∉ g'.ops ∧ t ∉ g'.tensors := by
  obtain ⟨h1, h2, h3, h4, h5, h6, h7, _⟩ := optimize_fuses_core g g' s1 second M T t y x rest
    hv hd hM hMty hMin hsrc hTty hsw hTin hTout hy hp1 hkM hkT hrun
  refine ⟨h1, h2, ?_, h4, h5, h6, h7⟩
  rw [h3]
  cases second <;> rfl

theorem sameButDims_self (g : GraphObj) : SameButDims g g :=
  ⟨rfl, rfl, rfl, rfl, fun _ => rfl, fun _ => rfl, fun _ => rfl, fun _ => rfl, fun _ => rfl⟩

theorem sameButDims_then {a b c : GraphObj} (h1 : SameButDims a b) (h2 : SameButDims b c) :
    SameButDims a c :=
  ⟨h2.ops.trans h1.ops, h2.tensors.trans h1.tensors, h2.sorted.trans h1.sorted,
    h2.opObj.trans h1.opObj, fun t => (h2.fuid t).trans (h1.fuid t),
    fun t => (h2.source t).trans (h1.source t), fun t => (h2.targets t).trans (h1.targets t),
    fun t => (h2.data t).trans (h1.data t), fun t => (h2.dtype t).trans (h1.dtype t)⟩

theorem setShape_sameButDims (g : GraphObj) (u : TensorId) (s : Shape) :
    SameButDims g (g.setShape u s) := by
  refine ⟨rfl, rfl, rfl, rfl, ?_, ?_, ?_, ?_, ?_⟩
  all_goals intro t
  all_goals by_cases e : t = u
  all_goals simp [GraphObj.setShape, updTensor_tensorObj, e]

theorem setShape_dims (g : GraphObj) (u t : TensorId) (s : Shape) :
    ((g.setShape u s).tensorObj t).dims = if t = u then s else (g.tensorObj t).dims := by
  by_cases e : t = u
  · subst e; simp [GraphObj.setShape]
  · simp [GraphObj.setShape, updTensor_tensorObj, e]

theorem getTensor_some (g : GraphObj) (f : Nat) (u : TensorId) (h : g.getTensor f = some u) :
    u ∈ g.tensors ∧ (g.tensorObj u).fuid = f := by
  unfold GraphObj.getTensor at h
  exact ⟨List.mem_of_find?_eq_some h, by simpa using List.find?_some h⟩

/-- The loop over the outputs writes shapes only, and only to listed tensors
that carry the fuid of one of the outputs. -/
theorem shapeOutputs_frame :
    ∀ (outs : List (Option TensorId)) (ans : List Shape) (g g' : GraphObj),
      shapeOutputs g outs ans = .ok g' →
      SameButDims g g' ∧ ∀ u, (g'.tensorObj u).dims ≠ (g.tensorObj u).dims →
        u ∈ g.tensors ∧ ∃ t, some t ∈ outs ∧ (g.tensorObj t).fuid = (g.tensorObj u).fuid
  | [], _, g, g', h => by
    simp only [shapeOutputs, Except.ok.injEq] at h
    subst h
    exact ⟨sameButDims_self g, fun u hu => absurd rfl hu⟩
  | _ :: _, [], g, g', h => by
    simp only [shapeOutputs, Except.ok.injEq] at h
    subst h
    exact ⟨sameButDims_self g, fun u hu => absurd rfl hu⟩
  | o :: outs, newShape :: ans, g, g', h => by
    simp only [shapeOutputs] at h
    cases o with
    | none => simp [deref] at h
    | some t =>
      simp only [deref] at h
      by_cases hne : newShape ≠ (g.tensorObj t).dims
      · rw [if_pos hne] at h
        cases hget : g.getTensor (g.tensorObj t).fuid with
        | none => rw [hget] at h; cases h
        | some u0 =>
          rw [hget] at h
          simp only at h
          obtain ⟨hu0, hf0⟩ := getTensor_some g _ u0 hget
          obtain ⟨ih1, ih2⟩ := shapeOutputs_frame outs ans _ g' h
          have hs := setShape_sameButDims g u0 newShape
          refine ⟨sameButDims_then hs ih1, fun u hu => ?_⟩
          by_cases hch : (g'.tensorObj u).dims ≠ ((g.setShape u0 newShape).tensorObj u).dims
          · obtain ⟨hm, t', ht', hft'⟩ := ih2 u hch
            rw [hs.fuid, hs.fuid] at hft'
            exact ⟨hm, t', List.mem_cons_of_mem _ ht', hft'⟩
          · have hch' := not_not.1 hch
            rw [hch', setShape_dims] at hu
            by_cases e : u = u0
            · subst e
              exact ⟨hu0, t, List.mem_cons_self _ _, hf0.symm⟩
            · rw [if_neg e] at hu
              exact absurd rfl hu
      · rw [if_neg hne] at h
        obtain ⟨ih1, ih2⟩ := shapeOutputs_frame outs ans g g' h
        refine ⟨ih1, fun u hu => ?_⟩
        obtain ⟨hm, t', ht', hft'⟩ := ih2 u hu
        exact ⟨hm, t', List.mem_cons_of_mem _ ht', hft'⟩

theorem shapeStep_frame
    (other : OperatorObj → List (Option Shape) → Except Fault (Option (List Shape)))
    (g g' : GraphObj) (op : OpId) (h : shapeStep other g op = .ok g') :
    SameButDims g g' ∧ ∀ u, (g'.tensorObj u).dims ≠ (g.tensorObj u).dims →
      u ∈ g.tensors ∧
        ∃ t, some t ∈ (g.opObj op).outputs ∧ (g.tensorObj t).fuid = (g.tensorObj u).fuid := by
  unfold shapeStep at h
  split at h
  · cases h
  · cases h
  · split at h
    · exact shapeOutputs_frame _ _ g g' h
    · cases h

theorem shapeLoop_frame
    (other : OperatorObj → List (Option Shape) → Except Fault (Option (List Shape))) :
    ∀ (l : List OpId) (g g' : GraphObj), forEachM (shapeStep other) l g = .ok g' →
      SameButDims g g' ∧ ∀ u, (g'.tensorObj u).dims ≠ (g.tensorObj u).dims →
        u ∈ g.tensors ∧ ∃ op ∈ l, ∃ t, some t ∈ (g.opObj op).outputs ∧
          (g.tensorObj t).fuid = (g.tensorObj u).fuid
  | [], g, g', h => by
    simp only [forEachM, Except.ok.injEq] at h
    subst h
    exact ⟨sameButDims_self g, fun u hu => absurd rfl hu⟩
  | op :: rest, g, g', h => by
    simp only [forEachM] at h
    cases hs : shapeStep other g op with
    | error e => rw [hs] at h; cases h
    | ok g1 =>
      rw [hs] at h
      obtain ⟨s1, c1⟩ := shapeStep_frame other g g1 op hs
      obtain ⟨s2, c2⟩ := shapeLoop_frame other rest g1 g' h
      refine ⟨sameButDims_then s1 s2, fun u hu => ?_⟩
      by_cases hch : (g'.tensorObj u).dims ≠ (g1.tensorObj u).dims
      · obtain ⟨hm, q, hq, t, ht, hf⟩ := c2 u hch
        rw [s1.opObj] at ht
        rw [s1.fuid, s1.fuid] at hf
        exact ⟨s1.tensors ▸ hm, q, List.mem_cons_of_mem _ hq, t, ht, hf⟩
      · rw [not_not.1 hch] at hu
        obtain ⟨hm, t, ht, hf⟩ := c1 u hu
        exact ⟨hm, op, List.mem_cons_self _ _, t, ht, hf⟩

theorem fuid_injective (g : GraphObj) (hv : Valid g) (t u : TensorId) (ht : t ∈ g.tensors)
    (hu : u ∈ g.tensors) (h : (g.tensorObj t).fuid = (g.tensorObj u).fuid) : t = u :=
  List.inj_on_of_nodup_map hv.fuids ht hu h

/-- C12 (amended): when `shape_infer` completes, the operator list, the tensor
list, the `sorted` flag, every operator object and every tensor's fuid,
source, targets, blob and data type are as before; a shape differs only for a listed
tensor that carries the fuid of an output of a listed operator, and on a graph
on which `checkValid` passes that tensor is itself such an output. -/
theorem shape_infer_frame
    (other : OperatorObj → List (Option Shape) → Except Fault (Option (List Shape)))
    (g g' : GraphObj) (h : g.shape_infer other = .ok g') :
    g'.ops = g.ops ∧ g'.tensors = g.tensors ∧ g'.sorted = g.sorted ∧ g'.opObj = g.opObj ∧
      (∀ t, (g'.tensorObj t).fuid = (g.tensorObj t).fuid ∧
        (g'.tensorObj t).source = (g.tensorObj t).source ∧
        (g'.tensorObj t).targets = (g.tensorObj t).targets ∧
        (g'.tensorObj t).data = (g.tensorObj t).data ∧
        (g'.tensorObj t).dtype = (g.tensorObj t).dtype) ∧
      (∀ u, (g'.tensorObj u).dims ≠ (g.tensorObj u).dims →
        u ∈ g.tensors ∧ ∃ op ∈ g.ops, ∃ t, some t ∈ (g.opObj op).outputs ∧
          (g.tensorObj t).fuid = (g.tensorObj u).fuid) ∧
      (g.checkValid = .ok true → ∀ u, (g'.tensorObj u).dims ≠ (g.tensorObj u).dims →
        ∃ op ∈ g.ops, some u ∈ (g.opObj op).outputs) := by
  obtain ⟨hs, hc⟩ := shapeLoop_frame other g.ops g g' h
  refine ⟨hs.ops, hs.tensors, hs.sorted, hs.opObj,
    fun t => ⟨hs.fuid t, hs.source t, hs.targets t, hs.data t, hs.dtype t⟩, hc, fun hv u hu => ?_⟩
  have hV := (checkValid_iff g).1 hv
  obtain ⟨hm, op, hop, t, ht, hf⟩ := hc u hu
  obtain ⟨t', ht', htm⟩ := hV.outputs_in op hop (some t) ht
  cases ht'
  have e := fuid_injective g hV t u htm hm hf
  subst e
  exact ⟨op, hop, ht⟩

theorem orderedFrom_sound (g : GraphObj) :
    ∀ (rest seen : List OpId), orderedFrom g seen rest = true →
      ∀ j q, rest[j]? = some q → ∀ p, Produces g p q →
        ∃ i : Nat, i < seen.length + j ∧ (seen ++ rest)[i]? = some p
  | [], _, _, j, q, hq, _, _ => by simp at hq
  | r :: rest, seen, h, j, q, hq, p, hp => by
    simp only [orderedFrom, Bool.and_eq_true] at h
    cases j with
    | zero =>
      simp only [List.getElem?_cons_zero, Option.some.injEq] at hq
      subst hq
      obtain ⟨t, ht, hs⟩ := hp
      have h1 := List.all_eq_true.1 h.1 (some t) ht
      simp only [hs, decide_eq_true_eq] at h1
      obtain ⟨i, hi, hget⟩ := List.getElem_of_mem h1
      refine ⟨i, by omega, ?_⟩
      rw [List.getElem?_append_left hi, List.getElem?_eq_getElem hi, hget]
    | succ j =>
      simp only [List.getElem?_cons_succ] at hq
      obtain ⟨i, hi, hget⟩ := orderedFrom_sound g rest (seen ++ [r]) h.2 j q hq p hp
      refine ⟨i, ?_, ?_⟩
      · simp only [List.length_append, List.length_singleton] at hi
        omega
      · simpa using hget

theorem topoOrdered_of_check (g : GraphObj) (h : orderedFrom g [] g.ops = true) :
    TopoOrdered g := by
  intro j q hq p hp
  obtain ⟨i, hi, hget⟩ := orderedFrom_sound g g.ops [] h j q hq p hp
  exact ⟨i, by simpa using hi, by simpa using hget⟩

theorem ordered_no_back (g : GraphObj) (hord : TopoOrdered g) (pre rest : List OpId)
    (op p : OpId) (hsplit : g.ops = pre ++ op :: rest) (hnew : op ∉ pre)
    (hp : p ∈ pre ∨ p = op) : ¬ Produces g op p := by
  intro hprod
  have hj : ∃ j, j ≤ pre.length ∧ g.ops[j]? = some p := by
    rcases hp with hp | hp
    · obtain ⟨j, hj, hget⟩ := List.getElem_of_mem hp
      refine ⟨j, by omega, ?_⟩
      rw [hsplit, List.getElem?_append_left hj, List.getElem?_eq_getElem hj, hget]
    · subst hp
      refine ⟨pre.length, le_refl _, ?_⟩
      rw [hsplit, List.getElem?_append_right (le_refl _)]
      simp
  obtain ⟨j, hj, hget⟩ := hj
  obtain ⟨i, hi, hgi⟩ := hord j p hget op hprod
  rw [hsplit, List.getElem?_append_left (by omega)] at hgi
  exact hnew (List.getElem?_mem hgi)

theorem find_of_nodup_map {α : Type} (f : α → Nat) :
    ∀ (l : List α) (t : α), (l.map f).Nodup → t ∈ l →
      l.find? (fun u => decide (f u = f t)) = some t
  | [], _, _, h => by cases h
  | a :: l, t, hn, h => by
    rw [List.map_cons, List.nodup_cons] at hn
    by_cases e : a = t
    · subst e
      simp
    · have ht : t ∈ l := by
        rcases List.mem_cons.1 h with h | h
        · exact absurd h.symm e
        · exact h
      have hne : f a ≠ f t := fun hft => hn.1 (hft ▸ List.mem_map_of_mem f ht)
      rw [List.find?_cons_of_neg _ (by simpa using hne)]
      exact find_of_nodup_map f l t hn.2 ht

theorem getTensor_of_valid (g : GraphObj)
    (hn : (g.tensors.map fun t => (g.tensorObj t).fuid).Nodup) (t : TensorId)
    (ht : t ∈ g.tensors) : g.getTensor (g.tensorObj t).fuid = some t :=
  find_of_nodup_map (fun t => (g.tensorObj t).fuid) g.tensors t hn ht

theorem fuids_same {g h : GraphObj} (hs : SameButDims g h) :
    (h.tensors.map fun t => (h.tensorObj t).fuid) =
      (g.tensors.map fun t => (g.tensorObj t).fuid) := by
  rw [hs.tensors]
  exact List.map_congr_left fun t _ => hs.fuid t

/-- On distinct, listed outputs with distinct fuids, the loop over the outputs
leaves each output with the shape paired to it and touches nothing else. -/
theorem shapeOutputs_sets :
    ∀ (outs : List (Option TensorId)) (ans : List Shape) (g g' : GraphObj),
      (∀ x ∈ outs, ∃ t, x = some t ∧ t ∈ g.tensors) →
      (g.tensors.map fun t => (g.tensorObj t).fuid).Nodup →
      outs.Nodup → ans.length = outs.length → shapeOutputs g outs ans = .ok g' →
      List.Forall₂ (fun o s => ∃ t, o = some t ∧ (g'.tensorObj t).dims = s) outs ans ∧
        ∀ u, some u ∉ outs → (g'.tensorObj u).dims = (g.tensorObj u).dims
  | [], [], g, g', _, _, _, _, h => by
    simp only [shapeOutputs, Except.ok.injEq] at h
    subst h
    exact ⟨List.Forall₂.nil, fun _ _ => rfl⟩
  | [], _ :: _, _, _, _, _, _, hl, _ => by simp at hl
  | _ :: _, [], _, _, _, _, _, hl, _ => by simp at hl
  | o :: outs, s :: ans, g, g', hin, hn, hd, hl, h => by
    obtain ⟨t, ho, ht⟩ := hin o (List.mem_cons_self _ _)
    subst ho
    rw [List.nodup_cons] at hd
    have hl' : ans.length = outs.length := by simpa using hl
    have hin' : ∀ x ∈ outs, ∃ t, x = some t ∧ t ∈ g.tensors :=
      fun x hx => hin x (List.mem_cons_of_mem _ hx)
    simp only [shapeOutputs, deref] at h
    by_cases hne : s ≠ (g.tensorObj t).dims
    · rw [if_pos hne, getTensor_of_valid g hn t ht] at h
      simp only at h
      have hs := setShape_sameButDims g t s
      obtain ⟨ih1, ih2⟩ := shapeOutputs_sets outs ans (g.setShape t s) g'
        (fun x hx => by rw [hs.tensors]; exact hin' x hx) (by rw [fuids_same hs]; exact hn)
        hd.2 hl' h
      refine ⟨List.Forall₂.cons ⟨t, rfl, ?_⟩ ih1, fun u hu => ?_⟩
      · rw [ih2 t hd.1, setShape_dims, if_pos rfl]
      · have hu1 : some u ∉ outs := fun hx => hu (List.mem_cons_of_mem _ hx)
        have hu2 : u ≠ t := fun e => hu (e ▸ List.mem_cons_self _ _)
        rw [ih2 u hu1, setShape_dims, if_neg hu2]
    · rw [if_neg hne] at h
      obtain ⟨ih1, ih2⟩ := shapeOutputs_sets outs ans g g' hin' hn hd.2 hl' h
      refine ⟨List.Forall₂.cons ⟨t, rfl, ?_⟩ ih1, fun u hu => ?_⟩
      · rw [ih2 t hd.1]
        exact (not_not.1 hne).symm
      · exact ih2 u fun hx => hu (List.mem_cons_of_mem _ hx)

theorem inferShapeOf_congr
    (other : OperatorObj → List (Option Shape) → Except Fault (Option (List Shape)))
    (g g' : GraphObj) (op : OpId) (hop : g'.opObj = g.opObj)
    (hd : ∀ t, some t ∈ (g.opObj op).inputs → (g'.tensorObj t).dims = (g.tensorObj t).dims) :
    inferShapeOf other g' op = inferShapeOf other g op := by
  have hi : inputShapes g' op = inputShapes g op := by
    unfold inputShapes
    rw [hop]
    refine List.map_congr_left fun x hx => ?_
    cases x with
    | none => rfl
    | some t => simp [hd t hx]
  unfold inferShapeOf
  rw [hi, hop]

theorem outputs_dims_congr (d d' : TensorId → Shape) :
    ∀ (outs : List (Option TensorId)) (ans : List Shape),
      (∀ t, some t ∈ outs → d' t = d t) →
      List.Forall₂ (fun o s => ∃ t, o = some t ∧ d t = s) outs ans →
      List.Forall₂ (fun o s => ∃ t, o = some t ∧ d' t = s) outs ans
  | _, _, _, .nil => .nil
  | _, _, hd, .cons ⟨t, ho, hs⟩ hrest =>
    .cons ⟨t, ho, by rw [hd t (ho ▸ List.mem_cons_self _ _), hs]⟩
      (outputs_dims_congr d d' _ _ (fun t ht => hd t (List.mem_cons_of_mem _ ht)) hrest)

theorem shapesAgree_congr
    (other : OperatorObj → List (Option Shape) → Except Fault (Option (List Shape)))
    (g g' : GraphObj) (op : OpId) (hop : g'.opObj = g.opObj)
    (hi : ∀ t, some t ∈ (g.opObj op).inputs → (g'.tensorObj t).dims = (g.tensorObj t).dims)
    (ho : ∀ t, some t ∈ (g.opObj op).outputs → (g'.tensorObj t).dims = (g.tensorObj t).dims)
    (h : ShapesAgree other g op) : ShapesAgree other g' op := by
  obtain ⟨ans, ha, hf⟩ := h
  refine ⟨ans, by rw [inferShapeOf_congr other g g' op hop hi, ha], ?_⟩
  rw [hop]
  exact outputs_dims_congr _ _ _ _ ho hf

theorem shapeOutputs_fixed (g : GraphObj) :
    ∀ (outs : List (Option TensorId)) (ans : List Shape),
      List.Forall₂ (fun o s => ∃ t, o = some t ∧ (g.tensorObj t).dims = s) outs ans →
      shapeOutputs g outs ans = .ok g
  | _, _, .nil => rfl
  | _, _, .cons ⟨t, ho, hs⟩ hrest => by
    subst ho
    simp only [shapeOutputs, deref]
    rw [if_neg (not_not.2 hs.symm)]
    exact shapeOutputs_fixed g _ _ hrest

theorem shapeStep_fixed
    (other : OperatorObj → List (Option Shape) → Except Fault (Option (List Shape)))
    (g : GraphObj) (op : OpId) (h : ShapesAgree other g op) : shapeStep other g op = .ok g := by
  obtain ⟨ans, ha, hf⟩ := h
  unfold shapeStep
  rw [ha]
  simp only
  rw [if_pos hf.length_eq.symm]
  exact shapeOutputs_fixed g _ _ hf

theorem shapeLoop_fixed
    (other : OperatorObj → List (Option Shape) → Except Fault (Option (List Shape)))
    (g : GraphObj) :
    ∀ l : List OpId, (∀ op ∈ l, ShapesAgree other g op) →
      forEachM (shapeStep other) l g = .ok g
  | [], _ => rfl
  | op :: rest, h => by
    simp only [forEachM]
    rw [shapeStep_fixed other g op (h op (List.mem_cons_self _ _))]
    exact shapeLoop_fixed other g rest fun q hq => h q (List.mem_cons_of_mem _ hq)

theorem shapeStep_agree
    (other : OperatorObj → List (Option Shape) → Except Fault (Option (List Shape)))
    (h h1 : GraphObj) (op : OpId)
    (hin : ∀ x ∈ (h.opObj op).outputs, ∃ t, x = some t ∧ t ∈ h.tensors)
    (hn : (h.tensors.map fun t => (h.tensorObj t).fuid).Nodup)
    (hd : (h.opObj op).outputs.Nodup)
    (hdis : ∀ t, some t ∈ (h.opObj op).inputs → some t ∉ (h.opObj op).outputs)
    (hrun : shapeStep other h op = .ok h1) :
    ShapesAgree other h1 op ∧
      ∀ u, some u ∉ (h.opObj op).outputs → (h1.tensorObj u).dims = (h.tensorObj u).dims := by
  have hs := (shapeStep_frame other h h1 op hrun).1
  unfold shapeStep at hrun
  cases hinf : inferShapeOf other h op with
  | error e => rw [hinf] at hrun; cases hrun
  | ok r =>
    rw [hinf] at hrun
    cases r with
    | none => cases hrun
    | some ans =>
      simp only at hrun
      by_cases hl : ans.length = (h.opObj op).outputs.length
      · rw [if_pos hl] at hrun
        obtain ⟨h1a, h1b⟩ := shapeOutputs_sets _ ans h h1 hin hn hd hl hrun
        refine ⟨⟨ans, ?_, ?_⟩, h1b⟩
        · rw [inferShapeOf_congr other h h1 op hs.opObj fun t ht => h1b t (hdis t ht), hinf]
        · rw [hs.opObj]
          exact h1a
      · rw [if_neg hl] at hrun
        cases hrun

theorem owned_source (g : GraphObj) (hown : OutputsOwned g) (op : OpId) (hop : op ∈ g.ops)
    (t : TensorId) (ht : some t ∈ (g.opObj op).outputs) : (g.tensorObj t).source = some op := by
  simpa using hown op hop (some t) ht

/-- Loop invariant of `shape_infer`: the operators already visited agree with
their inferred shapes, and visiting the rest makes every listed operator agree. -/
theorem shapeLoop_agree
    (other : OperatorObj → List (Option Shape) → Except Fault (Option (List Shape)))
    (g : GraphObj) (hV : Valid g) (hord : TopoOrdered g) (hown : OutputsOwned g)
    (hdis : OutputsDistinct g) :
    ∀ (rest pre : List OpId) (h g' : GraphObj), g.ops = pre ++ rest → SameButDims g h →
      (∀ p ∈ pre, ShapesAgree other h p) → forEachM (shapeStep other) rest h = .ok g' →
      ∀ p ∈ g.ops, ShapesAgree other g' p
  | [], pre, h, g', hsplit, _, hpre, hrun => by
    simp only [forEachM, Except.ok.injEq] at hrun
    subst hrun
    intro p hp
    rw [hsplit, List.append_nil] at hp
    exact hpre p hp
  | op :: rest, pre, h, g', hsplit, hs, hpre, hrun => by
    simp only [forEachM] at hrun
    have hsplit' : g.ops = (pre ++ [op]) ++ rest := by rw [hsplit]; simp
    have hop : op ∈ g.ops := by rw [hsplit]; simp
    cases hstep : shapeStep other h op with
    | error e => rw [hstep] at hrun; cases hrun
    | ok h1 =>
      rw [hstep] at hrun
      by_cases hmem : op ∈ pre
      · rw [shapeStep_fixed other h op (hpre op hmem)] at hstep
        cases hstep
        refine shapeLoop_agree other g hV hord hown hdis rest (pre ++ [op]) h g' hsplit' hs
          (fun p hp => ?_) hrun
        rcases List.mem_append.1 hp with hp | hp
        · exact hpre p hp
        · rw [List.mem_singleton.1 hp]
          exact hpre op hmem
      · have hs1 := (shapeStep_frame other h h1 op hstep).1
        have hback : ∀ p, p ∈ pre ∨ p = op → ∀ t, some t ∈ (g.opObj p).inputs →
            some t ∉ (g.opObj op).outputs := fun p hp t hti hto =>
          ordered_no_back g hord pre rest op p hsplit hmem hp
            ⟨t, hti, owned_source g hown op hop t hto⟩
        obtain ⟨ha, hb⟩ := shapeStep_agree other h h1 op
          (by rw [hs.opObj, hs.tensors]; exact hV.outputs_in op hop)
          (by rw [fuids_same hs]; exact hV.fuids)
          (by rw [hs.opObj]; exact hdis op hop)
          (by rw [hs.opObj]; exact hback op (Or.inr rfl)) hstep
        rw [hs.opObj] at hb
        refine shapeLoop_agree other g hV hord hown hdis rest (pre ++ [op]) h1 g' hsplit'
          (sameButDims_then hs hs1) (fun p hp => ?_) hrun
        rcases List.mem_append.1 hp with hp | hp
        · have hpo : p ∈ g.ops := by rw [hsplit]; exact List.mem_append_left _ hp
          refine shapesAgree_congr other h h1 p hs1.opObj ?_ ?_ (hpre p hp)
          · intro t ht
            rw [hs.opObj] at ht
            exact hb t (hback p (Or.inl hp) t ht)
          · intro t ht
            rw [hs.opObj] at ht
            refine hb t fun hto => ?_
            have e1 := owned_source g hown p hpo t ht
            rw [owned_source g hown op hop t hto] at e1
            cases e1
            exact hmem hp
        · rw [List.mem_singleton.1 hp]
          exact ha

/-- C11 (amended): on a graph on which `checkValid` passes, whose operators are
in topological order, whose every output tensor has the operator that lists it
as its source and is listed once by it, a completed `shape_infer` leaves every
operator's outputs with exactly the shapes its `inferShape` returns for the
shapes its inputs then have, and a second `shape_infer` on the result
completes and changes nothing. -/
theorem shape_infer_consistent
    (other : OperatorObj → List (Option Shape) → Except Fault (Option (List Shape)))
    (g g' : GraphObj) (hv : g.checkValid = .ok true) (hord : TopoOrdered g)
    (hown : OutputsOwned g) (hdis : OutputsDistinct g)
    (h : g.shape_infer other = .ok g') :
    (∀ op ∈ g.ops, ShapesAgree other g' op) ∧ g'.shape_infer other = .ok g' := by
  have hV := (checkValid_iff g).1 hv
  have hs := (shapeLoop_frame other g.ops g g' h).1
  have hall := shapeLoop_agree other g hV hord hown hdis g.ops [] g g' rfl
    (sameButDims_self g) (fun _ hp => by cases hp) h
  refine ⟨hall, ?_⟩
  unfold GraphObj.shape_infer
  rw [hs.ops]
  exact shapeLoop_fixed other g' g.ops hall

theorem inputsLinked_nil (op : OpId) (g : GraphObj) : InputsLinked op [] g g :=
  ⟨rfl, fun _ => rfl, fun _ => rfl, fun _ => rfl, by simp, by simp, by simp⟩

theorem inputsLinked_join {op : OpId} {l1 l2 : List (Option TensorId)} {a b c : GraphObj}
    (h1 : InputsLinked op l1 a b) (h2 : InputsLinked op l2 b c) :
    InputsLinked op (l1 ++ l2) a c where
  ops := h2.ops.trans h1.ops
  inputs i := (h2.inputs i).trans (h1.inputs i)
  outputs i := (h2.outputs i).trans (h1.outputs i)
  source t := (h2.source t).trans (h1.source t)
  targets t q := by
    rw [h2.targets, h1.targets, List.mem_append]
    tauto
  succs p q := by
    rw [h2.succs, h1.succs]
    simp only [h1.source, List.mem_append]
    constructor
    · rintro ((h | ⟨e, t, ht, hs⟩) | ⟨e, t, ht, hs⟩)
      · exact Or.inl h
      · exact Or.inr ⟨e, t, Or.inl ht, hs⟩
      · exact Or.inr ⟨e, t, Or.inr ht, hs⟩
    · rintro (h | ⟨e, t, ht | ht, hs⟩)
      · exact Or.inl (Or.inl h)
      · exact Or.inl (Or.inr ⟨e, t, ht, hs⟩)
      · exact Or.inr ⟨e, t, ht, hs⟩
  preds p q := by
    rw [h2.preds, h1.preds]
    simp only [h1.source, List.mem_append]
    constructor
    · rintro ((h | ⟨e, t, ht, hs⟩) | ⟨e, t, ht, hs⟩)
      · exact Or.inl h
      · exact Or.inr ⟨e, t, Or.inl ht, hs⟩
      · exact Or.inr ⟨e, t, Or.inr ht, hs⟩
    · rintro (h | ⟨e, t, ht | ht, hs⟩)
      · exact Or.inl (Or.inl h)
      · exact Or.inl (Or.inr ⟨e, t, ht, hs⟩)
      · exact Or.inr ⟨e, t, ht, hs⟩

theorem addSuccessors_fields (g : GraphObj) (p0 s : OpId) (i : OpId) :
    ((g.addSuccessors p0 s).opObj i).inputs = (g.opObj i).inputs ∧
      ((g.addSuccessors p0 s).opObj i).outputs = (g.opObj i).outputs ∧
      ((g.addSuccessors p0 s).opObj i).predecessors = (g.opObj i).predecessors ∧
      ∀ q, q ∈ ((g.addSuccessors p0 s).opObj i).successors ↔
        q ∈ (g.opObj i).successors ∨ (i = p0 ∧ q = s) := by
  rw [GraphObj.addSuccessors, updOp_opObj]
  by_cases e : i = p0
  · subst e
    simp
  · simp [e]

theorem addPredecessors_fields (g : GraphObj) (q0 s : OpId) (i : OpId) :
    ((g.addPredecessors q0 s).opObj i).inputs = (g.opObj i).inputs ∧
      ((g.addPredecessors q0 s).opObj i).outputs = (g.opObj i).outputs ∧
      ((g.addPredecessors q0 s).opObj i).successors = (g.opObj i).successors ∧
      ∀ p, p ∈ ((g.addPredecessors q0 s).opObj i).predecessors ↔
        p ∈ (g.opObj i).predecessors ∨ (i = q0 ∧ p = s) := by
  rw [GraphObj.addPredecessors, updOp_opObj]
  by_cases e : i = q0
  · subst e
    simp
  · simp [e]

theorem addTarget_fields (g : GraphObj) (t : TensorId) (op : OpId) (u : TensorId) :
    ((g.addTarget t op).tensorObj u).source = (g.tensorObj u).source ∧
      ∀ q, q ∈ ((g.addTarget t op).tensorObj u).targets ↔
        q ∈ (g.tensorObj u).targets ∨ (q = op ∧ u = t) := by
  rw [GraphObj.addTarget, updTensor_tensorObj]
  by_cases e : u = t
  · subst e
    simp
  · simp [e]

theorem setSource_fields (g : GraphObj) (t : TensorId) (op : OpId) (u : TensorId) :
    ((g.setSource t op).tensorObj u).targets = (g.tensorObj u).targets ∧
      ((g.setSource t op).tensorObj u).source =
        if u = t then some op else (g.tensorObj u).source := by
  rw [GraphObj.setSource, updTensor_tensorObj]
  by_cases e : u = t
  · subst e
    simp
  · simp [e]

theorem connectInput_linked (op : OpId) (g : GraphObj) (x : Option TensorId) :
    InputsLinked op [x] g (connectInput op g x) := by
  cases x with
  | none =>
    show InputsLinked op [none] g g
    exact ⟨rfl, fun _ => rfl, fun _ => rfl, fun _ => rfl, by simp, by simp, by simp⟩
  | some t =>
    have hsrc : ((g.addTarget t op).tensorObj t).source = (g.tensorObj t).source :=
      (addTarget_fields g t op t).1
    simp only [connectInput, hsrc]
    cases hs : (g.tensorObj t).source with
    | none =>
      refine ⟨rfl, fun _ => rfl, fun _ => rfl, fun u => (addTarget_fields g t op u).1, ?_, ?_, ?_⟩
      · intro u q
        rw [(addTarget_fields g t op u).2]
        simp [eq_comm]
      · intro p q
        have hno : ¬ ∃ u, some u ∈ [some t] ∧ (g.tensorObj u).source = some p := by
          rintro ⟨u, hu, hsu⟩
          simp only [List.mem_singleton, Option.some.injEq] at hu
          subst hu
          rw [hs] at hsu
          cases hsu
        show q ∈ (g.opObj p).successors ↔ _
        exact ⟨Or.inl, fun h => h.elim id fun h2 => absurd h2.2 hno⟩
      · intro p q
        have hno : ¬ ∃ u, some u ∈ [some t] ∧ (g.tensorObj u).source = some p := by
          rintro ⟨u, hu, hsu⟩
          simp only [List.mem_singleton, Option.some.injEq] at hu
          subst hu
          rw [hs] at hsu
          cases hsu
        show p ∈ (g.opObj q).predecessors ↔ _
        exact ⟨Or.inl, fun h => h.elim id fun h2 => absurd h2.2 hno⟩
    | some pred =>
      have hex : ∀ p, (∃ u, some u ∈ [some t] ∧ (g.tensorObj u).source = some p) ↔ p = pred := by
        intro p
        constructor
        · rintro ⟨u, hu, hsu⟩
          simp only [List.mem_singleton, Option.some.injEq] at hu
          subst hu
          rw [hs] at hsu
          cases hsu
          rfl
        · rintro rfl
          exact ⟨t, List.mem_singleton.2 rfl, hs⟩
      refine ⟨rfl, ?_, ?_, ?_, ?_, ?_, ?_⟩
      · intro i
        rw [(addPredecessors_fields _ op pred i).1, (addSuccessors_fields _ pred op i).1]
        rfl
      · intro i
        rw [(addPredecessors_fields _ op pred i).2.1, (addSuccessors_fields _ pred op i).2.1]
        rfl
      · intro u
        exact (addTarget_fields g t op u).1
      · intro u q
        show q ∈ ((g.addTarget t op).tensorObj u).targets ↔ _
        rw [(addTarget_fields g t op u).2]
        simp [eq_comm]
      · intro p q
        rw [(addPredecessors_fields _ op pred p).2.2.1, (addSuccessors_fields _ pred op p).2.2.2,
          hex]
        show q ∈ (g.opObj p).successors ∨ _ ↔ _
        tauto
      · intro p q
        rw [(addPredecessors_fields _ op pred q).2.2.2, (addSuccessors_fields _ pred op q).2.2.1,
          hex]
        show p ∈ (g.opObj q).predecessors ∨ _ ↔ _
        tauto

theorem connectInput_fold (op : OpId) :
    ∀ (l : List (Option TensorId)) (g : GraphObj),
      InputsLinked op l g (l.foldl (connectInput op) g)
  | [], g => inputsLinked_nil op g
  | x :: rest, g => by
    have h := inputsLinked_join (connectInput_linked op g x)
      (connectInput_fold op rest (connectInput op g x))
    simpa using h

theorem connectSucc_fold (op : OpId) :
    ∀ (L : List OpId) (g : GraphObj),
      (L.foldl (connectSucc op) g).ops = g.ops ∧
        (L.foldl (connectSucc op) g).tensorObj = g.tensorObj ∧
        (∀ i, ((L.foldl (connectSucc op) g).opObj i).inputs = (g.opObj i).inputs) ∧
        (∀ i, ((L.foldl (connectSucc op) g).opObj i).outputs = (g.opObj i).outputs) ∧
        (∀ p q, q ∈ ((L.foldl (connectSucc op) g).opObj p).successors ↔
          q ∈ (g.opObj p).successors ∨ (p = op ∧ q ∈ L)) ∧
        (∀ p q, p ∈ ((L.foldl (connectSucc op) g).opObj q).predecessors ↔
          p ∈ (g.opObj q).predecessors ∨ (p = op ∧ q ∈ L))
  | [], g => ⟨rfl, rfl, fun _ => rfl, fun _ => rfl, by simp, by simp⟩
  | s :: rest, g => by
    obtain ⟨h1, h2, h3, h4, h5, h6⟩ := connectSucc_fold op rest (connectSucc op g s)
    simp only [List.foldl_cons]
    refine ⟨h1, h2, ?_, ?_, ?_, ?_⟩
    · intro i
      rw [h3, connectSucc, (addSuccessors_fields _ op s i).1,
        (addPredecessors_fields _ s op i).1]
    · intro i
      rw [h4, connectSucc, (addSuccessors_fields _ op s i).2.1,
        (addPredecessors_fields _ s op i).2.1]
    · intro p q
      rw [h5, connectSucc, (addSuccessors_fields _ op s p).2.2.2,
        (addPredecessors_fields _ s op p).2.2.1, List.mem_cons]
      tauto
    · intro p q
      rw [h6, connectSucc, (addSuccessors_fields _ op s q).2.2.1,
        (addPredecessors_fields _ s op q).2.2.2, List.mem_cons]
      tauto

theorem outputsLinked_nil (op : OpId) (g : GraphObj) : OutputsLinked op [] g g :=
  ⟨rfl, fun _ => rfl, fun _ => rfl, fun _ => rfl, by simp, by simp, by simp⟩

theorem outputsLinked_join {op : OpId} {l1 l2 : List (Option TensorId)} {a b c : GraphObj}
    (h1 : OutputsLinked op l1 a b) (h2 : OutputsLinked op l2 b c) :
    OutputsLinked op (l1 ++ l2) a c where
  ops := h2.ops.trans h1.ops
  inputs i := (h2.inputs i).trans (h1.inputs i)
  outputs i := (h2.outputs i).trans (h1.outputs i)
  targets t := (h2.targets t).trans (h1.targets t)
  source t := by
    rw [h2.source, h1.source]
    by_cases e1 : some t ∈ l1 <;> by_cases e2 : some t ∈ l2 <;> simp [e1, e2]
  succs p q := by
    rw [h2.succs, h1.succs]
    simp only [h1.targets, List.mem_append]
    constructor
    · rintro ((h | ⟨e, t, ht, hs⟩) | ⟨e, t, ht, hs⟩)
      · exact Or.inl h
      · exact Or.inr ⟨e, t, Or.inl ht, hs⟩
      · exact Or.inr ⟨e, t, Or.inr ht, hs⟩
    · rintro (h | ⟨e, t, ht | ht, hs⟩)
      · exact Or.inl (Or.inl h)
      · exact Or.inl (Or.inr ⟨e, t, ht, hs⟩)
      · exact Or.inr ⟨e, t, ht, hs⟩
  preds p q := by
    rw [h2.preds, h1.preds]
    simp only [h1.targets, List.mem_append]
    constructor
    · rintro ((h | ⟨e, t, ht, hs⟩) | ⟨e, t, ht, hs⟩)
      · exact Or.inl h
      · exact Or.inr ⟨e, t, Or.inl ht, hs⟩
      · exact Or.inr ⟨e, t, Or.inr ht, hs⟩
    · rintro (h | ⟨e, t, ht | ht, hs⟩)
      · exact Or.inl (Or.inl h)
      · exact Or.inl (Or.inr ⟨e, t, ht, hs⟩)
      · exact Or.inr ⟨e, t, ht, hs⟩

theorem connectOutput_linked (op : OpId) (g : GraphObj) (x : Option TensorId) :
    OutputsLinked op [x] g (connectOutput op g x) := by
  cases x with
  | none =>
    show OutputsLinked op [none] g g
    exact ⟨rfl, fun _ => rfl, fun _ => rfl, fun _ => rfl, by simp, by simp, by simp⟩
  | some t =>
    have htg : ((g.setSource t op).tensorObj t).targets = (g.tensorObj t).targets :=
      (setSource_fields g t op t).1
    simp only [connectOutput, htg]
    obtain ⟨h1, h2, h3, h4, h5, h6⟩ :=
      connectSucc_fold op (g.tensorObj t).targets (g.setSource t op)
    have hex : ∀ q, (∃ u, some u ∈ [some t] ∧ q ∈ (g.tensorObj u).targets) ↔
        q ∈ (g.tensorObj t).targets := by
      intro q
      constructor
      · rintro ⟨u, hu, hq⟩
        simp only [List.mem_singleton, Option.some.injEq] at hu
        subst hu
        exact hq
      · exact fun hq => ⟨t, List.mem_singleton.2 rfl, hq⟩
    refine ⟨h1, h3, h4, ?_, ?_, ?_, ?_⟩
    · intro u
      rw [h2]
      exact (setSource_fields g t op u).1
    · intro u
      rw [h2, (setSource_fields g t op u).2]
      simp
    · intro p q
      rw [h5, hex]
      rfl
    · intro p q
      rw [h6, hex]
      rfl

theorem connectOutput_fold (op : OpId) :
    ∀ (l : List (Option TensorId)) (g : GraphObj),
      OutputsLinked op l g (l.foldl (connectOutput op) g)
  | [], g => outputsLinked_nil op g
  | x :: rest, g => by
    have h := outputsLinked_join (connectOutput_linked op g x)
      (connectOutput_fold op rest (connectOutput op g x))
    simpa using h

/-- Adding an operator keeps the edges in step with the tensors, as long as
no output of the new operator is already the output of another listed one. -/
theorem addOperatorAndConnect_reflects (g : GraphObj) (op : OpId) (hE : EdgesReflect g)
    (hout : ∀ x ∈ (g.opObj op).outputs, x ≠ none →
      ∀ p ∈ g.ops, p ≠ op → x ∉ (g.opObj p).outputs) :
    EdgesReflect (g.addOperatorAndConnect op) := by
  have hI := connectInput_fold op (g.opObj op).inputs
    { g with sorted := false, ops := g.ops ++ [op] }
  have hO := connectOutput_fold op (g.opObj op).outputs
    ((g.opObj op).inputs.foldl (connectInput op)
      { g with sorted := false, ops := g.ops ++ [op] })
  have hrun : g.addOperatorAndConnect op =
      (g.opObj op).outputs.foldl (connectOutput op)
        ((g.opObj op).inputs.foldl (connectInput op)
          { g with sorted := false, ops := g.ops ++ [op] }) := by
    unfold GraphObj.addOperatorAndConnect
    simp only
    rw [hI.outputs op]
  rw [← hrun] at hO
  have hops : (g.addOperatorAndConnect op).ops = g.ops ++ [op] := hO.ops.trans hI.ops
  have hin : ∀ i, ((g.addOperatorAndConnect op).opObj i).inputs = (g.opObj i).inputs :=
    fun i => (hO.inputs i).trans (hI.inputs i)
  have hou : ∀ i, ((g.addOperatorAndConnect op).opObj i).outputs = (g.opObj i).outputs :=
    fun i => (hO.outputs i).trans (hI.outputs i)
  have hmem : ∀ q, q ∈ g.ops ++ [op] ↔ q ∈ g.ops ∨ q = op := fun q => by simp
  refine ⟨?_, ?_, ?_, ?_⟩
  · intro t q
    rw [hops, hin, hmem]
    show q ∈ ((g.addOperatorAndConnect op).tensorObj t).targets ↔ _
    have h1 : q ∈ ((g.addOperatorAndConnect op).tensorObj t).targets ↔
        q ∈ (g.tensorObj t).targets ∨ (q = op ∧ some t ∈ (g.opObj op).inputs) := by
      rw [← hI.targets t q, ← hO.targets t]
    rw [h1, hE.targets]
    constructor
    · rintro (⟨h, h2⟩ | ⟨e, h2⟩)
      · exact ⟨Or.inl h, h2⟩
      · exact ⟨Or.inr e, e ▸ h2⟩
    · rintro ⟨h | e, h2⟩
      · exact Or.inl ⟨h, h2⟩
      · exact Or.inr ⟨e, e ▸ h2⟩
  · intro t p
    rw [hops, hou, hmem]
    have h1 : ((g.addOperatorAndConnect op).tensorObj t).source =
        if some t ∈ (g.opObj op).outputs then some op else (g.tensorObj t).source := by
      rw [← hI.source t, ← hO.source t]
    rw [h1]
    by_cases ht : some t ∈ (g.opObj op).outputs
    · rw [if_pos ht]
      constructor
      · intro e
        cases e
        exact ⟨Or.inr rfl, ht⟩
      · rintro ⟨h | e, h2⟩
        · by_cases e : p = op
          · rw [e]
          · exact absurd h2 (hout (some t) ht (fun h => by cases h) p h e)
        · rw [e]
    · rw [if_neg ht, hE.source]
      constructor
      · rintro ⟨h, h2⟩
        exact ⟨Or.inl h, h2⟩
      · rintro ⟨h | e, h2⟩
        · exact ⟨h, h2⟩
        · exact absurd (e ▸ h2) ht
  · intro p q
    rw [hops, hou, hin, hmem, hmem]
    have h1 : q ∈ ((g.addOperatorAndConnect op).opObj p).successors ↔
        (q ∈ (g.opObj p).successors ∨
          (q = op ∧ ∃ t, some t ∈ (g.opObj op).inputs ∧ (g.tensorObj t).source = some p)) ∨
        (p = op ∧ ∃ t, some t ∈ (g.opObj op).outputs ∧
          (q ∈ (g.tensorObj t).targets ∨ (q = op ∧ some t ∈ (g.opObj op).inputs))) := by
      rw [← hI.succs p q]
      simp only [← hI.targets]
      rw [← hO.succs p q]
    rw [h1, hE.succs]
    simp only [hE.source, hE.targets]
    constructor
    · rintro ((⟨hp, hq, t, h2, h3⟩ | ⟨e, t, h2, hp, h3⟩) | ⟨e, t, h2, ⟨hq, h3⟩ | ⟨e2, h3⟩⟩)
      · exact ⟨Or.inl hp, Or.inl hq, t, h2, h3⟩
      · exact ⟨Or.inl hp, Or.inr e, t, h3, e ▸ h2⟩
      · exact ⟨Or.inr e, Or.inl hq, t, e ▸ h2, h3⟩
      · exact ⟨Or.inr e, Or.inr e2, t, e ▸ h2, e2 ▸ h3⟩
    · rintro ⟨hp | e, hq | e2, t, h2, h3⟩
      · exact Or.inl (Or.inl ⟨hp, hq, t, h2, h3⟩)
      · exact Or.inl (Or.inr ⟨e2, t, e2 ▸ h3, hp, h2⟩)
      · exact Or.inr ⟨e, t, e ▸ h2, Or.inl ⟨hq, h3⟩⟩
      · exact Or.inr ⟨e, t, e ▸ h2, Or.inr ⟨e2, e2 ▸ h3⟩⟩
  · intro p q
    rw [hops, hou, hin, hmem, hmem]
    have h1 : p ∈ ((g.addOperatorAndConnect op).opObj q).predecessors ↔
        (p ∈ (g.opObj q).predecessors ∨
          (q = op ∧ ∃ t, some t ∈ (g.opObj op).inputs ∧ (g.tensorObj t).source = some p)) ∨
        (p = op ∧ ∃ t, some t ∈ (g.opObj op).outputs ∧
          (q ∈ (g.tensorObj t).targets ∨ (q = op ∧ some t ∈ (g.opObj op).inputs))) := by
      rw [← hI.preds p q]
      simp only [← hI.targets]
      rw [← hO.preds p q]
    rw [h1, hE.preds]
    simp only [hE.source, hE.targets]
    constructor
    · rintro ((⟨hp, hq, t, h2, h3⟩ | ⟨e, t, h2, hp, h3⟩) | ⟨e, t, h2, ⟨hq, h3⟩ | ⟨e2, h3⟩⟩)
      · exact ⟨Or.inl hp, Or.inl hq, t, h2, h3⟩
      · exact ⟨Or.inl hp, Or.inr e, t, h3, e ▸ h2⟩
      · exact ⟨Or.inr e, Or.inl hq, t, e ▸ h2, h3⟩
      · exact ⟨Or.inr e, Or.inr e2, t, e ▸ h2, e2 ▸ h3⟩
    · rintro ⟨hp | e, hq | e2, t, h2, h3⟩
      · exact Or.inl (Or.inl ⟨hp, hq, t, h2, h3⟩)
      · exact Or.inl (Or.inr ⟨e2, t, e2 ▸ h3, hp, h2⟩)
      · exact Or.inr ⟨e, t, e ▸ h2, Or.inl ⟨hq, h3⟩⟩
      · exact Or.inr ⟨e, t, e ▸ h2, Or.inr ⟨e2, e2 ▸ h3⟩⟩

theorem addTensor_reflects (g : GraphObj) (t : TensorId) (fuid : Nat) (dim : Shape)
    (hE : EdgesReflect g)
    (h : ∀ q ∈ g.ops, some t ∉ (g.opObj q).inputs ∧ some t ∉ (g.opObj q).outputs) :
    EdgesReflect (g.addTensor t fuid dim) := by
  have hobj : ∀ u, (g.addTensor t fuid dim).tensorObj u =
      if u = t then { fuid := fuid, dims := dim, source := none, targets := [] }
      else g.tensorObj u := fun u => rfl
  refine ⟨?_, ?_, hE.succs, hE.preds⟩
  · intro u q
    rw [hobj]
    by_cases e : u = t
    · subst e
      rw [if_pos rfl]
      show q ∈ [] ↔ q ∈ g.ops ∧ some u ∈ (g.opObj q).inputs
      simp only [List.not_mem_nil, false_iff]
      exact fun hq => (h q hq.1).1 hq.2
    · rw [if_neg e]
      exact hE.targets u q
  · intro u p
    rw [hobj]
    by_cases e : u = t
    · subst e
      rw [if_pos rfl]
      show none = some p ↔ p ∈ g.ops ∧ some u ∈ (g.opObj p).outputs
      constructor
      · intro h0
        cases h0
      · exact fun hp => absurd hp.2 (h p hp.1).2
    · rw [if_neg e]
      exact hE.source u p

theorem built_reflects (g : GraphObj) (h : Built g) : EdgesReflect g := by
  induction h with
  | init ops h0 =>
    refine ⟨?_, ?_, ?_, ?_⟩
    · intro t q
      show q ∈ [] ↔ q ∈ [] ∧ _
      simp
    · intro t p
      show none = some p ↔ p ∈ [] ∧ _
      simp
    · intro p q
      show q ∈ (ops p).successors ↔ p ∈ [] ∧ _
      rw [(h0 p).2]
      simp
    · intro p q
      show p ∈ (ops q).predecessors ↔ p ∈ [] ∧ _
      rw [(h0 q).1]
      simp
  | addTensor g t fuid dim _ hfresh ih => exact addTensor_reflects g t fuid dim ih hfresh
  | addOperator g op _ hout ih => exact addOperatorAndConnect_reflects g op ih hout

/-- C13: in every graph built from the empty graph by `addTensor` and
`addOperatorAndConnect`, in whatever order the operators are added, where no
tensor is the output of two added operators, for all operators `p`, `q` of the
graph `q` is a successor of `p` iff `p` is a predecessor of `q` iff some output
of `p` is an input of `q`; the source of a tensor is the operator of the graph
that lists it as an output, and its targets are exactly the operators of the
graph that list it as an input. -/
theorem built_edges_reflect (g : GraphObj) (h : Built g) :
    (∀ p ∈ g.ops, ∀ q ∈ g.ops,
      (q ∈ (g.opObj p).successors ↔ p ∈ (g.opObj q).predecessors) ∧
      (p ∈ (g.opObj q).predecessors ↔
        ∃ t, some t ∈ (g.opObj p).outputs ∧ some t ∈ (g.opObj q).inputs)) ∧
      (∀ t p, (g.tensorObj t).source = some p ↔ p ∈ g.ops ∧ some t ∈ (g.opObj p).outputs) ∧
      (∀ t q, q ∈ (g.tensorObj t).targets ↔ q ∈ g.ops ∧ some t ∈ (g.opObj q).inputs) := by
  have hE := built_reflects g h
  refine ⟨fun p hp q hq => ⟨?_, ?_⟩, hE.source, hE.targets⟩
  · rw [hE.succs, hE.preds]
  · rw [hE.preds]
    exact ⟨fun h3 => h3.2.2, fun h3 => ⟨hp, hq, h3⟩⟩

theorem allocAll_congr (getBytes : TensorObj → Nat) (g h : GraphObj)
    (ht : h.tensorObj = g.tensorObj) :
    ∀ (l : List TensorId) (a : Allocator), allocAll getBytes h l a = allocAll getBytes g l a
  | [], _ => rfl
  | t :: rest, a => by
    simp only [allocAll, ht, allocAll_congr getBytes g h ht rest]

theorem allocAll_length (getBytes : TensorObj → Nat) (g : GraphObj) :
    ∀ (l : List TensorId) (a : Allocator), (allocAll getBytes g l a).1.length = l.length
  | [], _ => rfl
  | t :: rest, a => by
    simp only [allocAll, List.length_cons, allocAll_length getBytes g rest]

theorem allocAll_base (getBytes : TensorObj → Nat) (g : GraphObj) :
    ∀ (l : List TensorId) (a : Allocator), (allocAll getBytes g l a).2.getPtr = a.getPtr
  | [], _ => rfl
  | t :: rest, a => by
    simp only [allocAll]
    rw [allocAll_base getBytes g rest]
    rfl

theorem allocAll_lower (getBytes : TensorObj → Nat) (g : GraphObj) :
    ∀ (l : List TensorId) (a : Allocator), ∀ o ∈ (allocAll getBytes g l a).1, a.used ≤ o
  | [], _, o, ho => by simp [allocAll] at ho
  | t :: rest, a, o, ho => by
    simp only [allocAll, List.mem_cons] at ho
    rcases ho with ho | ho
    · rw [ho]
      exact le_refl _
    · have h1 := allocAll_lower getBytes g rest _ o ho
      simp only [Allocator.alloc] at h1
      omega

/-- The offsets handed out along the tensor list: each block ends at or before
the start of every later one. -/
theorem allocAll_disjoint (getBytes : TensorObj → Nat) (g : GraphObj) :
    ∀ (l : List TensorId) (a : Allocator) (i j : Nat) (ti : TensorId) (oi oj : Nat),
      i < j → l[i]? = some ti → (allocAll getBytes g l a).1[i]? = some oi →
      (allocAll getBytes g l a).1[j]? = some oj → oi + getBytes (g.tensorObj ti) ≤ oj
  | [], _, i, _, _, _, _, _, hti, _, _ => by simp at hti
  | t :: rest, a, 0, j + 1, ti, oi, oj, _, hti, hoi, hoj => by
    simp only [allocAll, List.getElem?_cons_zero, Option.some.injEq,
      List.getElem?_cons_succ] at hti hoi hoj
    subst hti
    have h1 := allocAll_lower getBytes g rest _ oj (List.getElem?_mem hoj)
    simp only [Allocator.alloc, Allocator.alignedSize] at h1 hoi
    omega
  | t :: rest, a, i + 1, j + 1, ti, oi, oj, hij, hti, hoi, hoj => by
    simp only [allocAll, List.getElem?_cons_succ] at hti hoi hoj
    exact allocAll_disjoint getBytes g rest _ i j ti oi oj (by omega) hti hoi hoj

theorem setDataBlob_tensorObj (g : GraphObj) (t u : TensorId) (p : Nat) :
    (g.setDataBlob t p).tensorObj u =
      if u = t then { g.tensorObj t with data := some p } else g.tensorObj u := rfl

theorem bindAll_lists (base : Nat) :
    ∀ (l : List TensorId) (offs : List Nat) (g : GraphObj),
      (bindAll base g l offs).ops = g.ops ∧ (bindAll base g l offs).tensors = g.tensors ∧
        (bindAll base g l offs).sorted = g.sorted ∧ (bindAll base g l offs).opObj = g.opObj
  | [], _, _ => ⟨rfl, rfl, rfl, rfl⟩
  | _ :: _, [], _ => ⟨rfl, rfl, rfl, rfl⟩
  | t :: rest, o :: offs, g => by
    simp only [bindAll]
    exact bindAll_lists base rest offs _

theorem bindAll_untouched (base : Nat) (u : TensorId) :
    ∀ (l : List TensorId) (offs : List Nat) (g : GraphObj), u ∉ l →
      (bindAll base g l offs).tensorObj u = g.tensorObj u
  | [], _, _, _ => rfl
  | _ :: _, [], _, _ => rfl
  | t :: rest, o :: offs, g, hu => by
    simp only [bindAll]
    rw [bindAll_untouched base u rest offs _ fun hm => hu (List.mem_cons_of_mem _ hm),
      setDataBlob_tensorObj,
      if_neg fun e : u = t => hu (e ▸ List.mem_cons_self _ _)]

/-- The binding loop gives the tensor at position `i` of a duplicate-free list
the address `base + offsets[i]` and changes nothing else of it. -/
theorem bindAll_binds (base : Nat) :
    ∀ (l : List TensorId) (offs : List Nat) (g : GraphObj), l.Nodup →
      ∀ (i : Nat) (t : TensorId) (o : Nat), l[i]? = some t → offs[i]? = some o →
        (bindAll base g l offs).tensorObj t = { g.tensorObj t with data := some (base + o) }
  | [], _, _, _, i, t, o, ht, _ => by simp at ht
  | _ :: _, [], _, _, i, t, o, _, ho => by simp at ho
  | t0 :: rest, o0 :: offs, g, hnd, 0, t, o, ht, ho => by
    simp only [List.getElem?_cons_zero, Option.some.injEq] at ht ho
    subst ht
    subst ho
    simp only [bindAll]
    rw [bindAll_untouched base t0 rest offs _ (List.nodup_cons.1 hnd).1, setDataBlob_tensorObj,
      if_pos rfl]
  | t0 :: rest, o0 :: offs, g, hnd, i + 1, t, o, ht, ho => by
    simp only [List.getElem?_cons_succ] at ht ho
    simp only [bindAll]
    have hne : t ≠ t0 := fun e => (List.nodup_cons.1 hnd).1 (e ▸ List.getElem?_mem ht)
    rw [bindAll_binds base rest offs _ (List.nodup_cons.1 hnd).2 i t o ht ho,
      setDataBlob_tensorObj, if_neg hne]

theorem topo_sort_keeps (g g1 : GraphObj) (b : Bool) (h : g.topo_sort = .ok (b, g1)) :
    g1.tensors = g.tensors ∧ g1.tensorObj = g.tensorObj ∧ g1.opObj = g.opObj := by
  unfold GraphObj.topo_sort at h
  split at h
  · cases h
    exact ⟨rfl, rfl, rfl⟩
  · split at h
    · cases h
    · cases h
      exact ⟨rfl, rfl, rfl⟩
    · cases h
      exact ⟨rfl, rfl, rfl⟩

theorem valid_sortable (g : GraphObj) (hV : Valid g) (hd : g.ops.Nodup) (hac : Acyclic g) :
    ∃ g1, g.topo_sort = .ok (true, g1) := by
  cases hflag : g.sorted with
  | true => exact ⟨g, by simp [GraphObj.topo_sort, hflag]⟩
  | false =>
    have hnn : InputsNonNull g := fun q hq hnone => by
      obtain ⟨t, ht, _⟩ := hV.inputs_in q hq none hnone
      cases ht
    have hsrc : SourcesInOps g := fun q hq p ⟨t, ht, hs⟩ => by
      obtain ⟨t', ht', hmem⟩ := hV.inputs_in q hq (some t) ht
      cases ht'
      exact hV.source_in t hmem p hs
    obtain ⟨g1, h1, _⟩ := topo_sort_unsorted_acyclic g hflag hd hnn hsrc hac
    exact ⟨g1, h1⟩

/-- C14 (amended): on an acyclic graph with distinct operators on which
`checkValid` passes, `dataMalloc` with the bump allocator completes; the tensor
at position `i` of the tensor list is bound to `base + offset_i`, where
`offset_i` is what the `i`-th `alloc` call returned, nothing else of it
changes, and the block of an earlier tensor ends at or before the start of the
block of every later one. -/
theorem dataMalloc_disjoint (getBytes : TensorObj → Nat) (g : GraphObj) (a : Allocator)
    (hv : g.checkValid = .ok true) (hd : g.ops.Nodup) (hac : Acyclic g) :
    ∃ g' a', g.dataMalloc getBytes a = .ok (g', a') ∧ g'.tensors = g.tensors ∧
      (allocAll getBytes g g.tensors a).1.length = g.tensors.length ∧
      (∀ (i : Nat) (t : TensorId) (o : Nat), g.tensors[i]? = some t → (allocAll getBytes g g.tensors a).1[i]? = some o →
        g'.tensorObj t = { g.tensorObj t with data := some (a.getPtr + o) }) ∧
      (∀ (i j : Nat) (ti : TensorId) (oi oj : Nat), i < j → g.tensors[i]? = some ti →
        (allocAll getBytes g g.tensors a).1[i]? = some oi →
        (allocAll getBytes g g.tensors a).1[j]? = some oj →
        a.getPtr + oi + getBytes (g.tensorObj ti) ≤ a.getPtr + oj) := by
  have hV := (checkValid_iff g).1 hv
  obtain ⟨g1, h1⟩ := valid_sortable g hV hd hac
  obtain ⟨k1, k2, _⟩ := topo_sort_keeps g g1 true h1
  have hal := allocAll_congr getBytes g g1 k2 g.tensors a
  have hrun : g.dataMalloc getBytes a =
      .ok (bindAll (allocAll getBytes g g.tensors a).2.getPtr g1 g.tensors
        (allocAll getBytes g g.tensors a).1, (allocAll getBytes g g.tensors a).2) := by
    simp only [GraphObj.dataMalloc, h1, k1, hal]
  refine ⟨_, _, hrun, ?_, allocAll_length getBytes g _ a, ?_, ?_⟩
  · rw [(bindAll_lists _ _ _ _).2.1, k1]
  · intro i t o ht ho
    rw [allocAll_base, bindAll_binds _ g.tensors _ g1 (valid_tensors_nodup g hV) i t o ht ho, k2]
  · intro i j ti oi oj hij hti hoi hoj
    have := allocAll_disjoint getBytes g g.tensors a i j ti oi oj hij hti hoi hoj
    omega

theorem perm_entry {n : Nat} {p : List Int} (hp : IsPermutation n p) (i : Nat) (hi : i < n) :
    ∃ j : Nat, j < n ∧ p[i]? = some (j : Int) := by
  obtain ⟨hlen, _, hrange⟩ := hp
  have hi' : i < p.length := by omega
  obtain ⟨h0, h1⟩ := hrange p[i] (List.getElem_mem _)
  refine ⟨p[i].toNat, by omega, ?_⟩
  rw [List.getElem?_eq_getElem hi', Int.toNat_of_nonneg h0]

/-- Under the permutation precondition the loop of `isInverse` reads in range
and returns whether the remaining axes compose to the identity. -/
theorem isInverseFrom_decides (pA pB : List Int) (n : Nat) (hA : IsPermutation n pA)
    (hB : IsPermutation n pB) :
    ∀ (k i : Nat), i + k = n → ∃ r, isInverseFrom pA pB k i = .ok r ∧
      (r = true ↔ ∀ m, i ≤ m → m < n →
        ∃ j : Nat, pB[m]? = some (j : Int) ∧ pA[j]? = some (m : Int))
  | 0, i, h => ⟨true, rfl, by
      constructor
      · intro _ m h1 h2; omega
      · intro _; rfl⟩
  | k + 1, i, h => by
    obtain ⟨j, hj, hbj⟩ := perm_entry hB i (by omega)
    obtain ⟨v, _, hav⟩ := perm_entry hA j hj
    obtain ⟨r, hr, hiff⟩ := isInverseFrom_decides pA pB n hA hB k (i + 1) (by omega)
    by_cases hv : (v : Int) = (i : Int)
    · refine ⟨r, ?_, ?_⟩
      · simp [isInverseFrom, elemAt, hbj, hav, hv, hr]
      · rw [hiff]
        constructor
        · intro h1 m hm1 hm2
          by_cases e : m = i
          · subst e
            exact ⟨j, hbj, by rw [hav, hv]⟩
          · exact h1 m (by omega) hm2
        · intro h1 m hm1 hm2
          exact h1 m (by omega) hm2
    · refine ⟨false, ?_, ?_⟩
      · simp [isInverseFrom, elemAt, hbj, hav, hv]
      · constructor
        · intro hc; cases hc
        · intro h1
          obtain ⟨j', hj1, hj2⟩ := h1 i (le_refl _) (by omega)
          rw [hbj] at hj1
          have e : j = j' := by
            have := Option.some.inj hj1
            exact_mod_cast this
          subst e
          rw [hav] at hj2
          exact absurd (Option.some.inj hj2) hv

theorem composesToId_symm (pA pB : List Int) (n : Nat) (hA : IsPermutation n pA)
    (hB : IsPermutation n pB) (h : ComposesToId pA pB n) : ComposesToId pB pA n := by
  intro j hj
  obtain ⟨k, hk, hak⟩ := perm_entry hA j hj
  obtain ⟨m, hm, hbm⟩ := perm_entry hB k hk
  obtain ⟨m', hm1, hm2⟩ := h k hk
  rw [hbm] at hm1
  have e : m = m' := by
    have := Option.some.inj hm1
    exact_mod_cast this
  subst e
  -- `pA[m] = k = pA[j]`, and `pA` has no repetition
  have hlen := hA.1
  have hmA : m < pA.length := by omega
  have hjA : j < pA.length := by omega
  have e1 : pA[m] = (k : Int) := by
    rw [List.getElem?_eq_getElem hmA] at hm2
    exact Option.some.inj hm2
  have e2 : pA[j] = (k : Int) := by
    rw [List.getElem?_eq_getElem hjA] at hak
    exact Option.some.inj hak
  have hmj : m = j := (List.Nodup.getElem_inj_iff hA.2.1).1 (e1.trans e2.symm)
  subst hmj
  exact ⟨k, hak, hbm⟩

/-- C17: for two Transposes whose permutations are bijections on the same `n`
axes, `isInverse(a, b)` reads only in range and returns a boolean, which is
true exactly when `permA[permB[i]] = i` for every `i < n`, and
`isInverse(b, a)` returns the same boolean. -/
theorem isInverse_decides (a b : OperatorObj) (n : Nat)
    (ha : IsPermutation n a.permute) (hb : IsPermutation n b.permute) :
    ∃ r, isInverse a b = .ok r ∧ (r = true ↔ ComposesToId a.permute b.permute n) ∧
      isInverse b a = .ok r := by
  obtain ⟨r, hr, hiff⟩ := isInverseFrom_decides a.permute b.permute n ha hb n 0 (by simp)
  obtain ⟨r', hr', hiff'⟩ := isInverseFrom_decides b.permute a.permute n hb ha n 0 (by simp)
  have h1 : r = true ↔ ComposesToId a.permute b.permute n := by
    rw [hiff]
    exact ⟨fun h i hi => h i (Nat.zero_le _) hi, fun h m _ hm => h m hm⟩
  have h2 : r' = true ↔ ComposesToId b.permute a.permute n := by
    rw [hiff']
    exact ⟨fun h i hi => h i (Nat.zero_le _) hi, fun h m _ hm => h m hm⟩
  have hrr : r' = r := by
    have hsym : r' = true ↔ r = true := by
      rw [h1, h2]
      exact ⟨composesToId_symm _ _ n hb ha, composesToId_symm _ _ n ha hb⟩
    cases r <;> cases r' <;> simp_all
  refine ⟨r, ?_, h1, ?_⟩
  · unfold isInverse
    rw [ha.1]
    exact hr
  · unfold isInverse
    rw [hb.1, ← hrr]
    exact hr'

theorem sourcesFlagged_error (g : GraphObj) (flags : List OpId) :
    ∀ (inputs : List (Option TensorId)) (e : Fault),
      sourcesFlagged g flags inputs = .error e → e = Fault.nullDeref
  | [], e, h => by simp [sourcesFlagged] at h
  | none :: _, e, h => by
    simp only [sourcesFlagged, Except.error.injEq] at h
    exact h.symm
  | some t :: rest, e, h => by
    simp only [sourcesFlagged] at h
    split at h
    · exact sourcesFlagged_error g flags rest e h
    · split at h
      · exact sourcesFlagged_error g flags rest e h
      · cases h

theorem sourcesFlagged_true_of_all (g : GraphObj) (flags : List OpId) :
    ∀ (inputs : List (Option TensorId)) (b : Bool), sourcesFlagged g flags inputs = .ok b →
      (∀ t p, some t ∈ inputs → (g.tensorObj t).source = some p → p ∈ flags) → b = true
  | [], b, h, _ => by
    simp only [sourcesFlagged, Except.ok.injEq] at h
    exact h.symm
  | none :: _, b, h, _ => by simp [sourcesFlagged] at h
  | some t :: rest, b, h, hall => by
    have hrest : ∀ t' p, some t' ∈ rest → (g.tensorObj t').source = some p → p ∈ flags :=
      fun t' p hm hp => hall t' p (List.mem_cons_of_mem _ hm) hp
    simp only [sourcesFlagged] at h
    split at h
    · exact sourcesFlagged_true_of_all g flags rest b h hrest
    · next p hp =>
      have hpf : p ∈ flags := hall t p (List.mem_cons_self _ _) hp
      rw [if_pos hpf] at h
      exact sourcesFlagged_true_of_all g flags rest b h hrest

theorem sortPass_error (g : GraphObj) :
    ∀ (l : List OpId) (s : SortState) (e : Fault), sortPass g l s = .error e →
      e = Fault.nullDeref
  | [], s, e, h => by simp [sortPass] at h
  | op :: rest, s, e, h => by
    simp only [sortPass] at h
    split at h
    · exact sortPass_error g rest s e h
    · split at h
      · next e' he' =>
        simp only [Except.error.injEq] at h
        rw [← h]
        exact sourcesFlagged_error g s.flags _ e' he'
      · exact sortPass_error g rest s e h
      · exact sortPass_error g rest _ e h

/-- One run of the inner loop keeps the facts about the locals, never shortens
`sorted`, and lengthens it whenever it sets `modified`. -/
theorem sortPass_sortInv (g : GraphObj) :
    ∀ (l : List OpId) (s s' : SortState), sortPass g l s = .ok s' → (∀ q ∈ l, q ∈ g.ops) →
      SortInv g s.sorted s.flags →
      SortInv g s'.sorted s'.flags ∧ s.sorted.length ≤ s'.sorted.length ∧
        (s'.modified = true → s.modified = true ∨ s.sorted.length < s'.sorted.length)
  | [], s, s', h, _, hinv => by
    simp only [sortPass, Except.ok.injEq] at h
    subst h
    exact ⟨hinv, le_refl _, fun hm => Or.inl hm⟩
  | op :: rest, s, s', h, hl, hinv => by
    have hrest : ∀ q ∈ rest, q ∈ g.ops := fun q hq => hl q (List.mem_cons_of_mem _ hq)
    simp only [sortPass] at h
    split at h
    · exact sortPass_sortInv g rest s s' h hrest hinv
    · next hf =>
      split at h
      · cases h
      · exact sortPass_sortInv g rest s s' h hrest hinv
      · obtain ⟨h1, h2, _⟩ := sortPass_sortInv g rest _ s' h hrest
          (hinv.step (hl op (List.mem_cons_self _ _)) hf)
        simp only [List.length_append, List.length_singleton] at h2
        exact ⟨h1, by omega, fun _ => Or.inr (by omega)⟩

/-- With `ops.length + 1` passes allowed the loop never stops for lack of
passes, and allowing more passes does not change what it returns. -/
theorem sortLoop_total (g : GraphObj) :
    ∀ (fuel : Nat) (sorted flags : List OpId), SortInv g sorted flags →
      g.ops.length + 1 ≤ fuel + sorted.length →
      sortLoop g fuel sorted flags ≠ .error .outOfFuel ∧
        ∀ k, sortLoop g (fuel + k) sorted flags = sortLoop g fuel sorted flags
  | 0, sorted, flags, hinv, hfuel => by
    have := hinv.length_le
    omega
  | fuel + 1, sorted, flags, hinv, hfuel => by
    have hk : ∀ k, fuel + 1 + k = (fuel + k) + 1 := fun k => by omega
    by_cases hlt : sorted.length < g.ops.length
    · cases hp : sortPass g g.ops { modified := false, sorted := sorted, flags := flags } with
      | error e =>
        have he := sortPass_error g _ _ e hp
        subst he
        refine ⟨by simp [sortLoop, hlt, hp], fun k => ?_⟩
        rw [hk k]
        simp [sortLoop, hlt, hp]
      | ok s' =>
        obtain ⟨hI, hle, hmod⟩ := sortPass_sortInv g g.ops _ s' hp (fun _ hq => hq) hinv
        by_cases hm : s'.modified = true
        · have hlen : sorted.length < s'.sorted.length := by
            rcases hmod hm with h | h
            · cases h
            · exact h
          obtain ⟨ih1, ih2⟩ := sortLoop_total g fuel s'.sorted s'.flags hI (by omega)
          refine ⟨by simpa [sortLoop, hlt, hp, hm] using ih1, fun k => ?_⟩
          rw [hk k]
          simpa [sortLoop, hlt, hp, hm] using ih2 k
        · refine ⟨by simp [sortLoop, hlt, hp, hm], fun k => ?_⟩
          rw [hk k]
          simp [sortLoop, hlt, hp, hm]
    · refine ⟨by simp [sortLoop, hlt], fun k => ?_⟩
      rw [hk k]
      simp [sortLoop, hlt]

/-- C18: `topo_sort` never stops for lack of passes: `ops.length + 1` passes
are enough for every graph, cyclic or not, and more passes give the same
result; a pass that sets `modified` has placed at least one operator that was
not placed before, a pass that does not makes the loop return false, and the
placed operators never outnumber the operator list. -/
theorem topo_sort_terminates (g : GraphObj) :
    g.topo_sort ≠ .error .outOfFuel ∧
      (∀ k, sortLoop g (g.ops.length + 1 + k) [] [] = sortLoop g (g.ops.length + 1) [] []) ∧
      (∀ sorted flags s', SortInv g sorted flags →
        sortPass g g.ops { modified := false, sorted := sorted, flags := flags } = .ok s' →
        SortInv g s'.sorted s'.flags ∧ s'.sorted.length ≤ g.ops.length ∧
          (s'.modified = true → sorted.length < s'.sorted.length) ∧
          (s'.modified = false → ∀ fuel, sorted.length < g.ops.length →
            sortLoop g (fuel + 1) sorted flags = .ok none)) := by
  obtain ⟨h1, h2⟩ := sortLoop_total g (g.ops.length + 1) [] [] (sortInv_nil g) (by simp)
  refine ⟨?_, h2, ?_⟩
  · unfold GraphObj.topo_sort
    split
    · simp
    · split
      · next e he =>
        intro hc
        simp only [Except.error.injEq] at hc
        exact h1 (hc ▸ he)
      · simp
      · simp
  · intro sorted flags s' hinv hp
    obtain ⟨hI, _, hmod⟩ := sortPass_sortInv g g.ops _ s' hp (fun _ hq => hq) hinv
    refine ⟨hI, hI.length_le, fun hm => ?_, fun hm fuel hlt => ?_⟩
    · rcases hmod hm with h | h
      · cases h
      · exact h
    · simp [sortLoop, hlt, hp, hm]

/-- The loop, when it leaves normally, leaves a duplicate-free list of listed
operators that is at least as long as the operator list. -/
theorem sortLoop_some (g : GraphObj) :
    ∀ (fuel : Nat) (sorted flags l : List OpId), SortInv g sorted flags →
      sortLoop g fuel sorted flags = .ok (some l) →
      l.Nodup ∧ (∀ x ∈ l, x ∈ g.ops) ∧ g.ops.length ≤ l.length
  | 0, sorted, flags, l, hinv, h => by
    simp only [sortLoop] at h
    split at h
    · cases h
    · next hlt =>
      simp only [Except.ok.injEq, Option.some.injEq] at h
      subst h
      exact ⟨hinv.nodup, hinv.sub, by omega⟩
  | fuel + 1, sorted, flags, l, hinv, h => by
    simp only [sortLoop] at h
    split at h
    · split at h
      · cases h
      · next s' hp =>
        split at h
        · exact sortLoop_some g fuel s'.sorted s'.flags l
            (sortPass_sortInv g g.ops _ s' hp (fun _ hq => hq) hinv).1 h
        · cases h
    · next hlt =>
      simp only [Except.ok.injEq, Option.some.injEq] at h
      subst h
      exact ⟨hinv.nodup, hinv.sub, by omega⟩

theorem sortLoop_exit (g : GraphObj) (fuel : Nat) (sorted flags : List OpId)
    (h : ¬ sorted.length < g.ops.length) : sortLoop g fuel sorted flags = .ok (some sorted) := by
  cases fuel <;> simp [sortLoop, h]

/-- On a list in topological order a pass that completes places every
operator it meets, in the order of the list. -/
theorem sortPass_ordered (g : GraphObj) :
    ∀ (l pre : List OpId) (s s' : SortState), s.sorted = pre → (∀ x, x ∈ s.flags ↔ x ∈ pre) →
      (pre ++ l).Nodup → OrderedList g (pre ++ l) → sortPass g l s = .ok s' →
      s'.sorted = pre ++ l ∧ (l ≠ [] → s'.modified = true)
  | [], pre, s, s', hs, _, _, _, h => by
    simp only [sortPass, Except.ok.injEq] at h
    subst h
    exact ⟨by simpa using hs, fun hne => absurd rfl hne⟩
  | op :: rest, pre, s, s', hs, hfl, hnd, hord, h => by
    have hop : op ∉ s.flags := by
      intro hm
      have := (List.nodup_append.1 hnd).2.2 ((hfl op).1 hm) (List.mem_cons_self _ _)
      exact this
    have hready : ∀ t p, some t ∈ (g.opObj op).inputs → (g.tensorObj t).source = some p →
        p ∈ s.flags := by
      intro t p ht hp
      obtain ⟨i, hi, hip⟩ := hord pre.length op
        (by rw [List.getElem?_append_right (le_refl _)]; simp) p ⟨t, ht, hp⟩
      rw [List.getElem?_append_left hi] at hip
      exact (hfl p).2 (List.getElem?_mem hip)
    simp only [sortPass, if_neg hop] at h
    cases hsf : sourcesFlagged g s.flags (g.opObj op).inputs with
    | error e => rw [hsf] at h; cases h
    | ok b =>
      have hb := sourcesFlagged_true_of_all g s.flags _ b hsf hready
      subst hb
      rw [hsf] at h
      simp only at h
      have hnd' : ((pre ++ [op]) ++ rest).Nodup := by simpa using hnd
      have hord' : OrderedList g ((pre ++ [op]) ++ rest) := by simpa using hord
      obtain ⟨h1, _⟩ := sortPass_ordered g rest (pre ++ [op]) _ s' (by simp [hs])
        (fun x => by simp [hfl x, or_comm]) hnd' hord' h
      exact ⟨by simpa using h1, fun _ => sortPass_mono g rest _ s' rfl h⟩

/-- C19: when `topo_sort` returns true on a graph with distinct operators, the
operator list it leaves is a permutation of the one it found, and it is that
very list if it was already in topological order. -/
theorem topo_sort_reorders (g g1 : GraphObj) (hd : g.ops.Nodup)
    (h : g.topo_sort = .ok (true, g1)) :
    g1.ops.Perm g.ops ∧ (TopoOrdered g → g1.ops = g.ops) := by
  unfold GraphObj.topo_sort at h
  split at h
  · simp only [Except.ok.injEq, Prod.mk.injEq, true_and] at h
    subst h
    exact ⟨List.Perm.refl _, fun _ => rfl⟩
  · split at h
    · cases h
    · simp at h
    · next l hl =>
      simp only [Except.ok.injEq, Prod.mk.injEq, true_and] at h
      subst h
      obtain ⟨hnd, hsub, hlen⟩ := sortLoop_some g _ [] [] l (sortInv_nil g) hl
      refine ⟨(List.subperm_of_subset hnd hsub).perm_of_length_le hlen, fun hord => ?_⟩
      show l = g.ops
      simp only [sortLoop] at hl
      split at hl
      · next hlt =>
        split at hl
        · cases hl
        · next s' hp =>
          obtain ⟨hs', hmod⟩ := sortPass_ordered g g.ops [] _ s' rfl (fun _ => Iff.rfl)
            (by simpa using hd) (by simpa using hord) hp
          simp only [List.nil_append] at hs'
          have hne : g.ops ≠ [] := by
            intro e
            rw [e] at hlt
            simp at hlt
          rw [if_pos (hmod hne)] at hl
          have hnlt : ¬ s'.sorted.length < g.ops.length := by rw [hs']; omega
          rw [sortLoop_exit g _ _ _ hnlt] at hl
          simp only [Except.ok.injEq, Option.some.injEq] at hl
          rw [← hl, hs']
      · next hnlt =>
        simp only [Except.ok.injEq, Option.some.injEq] at hl
        subst hl
        have : g.ops.length = 0 := by simpa using hnlt
        exact (List.length_eq_zero.1 this).symm

/-- C20: write a shape of rank >= 2 as leading axes followed by its last two
sizes.  `inferShape` with `transA` set on `(la ++ [a1, a2], B)` equals
`inferShape` with `transA` clear on `(la ++ [a2, a1], B)`, likewise for
`transB` and `B`, and with both flags set it equals `inferShape` with no flag
on the two shapes with their last two sizes exchanged; where the leading axes
broadcast to `L`, that common value is `L ++ [a2, b1]`. -/
theorem inferShape_flag_is_swap (tA tB : Bool) (la lb : Shape) (a1 a2 b1 b2 : Nat) :
    MatmulObj.inferShape true tB [la ++ [a1, a2], lb ++ [b1, b2]] =
        MatmulObj.inferShape false tB [la ++ [a2, a1], lb ++ [b1, b2]] ∧
      MatmulObj.inferShape tA true [la ++ [a1, a2], lb ++ [b1, b2]] =
        MatmulObj.inferShape tA false [la ++ [a1, a2], lb ++ [b2, b1]] ∧
      MatmulObj.inferShape true true [la ++ [a1, a2], lb ++ [b1, b2]] =
        MatmulObj.inferShape false false [la ++ [a2, a1], lb ++ [b2, b1]] ∧
      (∀ L, infer_broadcast la lb = .ok L →
        MatmulObj.inferShape true true [la ++ [a1, a2], lb ++ [b1, b2]] =
          .ok (some [L ++ [a2, b1]])) := by
  refine ⟨?_, ?_, ?_, fun L hL => ?_⟩
  · simp [MatmulObj.inferShape, elemAt, swapLastTwo_append]
  · simp [MatmulObj.inferShape, elemAt, swapLastTwo_append]
  · simp [MatmulObj.inferShape, elemAt, swapLastTwo_append]
  · rw [inferShape_split true true la lb L a1 a2 b1 b2 hL]
    rfl

/-- C20 at the shapes (3,2) and (3,4): with `transA` set the result is (2,4),
the result for (2,3) and (3,4) without a flag; with both flags set on (3,2)
and (4,3) it is (2,4) again. -/
theorem inferShape_flag_is_swap_witness :
    MatmulObj.inferShape true false [[3, 2], [3, 4]] = .ok (some [[2, 4]]) ∧
      MatmulObj.inferShape true false [[3, 2], [3, 4]] =
        MatmulObj.inferShape false false [[2, 3], [3, 4]] ∧
      MatmulObj.inferShape true true [[3, 2], [4, 3]] = .ok (some [[2, 4]]) ∧
      MatmulObj.inferShape true true [[3, 2], [4, 3]] =
        MatmulObj.inferShape false false [[2, 3], [3, 4]] ∧
      MatmulObj.inferShape false false [[3, 2], [3, 4]] = .ok (some [[3, 4]]) :=
  ⟨rfl, (inferShape_flag_is_swap true false [] [] 3 2 3 4).1, rfl,
    (inferShape_flag_is_swap true true [] [] 3 2 4 3).2.2.1, rfl⟩

theorem chain_produces (p q : OpId) (h : Produces chainGraph p q) : p = 0 ∧ 0 < q := by
  obtain ⟨t, ht, hs⟩ := h
  rcases q with _ | _ | _ | q
  · simp [chainGraph, chainOps, OperatorObj.blank] at ht
  · simp [chainGraph, chainOps, OperatorObj.blank] at ht
    subst ht
    simp [chainGraph, chainTensors, TensorObj.blank] at hs
    exact ⟨hs.symm, Nat.succ_pos _⟩
  · simp [chainGraph, chainOps, OperatorObj.blank] at ht
    subst ht
    simp [chainGraph, chainTensors, TensorObj.blank] at hs
    exact ⟨hs.symm, Nat.succ_pos _⟩
  · simp [chainGraph, chainOps, OperatorObj.blank] at ht

theorem chain_hyps : chainGraph.ops.Nodup ∧ InputsNonNull chainGraph ∧
    SourcesInOps chainGraph ∧ Acyclic chainGraph := by
  refine ⟨by decide, by unfold InputsNonNull; decide, ?_, ?_⟩
  · intro q _ p hp
    rw [(chain_produces p q hp).1]
    decide
  · refine acyclic_of_rank chainGraph id ?_
    intro p q hp
    obtain ⟨h1, h2⟩ := chain_produces p q hp
    subst h1
    exact h2

/-- C1 (amended) at the two-operator chain listed consumer first. -/
theorem topo_sort_orders_acyclic_witness :
    ∃ g', chainGraph.topo_sort = .ok (true, g') ∧ TopoOrdered g' :=
  topo_sort_orders_acyclic chainGraph (fun h => by cases h) chain_hyps.1 chain_hyps.2.1
    chain_hyps.2.2.1 chain_hyps.2.2.2

/-- C1 as stated fails: the chain listed consumer first with the `sorted` flag
already set meets every hypothesis, yet `topo_sort` returns at once and the
list it leaves is not in topological order. -/
theorem topo_sort_stale_flag :
    staleGraph.ops.Nodup ∧ InputsNonNull staleGraph ∧ SourcesInOps staleGraph ∧
      Acyclic staleGraph ∧
      ¬ ∃ g', staleGraph.topo_sort = .ok (true, g') ∧ TopoOrdered g' := by
  refine ⟨chain_hyps.1, chain_hyps.2.1, chain_hyps.2.2.1, chain_hyps.2.2.2, ?_⟩
  rintro ⟨g', hg', hord⟩
  have h1 : staleGraph.topo_sort = .ok (true, staleGraph) := rfl
  rw [h1] at hg'
  simp only [Except.ok.injEq, Prod.mk.injEq, true_and] at hg'
  subst hg'
  obtain ⟨i, hi, _⟩ := hord 0 1 rfl 0 ⟨0, by decide, rfl⟩
  omega

theorem loop_hasCycle (b : Bool) : HasCycle (loopGraph b) := by
  refine ⟨0, List.mem_singleton.2 rfl, Relation.TransGen.single ⟨0, ?_, rfl⟩⟩
  cases b <;> decide

/-- C2 (amended) at the operator that consumes its own output. -/
theorem topo_sort_cycle_fails_witness :
    (loopGraph false).topo_sort = .ok (false, loopGraph false) :=
  topo_sort_cycle_fails (loopGraph false) rfl (by unfold InputsNonNull; decide)
    (loop_hasCycle false)

/-- C2 as stated fails: on the unsorted self-loop whose operator has a null
first input, `topo_sort` dereferences the null pointer instead of returning
false. -/
theorem topo_sort_null_input_cycle :
    (loopGraph true).sorted = false ∧ HasCycle (loopGraph true) ∧
      (loopGraph true).topo_sort = .error .nullDeref :=
  ⟨rfl, loop_hasCycle true, rfl⟩

/-- C3 at the two-operator chain: the first call sorts it, the second call
returns true on the sorted graph and leaves it alone. -/
theorem topo_sort_idempotent_witness :
    chainGraph.topo_sort = .ok (true, { chainGraph with ops := [0, 1], sorted := true }) ∧
      ({ chainGraph with ops := [0, 1], sorted := true } : GraphObj).topo_sort =
        .ok (true, { chainGraph with ops := [0, 1], sorted := true }) :=
  ⟨rfl, topo_sort_idempotent chainGraph _ rfl⟩

/-- C4 at the chain, adding a second reader of its tensor. -/
theorem addOperatorAndConnect_keeps_checkValid_witness :
    chainGraph.checkValid = .ok true ∧ (chainGraph.addOperatorAndConnect 2).checkValid = .ok true :=
  ⟨rfl, addOperatorAndConnect_keeps_checkValid chainGraph 2 rfl rfl rfl (by decide) (by decide)⟩

/-- C5, the code at the failing input: `checkValid` passes on the fusion example;
`optimize` removes Transpose 1 from the operator list but leaves it among the
successors of MatMul 0, and `checkValid` then throws. -/
theorem optimize_breaks_checkValid :
    fusionGraph.checkValid = .ok true ∧
      (∃ g1, fusionGraph.optimize = .ok g1 ∧ 1 ∉ g1.ops ∧ 0 ∈ g1.ops ∧
        1 ∈ (g1.opObj 0).successors ∧ g1.checkValid = .error .assertion) :=
  ⟨rfl, _, rfl, by decide, by decide, by decide, rfl⟩

/-- C9, the code at the failing input: the graph with one Transpose whose output
has no consumer is valid and offers no rewrite, and `optimize` reads
`getTargets()[0]` of the empty target list. -/
theorem optimize_faults_on_unconsumed_transpose :
    danglingGraph.checkValid = .ok true ∧
      (danglingGraph.tensorObj 1).targets = [] ∧
      danglingGraph.optimize = .error .outOfBounds :=
  ⟨rfl, rfl, rfl⟩

/-- C10, the code at the failing input: `checkValid` passes on the
late-producer example; `topo_sort` returns true and orders it; `optimize` then
removes the two Transposes and lets operator 2 read tensor 0, whose producer,
operator 3, stays in the list behind operator 2.  The `sorted` flag is still
true, the list is not in topological order, and a sort started afresh reorders
it. -/
theorem optimize_leaves_sorted_flag :
    reorderGraph.checkValid = .ok true ∧
      ∃ g1 g2, reorderGraph.topo_sort = .ok (true, g1) ∧ TopoOrdered g1 ∧
        g1.optimize = .ok g2 ∧ g2.sorted = true ∧ g2.ops = [1, 2, 3] ∧
        (g2.opObj 2).inputs = [some 0] ∧ (g2.tensorObj 0).source = some 3 ∧
        ¬ TopoOrdered g2 ∧
        ({ g2 with sorted := false } : GraphObj).topo_sort =
          .ok (true, { g2 with ops := [1, 3, 2], sorted := true }) := by
  refine ⟨rfl, _, _, rfl, topoOrdered_of_check _ rfl, rfl, rfl, rfl, rfl, rfl, ?_, rfl⟩
  intro h
  obtain ⟨i, hi, hp⟩ := h 1 2 rfl 3 ⟨0, by decide, rfl⟩
  interval_cases i
  revert hp
  decide

/-- C7 (amended) at the mixed example, where the first loop removes two
inverse pairs before Transpose 6 is fused into MatMul 7 (first input,
`transA`), and at the mirrored example (second input, `transB`). -/
theorem optimize_fuses_transpose_witness :
    (∃ g', mixedGraph.optimize = .ok g' ∧ g'.ops = [2, 5, 7] ∧
      (g'.opObj 7).inputs = [some 6, some 8] ∧ (g'.opObj 7).transA = true ∧
      ((g'.opObj 7).transFlag false = true ∧
        (g'.opObj 7).transFlag (!false) = (mixedGraph.opObj 7).transFlag (!false) ∧
        (g'.opObj 7).inputs[if false then 1 else 0]? = some (some 6) ∧
        7 ∈ (g'.tensorObj 6).targets ∧ 6 ∉ (g'.tensorObj 6).targets ∧
        6 ∉ g'.ops ∧ 7 ∉ g'.tensors)) ∧
    (∃ g', mirrorGraph.optimize = .ok g' ∧ g'.ops = [1] ∧
      (g'.opObj 1).inputs = [some 2, some 0] ∧ (g'.opObj 1).transB = true ∧
      ((g'.opObj 1).transFlag true = true ∧
        (g'.opObj 1).transFlag (!true) = (mirrorGraph.opObj 1).transFlag (!true) ∧
        (g'.opObj 1).inputs[if true then 1 else 0]? = some (some 0) ∧
        1 ∈ (g'.tensorObj 0).targets ∧ 0 ∉ (g'.tensorObj 0).targets ∧
        0 ∉ g'.ops ∧ 1 ∉ g'.tensors)) :=
  ⟨⟨_, rfl, rfl, rfl, rfl,
      optimize_fuses_transpose mixedGraph _ _ false 7 6 7 8 6 [] rfl (by decide) (by decide)
        rfl rfl rfl rfl rfl rfl rfl (fun p h => by cases h) rfl rfl rfl rfl⟩,
    ⟨_, rfl, rfl, rfl, rfl,
      optimize_fuses_transpose mirrorGraph _ _ true 1 0 1 2 0 [] rfl (by decide) (by decide)
        rfl rfl rfl rfl rfl rfl rfl (fun p h => by cases h) rfl rfl rfl rfl⟩⟩

/-- C7 as stated fails, in two ways. In the inverse-pair example MatMul 2 reads
as first input tensor 2, the output of Transpose 1 (input tensor 1) whose
permutation swaps the last two axes, and its second input has no producer; the
first loop removes the pair first, so after `optimize` `transA` is still false
and the first input of MatMul 2 is tensor 0, not tensor 1. In the prelude
example MatMul 3 reads as first input tensor 3, the output of Transpose 2
(input tensor 2) whose permutation swaps the last two axes; the first loop
removes the pair of Transposes 0 and 1 and makes Transpose 2 read tensor 0, so
after `optimize` the first input of MatMul 3 is tensor 0, not tensor 2, and
MatMul 3 is not a target of tensor 2. -/
theorem optimize_pair_before_fusion :
    (pairGraph.checkValid = .ok true ∧
      (pairGraph.opObj 2).opType = OpType.MatMul ∧
      (pairGraph.opObj 2).inputs = [some 2, some 3] ∧
      (pairGraph.tensorObj 2).source = some 1 ∧
      (pairGraph.opObj 1).opType = OpType.Transpose ∧
      swapsLastTwo (pairGraph.opObj 1).permute = true ∧
      (pairGraph.opObj 1).inputs = [some 1] ∧ (pairGraph.opObj 1).outputs = [some 2] ∧
      (pairGraph.tensorObj 3).source = none ∧
      ∃ g', pairGraph.optimize = .ok g' ∧ (g'.opObj 2).transA = false ∧
        (g'.opObj 2).inputs = [some 0, some 3]) ∧
    (preludeGraph.checkValid = .ok true ∧
      (preludeGraph.opObj 3).opType = OpType.MatMul ∧
      (preludeGraph.opObj 3).inputs = [some 3, some 4] ∧
      (preludeGraph.tensorObj 3).source = some 2 ∧
      (preludeGraph.opObj 2).opType = OpType.Transpose ∧
      swapsLastTwo (preludeGraph.opObj 2).permute = true ∧
      (preludeGraph.opObj 2).inputs = [some 2] ∧
      (preludeGraph.opObj 2).outputs = [some 3] ∧
      (preludeGraph.tensorObj 4).source = none ∧
      (∃ s1, forEachM pass1Step preludeGraph.ops { g := preludeGraph, remove_vec := [] } =
          .ok s1 ∧
        (s1.g.opObj 3).inputs = (preludeGraph.opObj 3).inputs ∧
        (s1.g.opObj 2).inputs = [some 0]) ∧
      ∃ g', preludeGraph.optimize = .ok g' ∧ (g'.opObj 3).transA = true ∧
        (g'.opObj 3).inputs = [some 0, some 4] ∧ 3 ∉ (g'.tensorObj 2).targets) :=
  ⟨⟨rfl, rfl, rfl, rfl, rfl, rfl, rfl, rfl, rfl, _, rfl, rfl, rfl⟩,
    ⟨rfl, rfl, rfl, rfl, rfl, rfl, rfl, rfl, rfl, ⟨_, rfl, rfl, rfl⟩, _, rfl, rfl, rfl,
      by decide⟩⟩

/-- C11 (amended) at the chain of two products: the run sets the shapes of
tensors 2 and 4, every operator then agrees with its shape rule, and a second
run changes nothing. -/
theorem shape_infer_consistent_witness :
    ∃ g', productGraph.shape_infer noRule = .ok g' ∧
      ((∀ op ∈ productGraph.ops, ShapesAgree noRule g' op) ∧
        g'.shape_infer noRule = .ok g') ∧
      (g'.tensorObj 2).dims = [2, 4] ∧ (g'.tensorObj 4).dims = [2, 5] :=
  ⟨_, rfl,
    shape_infer_consistent noRule productGraph _ rfl (topoOrdered_of_check _ rfl)
      (by unfold OutputsOwned; decide) (by unfold OutputsDistinct; decide) rfl,
    ⟨rfl, rfl⟩⟩

/-- C11 as stated fails: `checkValid` passes on the graph in which two MatMul
operators name the same output, the list is in topological order and both
shape rules succeed, yet after `shape_infer` the output of operator 0 holds
the shape computed for operator 1, not the shape its own rule returns. -/
theorem shape_infer_two_producers :
    twinGraph.checkValid = .ok true ∧ TopoOrdered twinGraph ∧
      ∃ g', twinGraph.shape_infer noRule = .ok g' ∧
        inferShapeOf noRule g' 0 = .ok (some [[2, 4]]) ∧
        (g'.opObj 0).outputs = [some 3] ∧ (g'.tensorObj 3).dims = [5, 4] ∧
        ¬ ShapesAgree noRule g' 0 := by
  refine ⟨rfl, topoOrdered_of_check _ rfl, _, rfl, ?_⟩
  refine ⟨rfl, rfl, rfl, ?_⟩
  rintro ⟨ans, ha, hf⟩
  have ha' : Except.ok (some [[2, 4]]) = Except.ok (some ans) := ha
  cases ha'
  have hf' : List.Forall₂ _ [some 3] [[2, 4]] := hf
  cases hf' with
  | cons hd _ =>
    obtain ⟨t, ht, hdim⟩ := hd
    cases ht
    exact absurd hdim (by decide)

/-- C12 (amended) at the chain of two products: the lists are kept and every
tensor whose shape changed is an output of a listed operator. -/
theorem shape_infer_frame_witness :
    ∃ g', productGraph.shape_infer noRule = .ok g' ∧ g'.ops = productGraph.ops ∧
      g'.tensors = productGraph.tensors ∧
      ∀ u, (g'.tensorObj u).dims ≠ (productGraph.tensorObj u).dims →
        ∃ op ∈ productGraph.ops, some u ∈ (productGraph.opObj op).outputs :=
  ⟨_, rfl, (shape_infer_frame noRule productGraph _ rfl).1,
    (shape_infer_frame noRule productGraph _ rfl).2.1,
    (shape_infer_frame noRule productGraph _ rfl).2.2.2.2.2.2 rfl⟩

/-- C12 as stated fails: in the graph whose output tensor 2 shares its fuid
with the input tensor 0, `shape_infer` completes and changes the shape of
tensor 0, which no operator of the graph lists as an output. -/
theorem shape_infer_writes_fuid_match :
    ∃ g', echoGraph.shape_infer noRule = .ok g' ∧
      (echoGraph.tensorObj 0).dims = [2, 3] ∧ (g'.tensorObj 0).dims = [2, 4] ∧
      ∀ op ∈ echoGraph.ops, some 0 ∉ (echoGraph.opObj op).outputs :=
  ⟨_, rfl, rfl, ⟨rfl, by decide⟩⟩

/-- C17 at the two rotations of three axes, which are mutual inverses. -/
theorem isInverse_decides_witness :
    ∃ r, isInverse (OperatorObj.make .Transpose [] [] [1, 2, 0])
        (OperatorObj.make .Transpose [] [] [2, 0, 1]) = .ok r ∧
      (r = true ↔ ComposesToId [1, 2, 0] [2, 0, 1] 3) ∧
      isInverse (OperatorObj.make .Transpose [] [] [2, 0, 1])
        (OperatorObj.make .Transpose [] [] [1, 2, 0]) = .ok r :=
  isInverse_decides (OperatorObj.make .Transpose [] [] [1, 2, 0])
    (OperatorObj.make .Transpose [] [] [2, 0, 1]) 3
    (by unfold IsPermutation; decide) (by unfold IsPermutation; decide)

/-- C19 at the two-operator chain listed consumer first: sorting swaps the two
operators and loses none. -/
theorem topo_sort_reorders_witness :
    chainGraph.topo_sort = .ok (true, { chainGraph with ops := [0, 1], sorted := true }) ∧
      ([0, 1] : List OpId).Perm chainGraph.ops ∧
      (TopoOrdered chainGraph → ([0, 1] : List OpId) = chainGraph.ops) :=
  ⟨rfl, topo_sort_reorders chainGraph { chainGraph with ops := [0, 1], sorted := true }
    (by decide) rfl⟩

/-- C18 at the operator that consumes its own output: two passes settle the
cyclic graph, the second placing nothing. -/
theorem topo_sort_terminates_witness :
    (loopGraph false).topo_sort ≠ .error .outOfFuel ∧
      (loopGraph false).topo_sort = .ok (false, loopGraph false) :=
  ⟨(topo_sort_terminates (loopGraph false)).1, rfl⟩

theorem ordered_chain (g : GraphObj) (hord : TopoOrdered g) (a b : OpId)
    (h : Relation.TransGen (Produces g) a b) :
    ∀ j : Nat, g.ops[j]? = some b → ∃ i : Nat, i < j ∧ g.ops[i]? = some a := by
  induction h with
  | single h1 => exact fun j hj => hord j _ hj a h1
  | tail _ h2 ih =>
    intro j hj
    obtain ⟨k, hk, hkb⟩ := hord j _ hj _ h2
    obtain ⟨i, hi, hia⟩ := ih k hkb
    exact ⟨i, by omega, hia⟩

theorem acyclic_of_ordered (g : GraphObj) (hord : TopoOrdered g) : Acyclic g := by
  intro p hp hcyc
  have key : ∀ j : Nat, g.ops[j]? ≠ some p := by
    intro j
    induction j using Nat.strong_induction_on with
    | _ j ih =>
      intro hj
      obtain ⟨i, hi, hip⟩ := ordered_chain g hord p p hcyc j hj
      exact ih i hi hip
  obtain ⟨j, hj, hget⟩ := List.getElem_of_mem hp
  exact key j (by rw [List.getElem?_eq_getElem hj, hget])

/-- C14 (amended) at the chain of two products with four-byte elements and
eight-byte alignment: the five tensors are bound at 4096, 4120, 4168, 4176 and
4256. -/
theorem dataMalloc_disjoint_witness :
    ∃ g' a', productGraph.dataMalloc fourBytes wordAllocator = .ok (g', a') ∧
      g'.tensors = productGraph.tensors ∧
      (productGraph.tensors.map fun t => (g'.tensorObj t).data) =
        [some 4096, some 4120, some 4168, some 4176, some 4256] := by
  obtain ⟨g', a', h, ht, _, _, _⟩ := dataMalloc_disjoint fourBytes productGraph wordAllocator
    rfl (by decide) (acyclic_of_ordered _ (topoOrdered_of_check _ rfl))
  refine ⟨g', a', h, ht, ?_⟩
  have h2 : productGraph.dataMalloc fourBytes wordAllocator = .ok (g', a') := h
  cases h2
  rfl

/-- C14 as stated fails: a graph without operators is acyclic, yet when its
tensor list names one tensor twice `dataMalloc` leaves the tensor at position 0
bound to the second offset; and on the acyclic graph to which one operator was
added twice `dataMalloc` stops at its assertion and binds nothing. -/
theorem dataMalloc_needs_distinct :
    (Acyclic echoedTensorGraph ∧
      (allocAll fourBytes echoedTensorGraph echoedTensorGraph.tensors wordAllocator).1 =
        [0, 16] ∧
      ∃ g' a', echoedTensorGraph.dataMalloc fourBytes wordAllocator = .ok (g', a') ∧
        (g'.tensorObj 0).data = some (4096 + 16)) ∧
      (Acyclic twiceAddedGraph ∧
        twiceAddedGraph.dataMalloc fourBytes wordAllocator = .error .assertion) :=
  ⟨⟨acyclic_of_ordered _ (topoOrdered_of_check _ rfl), rfl, _, _, rfl, rfl⟩,
    acyclic_of_ordered _ (topoOrdered_of_check _ rfl), rfl⟩

/-- C15: in the cube example `checkValid` passes, each Transpose output has
the shape its permutation gives, and the two permutations do not compose to
the identity (`isInverse` returns false); the test of the first loop holds all
the same, and `optimize` removes both Transposes and lets operator 2 read
tensor 0. -/
theorem optimize_removes_non_inverse_pair :
    cubeGraph.checkValid = .ok true ∧
      (cubeGraph.tensorObj 1).dims =
        transposedDims (cubeGraph.opObj 0).permute (cubeGraph.tensorObj 0).dims ∧
      (cubeGraph.tensorObj 2).dims =
        transposedDims (cubeGraph.opObj 1).permute (cubeGraph.tensorObj 1).dims ∧
      (cubeGraph.tensorObj 2).dims = (cubeGraph.tensorObj 0).dims ∧
      isInverse (cubeGraph.opObj 0) (cubeGraph.opObj 1) = .ok false ∧
      ¬ ComposesToId (cubeGraph.opObj 0).permute (cubeGraph.opObj 1).permute 3 ∧
      ∃ g', cubeGraph.optimize = .ok g' ∧ g'.ops = [2] ∧ g'.tensors = [0] ∧
        (g'.opObj 2).inputs = [some 0] := by
  refine ⟨rfl, rfl, rfl, rfl, rfl, ?_, _, rfl, rfl, rfl, rfl⟩
  intro h
  obtain ⟨j, hj, hk⟩ := h 0 (by decide)
  have hj' : ([0, 2, 1] : List Int)[0]? = some (j : Int) := hj
  simp only [List.getElem?_cons_zero, Option.some.injEq] at hj'
  have hj0 : j = 0 := by omega
  subst hj0
  have hk' : ([1, 0, 2] : List Int)[0]? = some ((0 : Nat) : Int) := hk
  simp at hk'

/-- C16, the code at the failing inputs.  In the preset-flag example
`checkValid` passes, the permutation of Transpose 0 is the plain swap of two
axes and the shapes follow it, and MatMul 1 was constructed with `transA` set;
before `optimize` it infers the shape 2x5, after `optimize` it reads tensor 0
with `transA` still set, not cleared, and infers 3x5.  In the skew example the
permutation passes the fusion test although it also exchanges the first two
axes; MatMul 1 infers 3x1x5x6 before `optimize` and 1x3x5x6 after. -/
theorem optimize_fusion_changes_shape :
    (presetGraph.checkValid = .ok true ∧
      (presetGraph.opObj 0).permute = [1, 0] ∧
      (presetGraph.tensorObj 1).dims =
        transposedDims (presetGraph.opObj 0).permute (presetGraph.tensorObj 0).dims ∧
      (presetGraph.opObj 1).transA = true ∧ (presetGraph.opObj 1).transB = false ∧
      inferShapeOf noRule presetGraph 1 = .ok (some [[2, 5]]) ∧
      ∃ g', presetGraph.optimize = .ok g' ∧ (g'.opObj 1).inputs = [some 0, some 2] ∧
        (g'.opObj 1).transA = true ∧ (g'.opObj 1).transB = false ∧
        inferShapeOf noRule g' 1 = .ok (some [[3, 5]])) ∧
    (skewGraph.checkValid = .ok true ∧
      swapsLastTwo (skewGraph.opObj 0).permute = true ∧
      (skewGraph.tensorObj 1).dims =
        transposedDims (skewGraph.opObj 0).permute (skewGraph.tensorObj 0).dims ∧
      (skewGraph.opObj 1).transA = false ∧ (skewGraph.opObj 1).transB = false ∧
      inferShapeOf noRule skewGraph 1 = .ok (some [[3, 1, 5, 6]]) ∧
      ∃ g', skewGraph.optimize = .ok g' ∧ (g'.opObj 1).inputs = [some 0, some 2] ∧
        (g'.opObj 1).transA = true ∧
        inferShapeOf noRule g' 1 = .ok (some [[1, 3, 5, 6]])) :=
  ⟨⟨rfl, rfl, rfl, rfl, rfl, rfl, _, rfl, rfl, rfl, rfl, rfl⟩,
    ⟨rfl, rfl, rfl, rfl, rfl, rfl, _, rfl, rfl, rfl, rfl⟩⟩

theorem productOps_fresh (i : OpId) :
    (productOps i).predecessors = [] ∧ (productOps i).successors = [] := by
  unfold productOps
  split <;> exact ⟨rfl, rfl⟩

theorem lateProducer_built : Built lateProducerGraph :=
  Built.addOperator _ 0
    (Built.addOperator _ 1
      (Built.addTensor _ 4 4 [2, 5]
        (Built.addTensor _ 3 3 [4, 5]
          (Built.addTensor _ 2 2 [2, 4]
            (Built.addTensor _ 1 1 [3, 4]
              (Built.addTensor _ 0 0 [2, 3] (Built.init productOps productOps_fresh)
                (by decide))
              (by decide))
            (by decide))
          (by decide))
        (by decide))
      (by decide))
    (by decide)

/-- C13 at the product chain built with the consumer added before its
producer: the edge between the two operators is there in both directions. -/
theorem built_edges_reflect_witness :
    ((∀ p ∈ lateProducerGraph.ops, ∀ q ∈ lateProducerGraph.ops,
      (q ∈ (lateProducerGraph.opObj p).successors ↔
        p ∈ (lateProducerGraph.opObj q).predecessors) ∧
      (p ∈ (lateProducerGraph.opObj q).predecessors ↔
        ∃ t, some t ∈ (lateProducerGraph.opObj p).outputs ∧
          some t ∈ (lateProducerGraph.opObj q).inputs)) ∧
      (∀ t p, (lateProducerGraph.tensorObj t).source = some p ↔
        p ∈ lateProducerGraph.ops ∧ some t ∈ (lateProducerGraph.opObj p).outputs) ∧
      (∀ t q, q ∈ (lateProducerGraph.tensorObj t).targets ↔
        q ∈ lateProducerGraph.ops ∧ some t ∈ (lateProducerGraph.opObj q).inputs)) ∧
      lateProducerGraph.ops = [1, 0] ∧
      (lateProducerGraph.opObj 0).successors = [1] ∧
      (lateProducerGraph.opObj 1).predecessors = [0] :=
  ⟨built_edges_reflect lateProducerGraph lateProducer_built, rfl, rfl, rfl⟩

end infini
